import Mathlib

/-!
# rtnetlink message codec and dump drivers of `netdev/netlink.c`

A shallow embedding of `src/netdev/netlink.c`.

* Memory is a list of bytes (`Buf`); a C pointer into a buffer is an offset.
* Multi-byte fields are read and written in host byte order, which is a
  parameter (`Endian`) of every definition that touches one.
* A store outside the buffer (undefined behaviour in C) makes the builder
  return `none`.
* The macros of `<linux/netlink.h>` and `<linux/rtnetlink.h>` are transcribed
  with their C integer conversions.
-/

namespace Netlink

/-! ## Bytes and fields -/

/-- Host byte order. -/
inductive Endian where
  | little
  | big
deriving DecidableEq, Repr

/-- A region of memory, as a list of bytes; offset `0` is where the C pointer points. -/
abbrev Buf := List Nat

/-- The byte at offset `i`; offsets past the end of the list read as `0`. -/
def byteAt (m : Buf) (i : Nat) : Nat := m.getD i 0 % 256

/-- Read an `unsigned short` at offset `o`. -/
def load16 (e : Endian) (m : Buf) (o : Nat) : Nat :=
  match e with
  | .little => byteAt m o + 256 * byteAt m (o + 1)
  | .big => 256 * byteAt m o + byteAt m (o + 1)

/-- Read a 32-bit unsigned field at offset `o`. -/
def load32 (e : Endian) (m : Buf) (o : Nat) : Nat :=
  match e with
  | .little =>
    byteAt m o + 256 * byteAt m (o + 1) + 65536 * byteAt m (o + 2) + 16777216 * byteAt m (o + 3)
  | .big =>
    16777216 * byteAt m o + 65536 * byteAt m (o + 1) + 256 * byteAt m (o + 2) + byteAt m (o + 3)

/-- The two bytes of an `unsigned short`; the value is truncated to 16 bits. -/
def bytes16 (e : Endian) (v : Nat) : List Nat :=
  match e with
  | .little => [v % 256, v / 256 % 256]
  | .big => [v / 256 % 256, v % 256]

/-- The four bytes of a 32-bit field; the value is truncated to 32 bits. -/
def bytes32 (e : Endian) (v : Nat) : List Nat :=
  match e with
  | .little => [v % 256, v / 256 % 256, v / 65536 % 256, v / 16777216 % 256]
  | .big => [v / 16777216 % 256, v / 65536 % 256, v / 256 % 256, v % 256]

/-- Overwrite `bs.length` bytes at offset `o`. -/
def put (m : Buf) (o : Nat) (bs : List Nat) : Buf :=
  m.take o ++ bs ++ m.drop (o + bs.length)

/-- A store through a computed pointer: `none` when the range leaves the buffer. -/
def store (m : Buf) (o : Nat) (bs : List Nat) : Option Buf :=
  if o + bs.length ≤ m.length then some (put m o bs) else none

/-- The C function `memcpy(m + o, data, n)`: `none` when the source has fewer than `n` bytes or the
destination range leaves the buffer. -/
def memcpy (m : Buf) (o : Nat) (data : List Nat) (n : Nat) : Option Buf :=
  if n ≤ data.length then store m o (data.take n) else none

/-- The C function `memset(&r, 0, size)` on a fresh object of `size` bytes. -/
def zeroed (size : Nat) : Buf := List.replicate size 0

/-- The bytes of the C string that starts at the beginning of `mem` (terminator excluded). -/
def cstr (mem : List Nat) : List Nat := mem.takeWhile (fun c => c % 256 != 0)

/-- The C function `strlen`. -/
def strlen (mem : List Nat) : Nat := (cstr mem).length

/-- The C function `strdup(m + o)`. -/
def strdup (m : Buf) (o : Nat) : List Nat := cstr (m.drop o)

/-! ## Sizes and constants of the kernel headers -/

/-- The value of `sizeof(struct nlmsghdr)`. -/
def sizeof_nlmsghdr : Nat := 16
/-- The value of `sizeof(struct rtattr)`. -/
def sizeof_rtattr : Nat := 4
/-- The value of `sizeof(struct ifinfomsg)`. -/
def sizeof_ifinfomsg : Nat := 16
/-- The value of `sizeof(struct ifaddrmsg)`. -/
def sizeof_ifaddrmsg : Nat := 8
/-- The value of `sizeof(struct ndmsg)`. -/
def sizeof_ndmsg : Nat := 12

def NLMSG_DONE : Nat := 3
def RTM_NEWLINK : Nat := 16
def RTM_GETLINK : Nat := 18
def RTM_NEWADDR : Nat := 20
def RTM_GETNEIGH : Nat := 30
def NLM_F_REQUEST : Nat := 1
def NLM_F_EXCL : Nat := 512
def NLM_F_CREATE : Nat := 1024
def AF_INET : Nat := 2
def AF_PACKET : Nat := 17
def PF_BRIDGE : Nat := 7
def IFLA_MASTER : Nat := 10
def IFLA_IFNAME : Nat := 3
def IFLA_LINKINFO : Nat := 18
def IFLA_INFO_KIND : Nat := 1
def IFA_ADDRESS : Nat := 1
def IFA_LOCAL : Nat := 2
def IFA_BROADCAST : Nat := 4
def NDA_LLADDR : Nat := 2
def IFF_UP : Nat := 1

/-! ## Header fields -/

/-- Field `nlmsg_len` of the `struct nlmsghdr` at offset `nh`. -/
def nlmsg_len (e : Endian) (m : Buf) (nh : Nat) : Nat := load32 e m nh
/-- Field `nlmsg_type` of the `struct nlmsghdr` at offset `nh`. -/
def nlmsg_type (e : Endian) (m : Buf) (nh : Nat) : Nat := load16 e m (nh + 4)
/-- Field `nlmsg_flags` of the `struct nlmsghdr` at offset `nh`. -/
def nlmsg_flags (e : Endian) (m : Buf) (nh : Nat) : Nat := load16 e m (nh + 6)
/-- Field `rta_len` of the `struct rtattr` at offset `rta`. -/
def rta_len (e : Endian) (m : Buf) (rta : Nat) : Nat := load16 e m rta
/-- Field `rta_type` of the `struct rtattr` at offset `rta`. -/
def rta_type (e : Endian) (m : Buf) (rta : Nat) : Nat := load16 e m (rta + 2)

/-! ## Macros of `<linux/netlink.h>` and `<linux/rtnetlink.h>` -/

/-- Macro `NLMSG_ALIGN(len)`, that is `((len)+NLMSG_ALIGNTO-1) & ~(NLMSG_ALIGNTO-1)` with
`NLMSG_ALIGNTO = 4U`, in 32-bit unsigned arithmetic. -/
def NLMSG_ALIGN (len : Nat) : Nat := ((len + 4 - 1) % 4294967296) &&& 4294967292

/-- Macro `RTA_ALIGN(len)`, that is `((len)+RTA_ALIGNTO-1) & ~(RTA_ALIGNTO-1)` with
`RTA_ALIGNTO = 4U`, in 32-bit unsigned arithmetic. -/
def RTA_ALIGN (len : Nat) : Nat := ((len + 4 - 1) % 4294967296) &&& 4294967292

/-- Macro `NLMSG_HDRLEN`. -/
def NLMSG_HDRLEN : Nat := NLMSG_ALIGN sizeof_nlmsghdr

/-- Macro `NLMSG_LENGTH(len)`. -/
def NLMSG_LENGTH (len : Nat) : Nat := len + NLMSG_HDRLEN

/-- Macro `NLMSG_DATA(nlh)`, as an offset. -/
def NLMSG_DATA (nh : Nat) : Nat := nh + NLMSG_LENGTH 0

/-- Macro `RTA_LENGTH(len)`. -/
def RTA_LENGTH (len : Nat) : Nat := RTA_ALIGN sizeof_rtattr + len

/-- Macro `RTA_DATA(rta)`, as an offset. -/
def RTA_DATA (rta : Nat) : Nat := rta + RTA_LENGTH 0

/-- Macro `RTA_PAYLOAD(rta)`, an `int`. -/
def RTA_PAYLOAD (e : Endian) (m : Buf) (rta : Nat) : Int :=
  (rta_len e m rta : Int) - (RTA_LENGTH 0 : Nat)

/-- Macro `RTA_OK(rta,len)`: `len >= (int)sizeof(struct rtattr) && rta->rta_len >= sizeof(struct
rtattr) && rta->rta_len <= len`, where `len` is an `int`. -/
def RTA_OK (e : Endian) (m : Buf) (rta : Nat) (len : Int) : Bool :=
  decide ((sizeof_rtattr : Int) ≤ len) && decide (sizeof_rtattr ≤ rta_len e m rta)
    && decide ((rta_len e m rta : Int) ≤ len)

/-- Macro `RTA_NEXT(rta,attrlen)`: the next attribute and the budget left. -/
def RTA_NEXT (e : Endian) (m : Buf) (rta : Nat) (attrlen : Int) : Nat × Int :=
  (rta + RTA_ALIGN (rta_len e m rta), attrlen - (RTA_ALIGN (rta_len e m rta) : Nat))

/-- Macro `IFLA_RTA(r)`, as an offset. -/
def IFLA_RTA (r : Nat) : Nat := r + NLMSG_ALIGN sizeof_ifinfomsg

/-- Macro `NLMSG_OK(nlh,len)`: `len >= (int)sizeof(struct nlmsghdr) && nlh->nlmsg_len >=
sizeof(struct nlmsghdr) && nlh->nlmsg_len <= len`; the last comparison is unsigned, `len` being
converted to 32-bit unsigned. -/
def NLMSG_OK (e : Endian) (m : Buf) (nh : Nat) (len : Int) : Bool :=
  decide ((sizeof_nlmsghdr : Int) ≤ len) && decide (sizeof_nlmsghdr ≤ nlmsg_len e m nh)
    && decide ((nlmsg_len e m nh : Int) ≤ len % 4294967296)

/-- Macro `NLMSG_NEXT(nlh,len)`: the next message and the length left. -/
def NLMSG_NEXT (e : Endian) (m : Buf) (nh : Nat) (len : Int) : Nat × Int :=
  (nh + NLMSG_ALIGN (nlmsg_len e m nh), len - (NLMSG_ALIGN (nlmsg_len e m nh) : Nat))

/-! ## The attribute encoder -/

/-- The function `add_netlink_msg(nh, type, data, raw_data_length)` (netlink.c lines 42-53).
The buffer `nh` starts at the message header; `data` is the memory `data` points to (`[]` for
`NULL`). The four statements are executed in source order, each a store into the buffer. -/
def add_netlink_msg (e : Endian) (nh : Buf) (type : Nat) (data : List Nat)
    (raw_data_length : Nat) : Option Buf :=
  let rta_length := RTA_LENGTH raw_data_length % 4294967296
  let rta := NLMSG_ALIGN (nlmsg_len e nh 0)
  (store nh (rta + 2) (bytes16 e type)).bind fun m1 =>
  (store m1 rta (bytes16 e rta_length)).bind fun m2 =>
  (store m2 0 (bytes32 e (NLMSG_ALIGN (nlmsg_len e m2 0) + RTA_ALIGN rta_length))).bind fun m3 =>
  memcpy m3 (RTA_DATA rta) data raw_data_length

/-! ## Specification-side helpers -/

/-- The spec's `align(x) = (x + 3) & ~3` on natural numbers. -/
def align (x : Nat) : Nat := (x + 3) / 4 * 4

/-- A sequence of `add_netlink_msg(nh, type, data, raw_data_length)` calls on one message, in
order; each call is given as `(type, data, raw_data_length)`. -/
def add_netlink_msgs (e : Endian) (nh : Buf) : List (Nat × List Nat × Nat) → Option Buf
  | [] => some nh
  | c :: rest => (add_netlink_msg e nh c.1 c.2.1 c.2.2).bind fun m => add_netlink_msgs e m rest

/-- The sum of `align(4 + n)` over the payload lengths of a sequence of calls. -/
def attrs_space (calls : List (Nat × List Nat × Nat)) : Nat :=
  (calls.map fun c => align (4 + c.2.2)).sum

/-- The offsets at which a sequence of calls places its attributes, the first one at `B`. -/
def attr_offsets (B : Nat) : List (Nat × List Nat × Nat) → List Nat
  | [] => []
  | c :: rest => B :: attr_offsets (B + align (4 + c.2.2)) rest

/-! ## Message builders -/

/-- Lines 78-82 of `create_bridge`: remember where the container starts (`linkinfo`), append the
container with no payload, append one nested attribute, then patch the container's `rta_len`
with `(int)((char*)nh + NLMSG_ALIGN(nh->nlmsg_len) - (char*)linkinfo)`, stored in an
`unsigned short`. The container type, the nested type and the nested payload are parameters;
`create_bridge` passes `IFLA_LINKINFO`, `IFLA_INFO_KIND` and the string `"bridge"`. -/
def nest_attr (e : Endian) (nh : Buf) (ctype ntype : Nat) (data : List Nat) (L : Nat) :
    Option Buf :=
  let linkinfo := NLMSG_ALIGN (nlmsg_len e nh 0)
  (add_netlink_msg e nh ctype [] 0).bind fun m1 =>
  (add_netlink_msg e m1 ntype data L).bind fun m2 =>
  store m2 linkinfo
    (bytes16 e ((((NLMSG_ALIGN (nlmsg_len e m2 0) : Nat) : Int) - (linkinfo : Nat)) % 65536).toNat)

/-- The C string literal `"bridge"`, without its terminator. -/
def dev_type : List Nat := [98, 114, 105, 100, 103, 101]

/-- The scratch structure of `create_bridge`, `join_bridge` and `dev_up` after `memset`:
a `struct nlmsghdr`, a `struct ifinfomsg` and 1024 spare bytes. -/
def link_scratch : Buf := zeroed (sizeof_nlmsghdr + sizeof_ifinfomsg + 1024)

/-- Lines 67-74 of `create_bridge`: the zeroed scratch structure with `nlmsg_len`,
`nlmsg_flags`, `nlmsg_type`, `ifi_family` and `ifi_index` assigned, in source order. -/
def create_bridge_init (e : Endian) : Buf :=
  let r := link_scratch
  let r := put r 0 (bytes32 e (NLMSG_LENGTH sizeof_ifinfomsg))
  let r := put r 6 (bytes16 e (NLM_F_REQUEST ||| NLM_F_CREATE ||| NLM_F_EXCL))
  let r := put r 4 (bytes16 e RTM_NEWLINK)
  let r := put r 16 [AF_PACKET % 256]
  put r 20 (bytes32 e 0)

/-- The function `create_bridge(name)` (netlink.c lines 55-87). `name` is the memory at the
pointer; the string read from it is `cstr name` followed by its terminator. The result is the
byte string handed to `send` together with the return value; `none` when a store leaves `r`. -/
def create_bridge (e : Endian) (name : List Nat) : Option (List Nat × Int) :=
  (add_netlink_msg e (create_bridge_init e) IFLA_IFNAME (cstr name ++ [0])
    (strlen name + 1)).bind fun r =>
  (nest_attr e r IFLA_LINKINFO IFLA_INFO_KIND (dev_type ++ [0]) (strlen dev_type + 1)).bind
    fun r =>
  some (r.take (nlmsg_len e r 0), 0)

/-- Lines 139-145 of `set_ip_address`: the loop `for(b = 32-netmask-1; b >= 0; b--) broadcast |=
(1<<b);` on the 32-bit `broadcast`. The first argument is `b + 1`, the number of iterations
left; the iteration for `b = k` ors in the bit pattern of `1<<k`. -/
def broadcast_loop : Nat → Nat → Nat
  | 0, broadcast => broadcast
  | k + 1, broadcast =>
    broadcast_loop k ((broadcast ||| ((1 <<< k) % 4294967296)) % 4294967296)

/-- The value of `broadcast` in `set_ip_address(ip, netmask, devname)` after the loop of lines
143-145 and before `htonl`: `broadcast` starts as `ip`, `b` starts as `32-netmask-1`. -/
def set_ip_address_broadcast (ip : Nat) (netmask : Int) : Nat :=
  broadcast_loop ((32 - netmask - 1) + 1).toNat ip

/-! ## Dump drivers -/

/-- One `read(rtnetlink_sock_fd, recv_buff, sizeof(recv_buff))`: the value returned and the
contents of `recv_buff` afterwards (bytes at and past the returned length are whatever the
buffer held before). -/
abbrev Read := Int × Buf

/-- Conversion of a 32-bit unsigned value to `int`, as in `int l = nh->nlmsg_len`. -/
def int_of_u32 (x : Nat) : Int :=
  if x % 4294967296 < 2147483648 then (x % 4294967296 : Nat) else (x % 4294967296 : Nat) - 4294967296

/-- The inner loop shared by `get_netdev_names` (lines 226-246) and `get_fdb` (lines 287-321):
`while(NLMSG_OK(nh, len)){ if(nh->nlmsg_type == NLMSG_DONE) goto end_of_netlink_messages;
<body>; nh = NLMSG_NEXT(nh, len); }`. The result is `true` when the `goto` was taken. The first
argument bounds the number of iterations; `len.toNat` is enough, as every accepted message
lowers `len` by at least 16. -/
def msg_walk {σ : Type} (e : Endian) (body : Buf → Nat → σ → σ) (buf : Buf) :
    Nat → Nat → Int → σ → Bool × σ
  | 0, _, _, st => (false, st)
  | fuel + 1, nh, len, st =>
    if NLMSG_OK e buf nh len then
      if nlmsg_type e buf nh = NLMSG_DONE then (true, st)
      else msg_walk e body buf fuel (NLMSG_NEXT e buf nh len).1 (NLMSG_NEXT e buf nh len).2
        (body buf nh st)
    else (false, st)

/-- The outer loop shared by `get_netdev_names` (lines 219-247) and `get_fdb` (lines 280-322):
`while(1){ len = read(...); nh = recv_buff; <inner loop> }`, left through the `goto`. The reads
are taken from the list in order; the result holds the reads not performed. `none` when the
reads run out before a terminator: the next `read` does not return. -/
def dump_loop {σ : Type} (e : Endian) (body : Buf → Nat → σ → σ) :
    List Read → σ → Option (σ × List Read)
  | [], _ => none
  | r :: rest, st =>
    match msg_walk e body r.2 r.1.toNat 0 r.1 st with
    | (true, st') => some (st', rest)
    | (false, st') => dump_loop e body rest st'

/-- The attribute loop of `get_netdev_names` (lines 237-243): `while(RTA_OK(rta, l)){
if(rta->rta_type == IFLA_IFNAME) device_names[n_devices - 1] = strdup(RTA_DATA(rta)); rta =
RTA_NEXT(rta,l); }`, acting on the slot `device_names[n_devices - 1]`. The first argument bounds
the number of iterations; `l.toNat` is enough, as every accepted attribute lowers `l` by at
least 4. -/
def names_rta_walk (e : Endian) (buf : Buf) :
    Nat → Nat → Int → Option (List Nat) → Option (List Nat)
  | 0, _, _, slot => slot
  | fuel + 1, rta, l, slot =>
    if RTA_OK e buf rta l then
      names_rta_walk e buf fuel (RTA_NEXT e buf rta l).1 (RTA_NEXT e buf rta l).2
        (if rta_type e buf rta = IFLA_IFNAME then some (strdup buf (RTA_DATA rta)) else slot)
    else slot

/-- The variables `n_devices` and `device_names` of `get_netdev_names`. A slot is `none` while
it holds the indeterminate pointer `realloc` left there. -/
structure Names where
  n_devices : Nat
  device_names : List (Option (List Nat))
deriving DecidableEq, Repr

/-- Lines 231-243 of `get_netdev_names`, for the message at offset `nh`: count it, grow
`device_names` by one slot, and walk the attributes from `IFLA_RTA(NLMSG_DATA(nh))` with budget
`int l = nh->nlmsg_len`. The new slot is `device_names[n_devices - 1]`. -/
def names_body (e : Endian) (buf : Buf) (nh : Nat) (st : Names) : Names :=
  let l := int_of_u32 (nlmsg_len e buf nh)
  { n_devices := st.n_devices + 1
    device_names := st.device_names ++
      [names_rta_walk e buf l.toNat (IFLA_RTA (NLMSG_DATA nh)) l none] }

/-- The function `get_netdev_names(results)` (lines 197-254) on the replies `stream`: the return
value `n_devices`, the list stored in `*results`, and the reads not performed. The request sent
first does not influence the result. -/
def get_netdev_names (e : Endian) (stream : List Read) :
    Option (Nat × List (Option (List Nat)) × List Read) :=
  (dump_loop e (names_body e) stream { n_devices := 0, device_names := [] }).map
    fun r => (r.1.n_devices, r.1.device_names, r.2)

/-- Modelled from the spec: `struct fib` of `netlink.h`, which is not under `src/`: a destination
interface name and a 6-byte link-layer address. `destination` is `none` when `if_indextoname`
failed and `strdup` copied the uninitialised `devname`. `addr i` is the byte at `addr + i`;
offsets `0..5` are the field, larger offsets lie past it. -/
structure fib where
  destination : Option (List Nat)
  addr : Nat → Nat

/-- Lines 313-314 of `get_fdb`: `for(i=0;i<RTA_PAYLOAD(rta);i++) fibs[n_fibs - 1].addr[i] =
((unsigned char*)RTA_DATA(rta))[i];` with `n` the payload length and `data` the offset
`RTA_DATA(rta)`. -/
def copy_lladdr (buf : Buf) (data : Nat) (n : Nat) (addr : Nat → Nat) : Nat → Nat :=
  (List.range n).foldl (fun a i => Function.update a i (byteAt buf (data + i))) addr

/-- The attribute loop of `get_fdb` (lines 309-318), acting on `fibs[n_fibs - 1].addr`. The
first argument bounds the number of iterations, as in `names_rta_walk`. -/
def fdb_rta_walk (e : Endian) (buf : Buf) : Nat → Nat → Int → (Nat → Nat) → Nat → Nat
  | 0, _, _, addr => addr
  | fuel + 1, rta, l, addr =>
    if RTA_OK e buf rta l then
      fdb_rta_walk e buf fuel (RTA_NEXT e buf rta l).1 (RTA_NEXT e buf rta l).2
        (if rta_type e buf rta = NDA_LLADDR then
          copy_lladdr buf (RTA_DATA rta) (RTA_PAYLOAD e buf rta).toNat addr
        else addr)
    else addr

/-- The variables `n_fibs` and `fibs` of `get_fdb`. -/
structure Fdb where
  n_fibs : Nat
  fibs : List fib

/-- Lines 292-318 of `get_fdb`, for the message at offset `nh`: count it, grow `fibs` by one
record, set its `destination` from `if_indextoname(_ndmsg->ndm_ifindex, devname)`, and walk the
attributes from `IFLA_RTA(NLMSG_DATA(nh)) - 4` with budget `int l = nh->nlmsg_len`. `fresh k`
is what the storage of record `k` holds when `realloc` hands it over. -/
def fdb_body (e : Endian) (if_indextoname : Nat → Option (List Nat)) (fresh : Nat → Nat → Nat)
    (buf : Buf) (nh : Nat) (st : Fdb) : Fdb :=
  let l := int_of_u32 (nlmsg_len e buf nh)
  { n_fibs := st.n_fibs + 1
    fibs := st.fibs ++
      [{ destination := if_indextoname (load32 e buf (NLMSG_DATA nh + 4))
         addr := fdb_rta_walk e buf l.toNat (IFLA_RTA (NLMSG_DATA nh) - 4) l (fresh st.n_fibs) }] }

/-- The function `get_fdb(results)` (lines 257-329) on the replies `stream`: the return value
`n_fibs`, the array stored in `*results`, and the reads not performed. -/
def get_fdb (e : Endian) (if_indextoname : Nat → Option (List Nat)) (fresh : Nat → Nat → Nat)
    (stream : List Read) : Option (Nat × List fib × List Read) :=
  (dump_loop e (fdb_body e if_indextoname fresh) stream { n_fibs := 0, fibs := [] }).map
    fun r => (r.1.n_fibs, r.1.fibs, r.2)

/-- The first six bytes of a record's `addr`, for display and comparison. -/
def fib.addr6 (r : fib) : List Nat := (List.range 6).map r.addr

/-- A sequence of messages laid out back to back, as in a datagram. -/
def datagram : List Buf → Buf
  | [] => []
  | m :: ms => m ++ datagram ms

/-- A message as laid out in a datagram: the declared length covers the 16-byte header and the
bytes run to the aligned declared length. -/
def wf_msg (e : Endian) (m : Buf) : Prop :=
  16 ≤ nlmsg_len e m 0 ∧ nlmsg_len e m 0 ≤ m.length ∧ m.length = NLMSG_ALIGN (nlmsg_len e m 0)

instance (e : Endian) (m : Buf) : Decidable (wf_msg e m) := by
  unfold wf_msg
  infer_instance

/-- The state after the loop body has run on each of the messages `ms` laid out from offset
`nh` on. -/
def bodies {σ : Type} (body : Buf → Nat → σ → σ) (buf : Buf) : Nat → List Buf → σ → σ
  | _, [], st => st
  | nh, m :: ms, st => bodies body buf (nh + m.length) ms (body buf nh st)

/-- The read that delivers the messages `d.2.1` followed by the bytes `d.2.2`, with return value
`d.1`. -/
def mk_read (d : Int × List Buf × Buf) : Read := (d.1, datagram d.2.1 ++ d.2.2)

/-- The messages `ms`, laid out back to back, each end within the first `len` bytes: the declared
length of each is at most what is left of `len` when the walk reaches it. -/
def fits (e : Endian) : List Buf → Int → Bool
  | [], _ => true
  | m :: ms, len => decide ((nlmsg_len e m 0 : Int) ≤ len) && fits e ms (len - (m.length : Int))

/-- A read whose messages `d.2.1` are well formed and not terminators, fit in the returned
length `d.1`, and are followed by bytes `d.2.2` at which `NLMSG_OK` fails. -/
def ordinary_read (e : Endian) (d : Int × List Buf × Buf) : Prop :=
  (∀ m ∈ d.2.1, wf_msg e m ∧ nlmsg_type e m 0 ≠ NLMSG_DONE) ∧
  fits e d.2.1 d.1 = true ∧ d.1 < 2147483648 ∧
  NLMSG_OK e d.2.2 0 (d.1 - ((datagram d.2.1).length : Int)) = false

instance (e : Endian) (d : Int × List Buf × Buf) : Decidable (ordinary_read e d) := by
  unfold ordinary_read
  infer_instance

/-- The state after the loop body has run on every message of a list of reads, in order. -/
def after_reads {σ : Type} (body : Buf → Nat → σ → σ) : List (Int × List Buf × Buf) → σ → σ
  | [], st => st
  | d :: ds, st => after_reads body ds (bodies body (mk_read d).2 0 d.2.1 st)

/-- The number of messages in a list of reads. -/
def msgs_count (dgs : List (Int × List Buf × Buf)) : Nat :=
  (dgs.map fun d => d.2.1.length).sum

/-! ## Sample replies -/

/-- A 44-byte `RTM_NEWLINK` reply (little-endian host): header, zeroed `struct ifinfomsg`, and
one `IFLA_IFNAME` attribute with payload `"eth0"` and its terminator. -/
def ex_link_msg : Buf :=
  [44, 0, 0, 0, 16, 0, 0, 0, 0, 0, 0, 0, 0, 0, 0, 0] ++ zeroed 16 ++
    [9, 0, 3, 0, 101, 116, 104, 48, 0, 0, 0, 0]

/-- A 40-byte `RTM_NEWNEIGH` reply (little-endian host): header, `struct ndmsg` with
`ndm_family = PF_BRIDGE` and `ndm_ifindex = 2`, and one `NDA_LLADDR` attribute with the 6-byte
payload `01 02 03 04 05 06`. -/
def ex_neigh_msg : Buf :=
  [40, 0, 0, 0, 28, 0, 0, 0, 0, 0, 0, 0, 0, 0, 0, 0] ++
    [7, 0, 0, 0, 2, 0, 0, 0, 0, 0, 0, 0] ++ [10, 0, 2, 0, 1, 2, 3, 4, 5, 6, 0, 0]

/-- A 20-byte `NLMSG_DONE` message, the header followed by a 4-byte status. -/
def ex_done : Buf := [20, 0, 0, 0, 3, 0, 0, 0, 0, 0, 0, 0, 0, 0, 0, 0, 0, 0, 0, 0]

/-- A 16-byte `NLMSG_DONE` message, the header alone. -/
def ex_done16 : Buf := [16, 0, 0, 0, 3, 0, 0, 0, 0, 0, 0, 0, 0, 0, 0, 0]

/-- A name resolution in which interface index 2 is `"eth0"`. -/
def ex_if_indextoname (i : Nat) : Option (List Nat) :=
  if i = 2 then some [101, 116, 104, 48] else none

/-- The types of the attributes an attribute loop accepts from offset `rta` with budget `l`,
in order (the loops of `get_netdev_names` and `get_fdb` accept the same attributes). -/
def rta_types (e : Endian) (buf : Buf) : Nat → Nat → Int → List Nat
  | 0, _, _ => []
  | fuel + 1, rta, l =>
    if RTA_OK e buf rta l then
      rta_type e buf rta :: rta_types e buf fuel (RTA_NEXT e buf rta l).1 (RTA_NEXT e buf rta l).2
    else []

/-- What a caller sees of a `get_fdb` result: the count, each record's destination and the
first `n` bytes at its `addr`, and the reads left. -/
def fdb_view (n : Nat) (r : Option (Nat × List fib × List Read)) :
    Option (Nat × List (Option (List Nat) × List Nat) × List Read) :=
  r.map fun x => (x.1, x.2.1.map (fun f => (f.destination, (List.range n).map f.addr)), x.2.2)

/-- A 28-byte `RTM_NEWNEIGH` reply without attributes, `ndm_ifindex = 2`. -/
def ex_neigh_bare : Buf :=
  [28, 0, 0, 0, 28, 0, 0, 0, 0, 0, 0, 0, 0, 0, 0, 0] ++ [7, 0, 0, 0, 2, 0, 0, 0, 0, 0, 0, 0]

/-- A 40-byte `RTM_NEWNEIGH` reply whose `NDA_LLADDR` attribute has the 8-byte payload
`01 02 03 04 05 06 07 08`, `ndm_ifindex = 2`. -/
def ex_neigh_long : Buf :=
  [40, 0, 0, 0, 28, 0, 0, 0, 0, 0, 0, 0, 0, 0, 0, 0] ++
    [7, 0, 0, 0, 2, 0, 0, 0, 0, 0, 0, 0] ++ [12, 0, 2, 0, 1, 2, 3, 4, 5, 6, 7, 8]

/-! ## The other message builders -/

/-- The C function `htonl` on a host of byte order `e`: the identity on a big-endian host, the
byte swap on a little-endian one. -/
def htonl (e : Endian) (x : Nat) : Nat :=
  match e with
  | .big => x % 4294967296
  | .little =>
    (x % 256) * 16777216 + (x / 256 % 256) * 65536 + (x / 65536 % 256) * 256 + x / 16777216 % 256

/-- The four bytes of a 32-bit value, most significant first. -/
def be32 (v : Nat) : List Nat := [v / 16777216 % 256, v / 65536 % 256, v / 256 % 256, v % 256]

/-- Lines 101-108 of `join_bridge`: `br_ifiindex` is `if_nametoindex(brname)` when `brname` is
not `NULL` (`none`), and `0` otherwise; the value is the 32-bit pattern of the `int`. -/
def br_ifiindex (if_nametoindex : List Nat → Nat) (brname : Option (List Nat)) : Nat :=
  match brname with
  | some name => if_nametoindex name % 4294967296
  | none => 0

/-- The function `join_bridge(brname, port_ifiindex)` (netlink.c lines 89-123). `brname` is
`none` for `NULL`; `if_nametoindex` is the name resolution of the system. The result is the
byte string handed to `send` together with the return value; `none` when a store leaves `r`. -/
def join_bridge (e : Endian) (if_nametoindex : List Nat → Nat) (brname : Option (List Nat))
    (port_ifiindex : Int) : Option (List Nat × Int) :=
  let r := link_scratch
  let r := put r 0 (bytes32 e (NLMSG_LENGTH sizeof_ifinfomsg))
  let r := put r 6 (bytes16 e NLM_F_REQUEST)
  let r := put r 4 (bytes16 e RTM_NEWLINK)
  let r := put r 16 [AF_PACKET % 256]
  let r := put r 20 (bytes32 e (port_ifiindex % 4294967296).toNat)
  (add_netlink_msg e r IFLA_MASTER (bytes32 e (br_ifiindex if_nametoindex brname)) 4).bind
    fun r =>
  some (r.take (nlmsg_len e r 0), 0)

/-- The function `leave_bridge(port_ifiindex)` (netlink.c lines 125-127). -/
def leave_bridge (e : Endian) (if_nametoindex : List Nat → Nat) (port_ifiindex : Int) :
    Option (List Nat × Int) :=
  join_bridge e if_nametoindex none port_ifiindex

/-- The scratch structure of `set_ip_address` after `memset`: a `struct nlmsghdr`, a
`struct ifaddrmsg` and 256 spare bytes. -/
def addr_scratch : Buf := zeroed (sizeof_nlmsghdr + sizeof_ifaddrmsg + 256)

/-- The function `set_ip_address(ip, netmask, devname)` (netlink.c lines 129-165). `ip` is the
`unsigned int` argument. The third `add_netlink_msg` copies 8 bytes from `&broadcast`, a 4-byte
object: `stack i` is the byte at `(char*)&broadcast + 4 + i`, whatever the stack holds there.
The result is the byte string handed to `send` together with the return value. -/
def set_ip_address (e : Endian) (if_nametoindex : List Nat → Nat) (stack : Nat → Nat)
    (ip : Nat) (netmask : Int) (devname : List Nat) : Option (List Nat × Int) :=
  let broadcast := set_ip_address_broadcast ip netmask
  let ip := htonl e ip
  let broadcast := htonl e broadcast
  let r := addr_scratch
  let r := put r 0 (bytes32 e (NLMSG_LENGTH sizeof_ifaddrmsg))
  let r := put r 6 (bytes16 e (NLM_F_REQUEST ||| NLM_F_CREATE ||| NLM_F_EXCL))
  let r := put r 4 (bytes16 e RTM_NEWADDR)
  let r := put r 16 [AF_INET % 256]
  let r := put r 17 [(netmask % 256).toNat]
  let r := put r 18 [0]
  let r := put r 20 (bytes32 e (if_nametoindex devname))
  (add_netlink_msg e r IFA_LOCAL (bytes32 e ip) 4).bind fun r =>
  (add_netlink_msg e r IFA_ADDRESS (bytes32 e ip) 4).bind fun r =>
  (add_netlink_msg e r IFA_BROADCAST
    (bytes32 e broadcast ++ [stack 0, stack 1, stack 2, stack 3]) 8).bind fun r =>
  some (r.take (nlmsg_len e r 0), 0)

/-- The function `dev_up(devname)` (netlink.c lines 167-190): the byte string handed to `send`
and the return value. -/
def dev_up (e : Endian) (if_nametoindex : List Nat → Nat) (devname : List Nat) :
    List Nat × Int :=
  let port_ifiindex := if_nametoindex devname % 4294967296
  let r := link_scratch
  let r := put r 0 (bytes32 e (NLMSG_LENGTH sizeof_ifinfomsg))
  let r := put r 6 (bytes16 e NLM_F_REQUEST)
  let r := put r 4 (bytes16 e RTM_NEWLINK)
  let r := put r 28 (bytes32 e IFF_UP)
  let r := put r 24 (bytes32 e IFF_UP)
  let r := put r 16 [AF_PACKET % 256]
  let r := put r 20 (bytes32 e port_ifiindex)
  (r.take (nlmsg_len e r 0), 0)

/-! ## The decode direction -/

/-- The offsets of the attributes an attribute loop accepts from offset `rta` with budget `l`,
in order: the loop `while(RTA_OK(rta, l)){ ...; rta = RTA_NEXT(rta,l); }` of
`get_netdev_names` and `get_fdb` with the body left out. -/
def rta_accepted (e : Endian) (buf : Buf) : Nat → Nat → Int → List Nat
  | 0, _, _ => []
  | fuel + 1, rta, l =>
    if RTA_OK e buf rta l then
      rta :: rta_accepted e buf fuel (RTA_NEXT e buf rta l).1 (RTA_NEXT e buf rta l).2
    else []

/-- What the decode direction exposes of the attribute at offset `rta`: its type and the
`RTA_PAYLOAD(rta)` bytes at `RTA_DATA(rta)`. -/
def attr_view (e : Endian) (buf : Buf) (rta : Nat) : Nat × List Nat :=
  (rta_type e buf rta, (buf.drop (RTA_DATA rta)).take (RTA_PAYLOAD e buf rta).toNat)

/-- The attributes found by walking the region of `l` bytes that starts at offset `rta`. -/
def decode_attrs (e : Endian) (buf : Buf) (rta : Nat) (l : Int) : List (Nat × List Nat) :=
  (rta_accepted e buf l.toNat rta l).map (attr_view e buf)

/-- The offsets of the messages the loop `while(NLMSG_OK(nh, len))` of `get_netdev_names` and
`get_fdb` accepts from offset `nh` with `len` bytes left, in order; a message of type
`NLMSG_DONE` is the last one. -/
def msg_accepted (e : Endian) (buf : Buf) : Nat → Nat → Int → List Nat
  | 0, _, _ => []
  | fuel + 1, nh, len =>
    if NLMSG_OK e buf nh len then
      nh :: (if nlmsg_type e buf nh = NLMSG_DONE then []
        else msg_accepted e buf fuel (NLMSG_NEXT e buf nh len).1 (NLMSG_NEXT e buf nh len).2)
    else []

/-! ## The socket as the builders use it -/

/-- The routing socket: the value `send` returns for each message handed to it, the messages
handed over so far, and the replies waiting to be read. -/
structure Socket where
  send_result : List Nat → Int
  sent : List (List Nat)
  pending : List Read

/-- The last two statements of every builder, `send(rtnetlink_sock_fd, &r, r.n.nlmsg_len, 0);
return 0;`, on the outcome `out` of the statements before them (the message and the value
returned): the message goes to the socket, the value `send` returns is not looked at, and no
reply is read. -/
def send_and_return (s : Socket) (out : Option (List Nat × Int)) : Option (Socket × Int) :=
  out.map fun o => ({ s with sent := s.sent ++ [o.1] }, o.2)

/-! ## Inputs that show the attribute walk leaving its message -/

/-- Sixteen bytes that read as a message header with declared length `196617` (`09 00 03 00`)
and, by the attribute walk, as an `IFLA_IFNAME` attribute of length 9 with payload `"evil"`. -/
def ex_bad_link : Buf := [9, 0, 3, 0, 101, 118, 105, 108, 0, 0, 0, 0, 0, 0, 0, 0]

/-- Sixteen bytes that read as a message header with declared length `131080` (`08 00 02 00`)
and, by the attribute walk, as an `NDA_LLADDR` attribute of length 8 with payload
`ff ff ff ff`. -/
def ex_bad_neigh : Buf := [8, 0, 2, 0, 255, 255, 255, 255, 0, 0, 0, 0, 0, 0, 0, 0]

/-- A complete message of declared length `196617` (196620 bytes with its padding) that starts
with the bytes `ex_bad_link`; its type is not `NLMSG_DONE`. -/
def ex_evil_msg : Buf := ex_bad_link ++ zeroed 196604

/-- A complete message of declared length `131080` that starts with the bytes `ex_bad_neigh`;
its type is not `NLMSG_DONE`. -/
def ex_lladdr_msg : Buf := ex_bad_neigh ++ zeroed 131064

/-- A bridge name of 1004 bytes (`"aaa..."`), one byte more than fits the scratch structure of
`create_bridge`. -/
def ex_long_name : List Nat := List.replicate 1004 97 ++ [0]


/-! ## Theorems -/

theorem land_mask (x : Nat) (hx : x < 4294967296) : x &&& 4294967292 = x / 4 * 4 := by
  apply Nat.eq_of_testBit_eq
  intro i
  have h4 : x / 4 * 4 = (x >>> 2) <<< 2 := by
    simp [Nat.shiftRight_eq_div_pow, Nat.shiftLeft_eq]
  rw [h4, Nat.testBit_land, Nat.testBit_shiftLeft, Nat.testBit_shiftRight]
  by_cases hi : i < 32
  · interval_cases i <;> simp [Nat.testBit, Nat.shiftRight_eq_div_pow]
  · have hi2 : 32 ≤ i := by omega
    have hlt : x < 2 ^ i := lt_of_lt_of_le hx (by
      calc 4294967296 = 2 ^ 32 := by norm_num
        _ ≤ 2 ^ i := Nat.pow_le_pow_right (by norm_num) hi2)
    have h2 : 2 + (i - 2) = i := by omega
    simp [Nat.testBit_lt_two_pow hlt, h2]

theorem NLMSG_ALIGN_eq (len : Nat) : NLMSG_ALIGN len = (len + 3) % 4294967296 / 4 * 4 := by
  unfold NLMSG_ALIGN
  exact land_mask _ (Nat.mod_lt _ (by norm_num))

theorem RTA_ALIGN_eq (len : Nat) : RTA_ALIGN len = (len + 3) % 4294967296 / 4 * 4 := by
  unfold RTA_ALIGN
  exact land_mask _ (Nat.mod_lt _ (by norm_num))

theorem store_some {m : Buf} {o : Nat} {bs : List Nat} (h : o + bs.length ≤ m.length) :
    store m o bs = some (put m o bs) := by
  simp [store, h]

theorem store_length {m m' : Buf} {o : Nat} {bs : List Nat} (h : store m o bs = some m') :
    m'.length = m.length := by
  unfold store put at h
  split at h
  · cases h
    simp
    omega
  · cases h

theorem store_getD {m m' : Buf} {o : Nat} {bs : List Nat} (h : store m o bs = some m') (i : Nat) :
    m'.getD i 0 = if o ≤ i ∧ i < o + bs.length then bs.getD (i - o) 0 else m.getD i 0 := by
  unfold store put at h
  split at h
  · cases h
    rename_i hle
    by_cases h1 : i < o
    · have : ¬ (o ≤ i ∧ i < o + bs.length) := by omega
      rw [if_neg this, List.append_assoc, List.getD_append _ _ _ _ (by simp; omega)]
      simp [List.getD_eq_getElem?_getD, List.getElem?_take, h1]
    · by_cases h2 : i < o + bs.length
      · have : (o ≤ i ∧ i < o + bs.length) := by omega
        rw [if_pos this, List.append_assoc, List.getD_append_right _ _ _ _ (by simp; omega)]
        have hl : (List.take o m).length = o := by simp; omega
        rw [hl, List.getD_append _ _ _ _ (by omega)]
      · have : ¬ (o ≤ i ∧ i < o + bs.length) := by omega
        rw [if_neg this, List.getD_append_right _ _ _ _ (by simp; omega)]
        have hl : (List.take o m ++ bs).length = o + bs.length := by simp; omega
        rw [hl]
        simp [List.getD_eq_getElem?_getD, List.getElem?_drop]
        congr 2
        omega
  · cases h



theorem load16_of_bytes {e : Endian} {m : Buf} {o v : Nat}
    (h0 : m.getD o 0 = (bytes16 e v).getD 0 0) (h1 : m.getD (o + 1) 0 = (bytes16 e v).getD 1 0) :
    load16 e m o = v % 65536 := by
  cases e <;> simp [load16, byteAt, bytes16] at * <;> rw [h0, h1] <;> omega

theorem load32_of_bytes {e : Endian} {m : Buf} {o v : Nat}
    (h0 : m.getD o 0 = (bytes32 e v).getD 0 0) (h1 : m.getD (o + 1) 0 = (bytes32 e v).getD 1 0)
    (h2 : m.getD (o + 2) 0 = (bytes32 e v).getD 2 0)
    (h3 : m.getD (o + 3) 0 = (bytes32 e v).getD 3 0) :
    load32 e m o = v % 4294967296 := by
  cases e <;> simp [load32, byteAt, bytes32] at * <;> rw [h0, h1, h2, h3] <;> omega

theorem load16_congr {e : Endian} {m m' : Buf} {o o' : Nat}
    (h0 : m'.getD o' 0 = m.getD o 0) (h1 : m'.getD (o' + 1) 0 = m.getD (o + 1) 0) :
    load16 e m' o' = load16 e m o := by
  cases e <;> simp only [load16, byteAt, h0, h1]

theorem load32_congr {e : Endian} {m m' : Buf} {o o' : Nat}
    (h0 : m'.getD o' 0 = m.getD o 0) (h1 : m'.getD (o' + 1) 0 = m.getD (o + 1) 0)
    (h2 : m'.getD (o' + 2) 0 = m.getD (o + 2) 0) (h3 : m'.getD (o' + 3) 0 = m.getD (o + 3) 0) :
    load32 e m' o' = load32 e m o := by
  cases e <;> simp only [load32, byteAt, h0, h1, h2, h3]

theorem bytes16_length (e : Endian) (v : Nat) : (bytes16 e v).length = 2 := by
  cases e <;> rfl

theorem bytes32_length (e : Endian) (v : Nat) : (bytes32 e v).length = 4 := by
  cases e <;> rfl

theorem load32_lt (e : Endian) (m : Buf) (o : Nat) : load32 e m o < 4294967296 := by
  cases e <;> simp only [load32, byteAt] <;> omega

theorem load16_lt (e : Endian) (m : Buf) (o : Nat) : load16 e m o < 65536 := by
  cases e <;> simp only [load16, byteAt] <;> omega

/-- Byte-level description of the buffer `add_netlink_msg` returns. -/
theorem add_netlink_msg_bytes (e : Endian) (nh : Buf) (type : Nat) (data : List Nat) (n : Nat)
    (a : Nat) (ha : a = NLMSG_ALIGN (nlmsg_len e nh 0)) (h4 : 4 ≤ a)
    (hcap : a + 4 + n ≤ nh.length) (hdata : n ≤ data.length) :
    ∃ nh', add_netlink_msg e nh type data n = some nh' ∧ nh'.length = nh.length ∧
      ∀ i, nh'.getD i 0 =
        if a + 4 ≤ i ∧ i < a + 4 + n then data.getD (i - (a + 4)) 0
        else if i < 4 then (bytes32 e (a + RTA_ALIGN ((4 + n) % 4294967296))).getD i 0
        else if a ≤ i ∧ i < a + 2 then (bytes16 e ((4 + n) % 4294967296)).getD (i - a) 0
        else if a + 2 ≤ i ∧ i < a + 4 then (bytes16 e type).getD (i - (a + 2)) 0
        else nh.getD i 0 := by
  have hR : RTA_LENGTH n = 4 + n := by
    have : RTA_ALIGN sizeof_rtattr = 4 := by decide
    simp [RTA_LENGTH, this]
  have hD : RTA_DATA a = a + 4 := by
    have : RTA_ALIGN sizeof_rtattr = 4 := by decide
    simp [RTA_DATA, RTA_LENGTH, this]
  obtain ⟨m1, hm1⟩ : ∃ m1, store nh (a + 2) (bytes16 e type) = some m1 :=
    ⟨_, store_some (by rw [bytes16_length]; omega)⟩
  have l1 := store_length hm1
  obtain ⟨m2, hm2⟩ : ∃ m2, store m1 a (bytes16 e ((4 + n) % 4294967296)) = some m2 :=
    ⟨_, store_some (by rw [bytes16_length]; omega)⟩
  have l2 := store_length hm2
  have g1 := store_getD hm1
  have g2 := store_getD hm2
  simp only [bytes16_length] at g1 g2
  have hlen2 : nlmsg_len e m2 0 = nlmsg_len e nh 0 := by
    unfold nlmsg_len
    apply load32_congr <;> rw [g2, if_neg (by omega), g1, if_neg (by omega)]
  obtain ⟨m3, hm3⟩ : ∃ m3, store m2 0
      (bytes32 e (a + RTA_ALIGN ((4 + n) % 4294967296))) = some m3 :=
    ⟨_, store_some (by rw [bytes32_length]; omega)⟩
  have l3 := store_length hm3
  have g3 := store_getD hm3
  simp only [bytes32_length] at g3
  obtain ⟨m4, hm4⟩ : ∃ m4, store m3 (a + 4) (data.take n) = some m4 :=
    ⟨_, store_some (by simp; omega)⟩
  have l4 := store_length hm4
  have g4 := store_getD hm4
  have ltk : (List.take n data).length = n := by simp; omega
  rw [ltk] at g4
  refine ⟨m4, ?_, by omega, ?_⟩
  · simp only [add_netlink_msg, hR, ← ha, hm1, Option.bind_some, Option.some_bind, hm2, hlen2,
      hm3, memcpy, hdata, if_true, hD, hm4]
  · intro i
    rw [g4]
    by_cases c1 : a + 4 ≤ i ∧ i < a + 4 + n
    · rw [if_pos c1, if_pos c1]
      simp only [List.getD_eq_getElem?_getD, List.getElem?_take]
      rw [if_pos (by omega)]
    · rw [if_neg c1, if_neg c1, g3]
      by_cases c2 : i < 4
      · rw [if_pos (by omega), if_pos c2]
        simp
      · rw [if_neg (by omega), if_neg c2, g2, g1]



theorem RTA_ALIGN_small {x : Nat} (h : x + 3 < 4294967296) : RTA_ALIGN x = align x := by
  rw [RTA_ALIGN_eq, Nat.mod_eq_of_lt h, align]

theorem NLMSG_ALIGN_small {x : Nat} (h : x + 3 < 4294967296) : NLMSG_ALIGN x = align x := by
  rw [NLMSG_ALIGN_eq, Nat.mod_eq_of_lt h, align]

theorem list_take_drop_eq_of_getD {m : Buf} {o : Nat} {p : List Nat}
    (hlen : o + p.length ≤ m.length) (h : ∀ i, i < p.length → m.getD (o + i) 0 = p.getD i 0) :
    (m.drop o).take p.length = p := by
  apply List.ext_getElem
  · simp; omega
  · intro i h1 h2
    have := h i h2
    simp only [List.getD_eq_getElem?_getD] at this
    rw [List.getElem?_eq_getElem (by omega), List.getElem?_eq_getElem h2] at this
    simpa using this

/-- Field-level description of the buffer `add_netlink_msg` returns. -/
theorem add_netlink_msg_fields (e : Endian) (nh : Buf) (type : Nat) (data : List Nat) (n : Nat)
    (a : Nat) (ha : a = NLMSG_ALIGN (nlmsg_len e nh 0)) (h4 : 4 ≤ a)
    (hcap : a + 4 + n ≤ nh.length) (hdata : n ≤ data.length) :
    ∃ nh', add_netlink_msg e nh type data n = some nh' ∧ nh'.length = nh.length ∧
      nlmsg_len e nh' 0 = (a + RTA_ALIGN ((4 + n) % 4294967296)) % 4294967296 ∧
      rta_len e nh' a = (4 + n) % 65536 ∧
      rta_type e nh' a = type % 65536 ∧
      (nh'.drop (a + 4)).take n = data.take n ∧
      ∀ i, 4 ≤ i → (i < a ∨ a + 4 + n ≤ i) → nh'.getD i 0 = nh.getD i 0 := by
  obtain ⟨nh', h1, h2, h3⟩ := add_netlink_msg_bytes e nh type data n a ha h4 hcap hdata
  refine ⟨nh', h1, h2, ?_, ?_, ?_, ?_, ?_⟩
  · unfold nlmsg_len
    apply load32_of_bytes <;> rw [h3, if_neg (by omega), if_pos (by omega)]
  · unfold rta_len
    have : load16 e nh' a = ((4 + n) % 4294967296) % 65536 := by
      apply load16_of_bytes
      · rw [h3, if_neg (by omega), if_neg (by omega), if_pos (by omega)]; simp
      · rw [h3, if_neg (by omega), if_neg (by omega), if_pos (by omega)]; simp
    rw [this]; omega
  · unfold rta_type
    apply load16_of_bytes
    · rw [h3, if_neg (by omega), if_neg (by omega), if_neg (by omega), if_pos (by omega)]; simp
    · rw [h3, if_neg (by omega), if_neg (by omega), if_neg (by omega), if_pos (by omega)]
      congr 1; omega
  · have hl : (data.take n).length = n := by simp; omega
    have := list_take_drop_eq_of_getD (m := nh') (o := a + 4) (p := data.take n)
      (by rw [hl]; omega) (by
        intro i hi
        rw [hl] at hi
        rw [h3, if_pos (by omega)]
        simp only [List.getD_eq_getElem?_getD, List.getElem?_take]
        rw [if_pos hi]
        congr 2; omega)
    rw [hl] at this
    exact this
  · intro i hi hr
    rw [h3, if_neg (by omega), if_neg (by omega), if_neg (by omega), if_neg (by omega)]

/-- C1. Attribute encode/decode round trip: after `add_netlink_msg(nh, t, p, n)` on a message
buffer with enough capacity, with `t` a 16-bit type and `4 + n` representable in the 16-bit
length field, the attribute at the aligned old message length passes `RTA_OK` for every budget
that covers it, decodes to type `t`, payload length `n` and payload bytes `p`, and `RTA_NEXT`
is `align(4 + n)` bytes past the attribute's start. -/
theorem add_netlink_msg_roundtrip (e : Endian) (nh : Buf) (t : Nat) (p : List Nat)
    (ht : t < 65536) (hn : 4 + p.length < 65536)
    (hhdr : 16 ≤ nlmsg_len e nh 0) (hw : nlmsg_len e nh 0 ≤ 4294967292)
    (hcap : NLMSG_ALIGN (nlmsg_len e nh 0) + 4 + p.length ≤ nh.length) :
    ∃ nh', add_netlink_msg e nh t p p.length = some nh' ∧
      (∀ l : Int, ((4 + p.length : Nat) : Int) ≤ l →
        RTA_OK e nh' (NLMSG_ALIGN (nlmsg_len e nh 0)) l = true) ∧
      rta_type e nh' (NLMSG_ALIGN (nlmsg_len e nh 0)) = t ∧
      RTA_PAYLOAD e nh' (NLMSG_ALIGN (nlmsg_len e nh 0)) = (p.length : Int) ∧
      (nh'.drop (RTA_DATA (NLMSG_ALIGN (nlmsg_len e nh 0)))).take p.length = p ∧
      ∀ l : Int, (RTA_NEXT e nh' (NLMSG_ALIGN (nlmsg_len e nh 0)) l).1
        = NLMSG_ALIGN (nlmsg_len e nh 0) + align (4 + p.length) := by
  have hal : NLMSG_ALIGN (nlmsg_len e nh 0) = align (nlmsg_len e nh 0) :=
    NLMSG_ALIGN_small (by omega)
  have h16 : 16 ≤ NLMSG_ALIGN (nlmsg_len e nh 0) := by rw [hal, align]; omega
  obtain ⟨nh', h1, _, _, h4, h5, h6, _⟩ := add_netlink_msg_fields e nh t p p.length
    (NLMSG_ALIGN (nlmsg_len e nh 0)) rfl (by omega) hcap (le_refl _)
  have hR : RTA_LENGTH 0 = 4 := by decide
  rw [Nat.mod_eq_of_lt hn] at h4
  refine ⟨nh', h1, ?_, ?_, ?_, ?_, ?_⟩
  · intro l hl
    simp only [RTA_OK, h4, sizeof_rtattr]
    simp only [Bool.and_eq_true, decide_eq_true_eq]
    push_cast at hl ⊢
    omega
  · rw [h5, Nat.mod_eq_of_lt ht]
  · simp only [RTA_PAYLOAD, h4, hR]; push_cast; omega
  · simp only [RTA_DATA, hR]
    rw [h6, List.take_length]
  · intro l
    simp only [RTA_NEXT, h4]
    rw [RTA_ALIGN_small (by omega)]

theorem add_netlink_msg_roundtrip_witness :
    (3 < 65536 ∧ 4 + [65, 66, 0].length < 65536 ∧
      16 ≤ nlmsg_len .little ([32, 0, 0, 0] ++ zeroed 44) 0 ∧
      nlmsg_len .little ([32, 0, 0, 0] ++ zeroed 44) 0 ≤ 4294967292 ∧
      NLMSG_ALIGN (nlmsg_len .little ([32, 0, 0, 0] ++ zeroed 44) 0) + 4 + [65, 66, 0].length
        ≤ ([32, 0, 0, 0] ++ zeroed 44).length) ∧
    ∃ nh', add_netlink_msg .little ([32, 0, 0, 0] ++ zeroed 44) 3 [65, 66, 0] 3 = some nh' ∧
      rta_type .little nh' 32 = 3 ∧ (nh'.drop 36).take 3 = [65, 66, 0] := by
  refine ⟨by decide, ?_⟩
  obtain ⟨nh', h1, _, h3, _, h5, _⟩ :=
    add_netlink_msg_roundtrip .little ([32, 0, 0, 0] ++ zeroed 44) 3 [65, 66, 0]
      (by decide) (by decide) (by decide) (by decide) (by decide)
  exact ⟨nh', h1, h3, h5⟩

theorem align_mod4 (x : Nat) : align x % 4 = 0 := by
  unfold align; omega

theorem align_of_mod4 {x : Nat} (h : x % 4 = 0) : align x = x := by
  unfold align; omega

theorem attr_offsets_ge (B : Nat) (calls : List (Nat × List Nat × Nat)) :
    ∀ o ∈ attr_offsets B calls, B ≤ o := by
  induction calls generalizing B with
  | nil => intro o ho; simp [attr_offsets] at ho
  | cons c rest ih =>
    intro o ho
    simp only [attr_offsets, List.mem_cons] at ho
    rcases ho with h | h
    · omega
    · have := ih _ o h
      omega

/-- A sequence of appends: the length field, the frame below the old length and every
attribute's own length field. -/
theorem add_netlink_msgs_spec (e : Endian) (calls : List (Nat × List Nat × Nat)) :
    ∀ (nh : Buf) (B : Nat), nlmsg_len e nh 0 = B → 16 ≤ B → B % 4 = 0 →
      (∀ c ∈ calls, c.2.2 ≤ c.2.1.length) →
      B + attrs_space calls ≤ nh.length → nh.length < 4294967296 →
      ∃ nh', add_netlink_msgs e nh calls = some nh' ∧ nh'.length = nh.length ∧
        nlmsg_len e nh' 0 = B + attrs_space calls ∧
        (∀ i, 4 ≤ i → i < B → nh'.getD i 0 = nh.getD i 0) ∧
        ∀ q ∈ (attr_offsets B calls).zip calls,
          rta_len e nh' q.1 = (4 + q.2.2.2) % 65536 ∧ rta_type e nh' q.1 = q.2.1 % 65536 := by
  induction calls with
  | nil =>
    intro nh B hB _ _ _ _ _
    exact ⟨nh, rfl, rfl, by simpa [attrs_space] using hB, fun _ _ _ => rfl,
      by simp [attr_offsets]⟩
  | cons c rest ih =>
    intro nh B hB h16 h4 hd hcap hsz
    have hsp : attrs_space (c :: rest) = align (4 + c.2.2) + attrs_space rest := by
      simp [attrs_space]
    rw [hsp] at hcap
    have hal : align (4 + c.2.2) = 4 + c.2.2 + 3 - (4 + c.2.2 + 3) % 4 := by
      unfold align; omega
    have ha : B = NLMSG_ALIGN (nlmsg_len e nh 0) := by
      rw [hB, NLMSG_ALIGN_small (by omega), align_of_mod4 h4]
    obtain ⟨m, hm, hml, hmlen, hmrl, hmrt, _, hmfr⟩ := add_netlink_msg_fields e nh c.1 c.2.1
      c.2.2 B ha (by omega) (by omega) (hd c (List.mem_cons_self _ _))
    have hmlen2 : nlmsg_len e m 0 = B + align (4 + c.2.2) := by
      rw [hmlen, Nat.mod_eq_of_lt (by omega : 4 + c.2.2 < 4294967296),
        RTA_ALIGN_small (by omega), Nat.mod_eq_of_lt (by omega)]
    obtain ⟨nh', h1, h2, h3, h5, h6⟩ := ih m (B + align (4 + c.2.2)) hmlen2 (by omega)
      (by have := align_mod4 (4 + c.2.2); omega)
      (fun c' hc' => hd c' (List.mem_cons_of_mem _ hc')) (by omega) (by omega)
    refine ⟨nh', ?_, by omega, by rw [h3, hsp]; omega, ?_, ?_⟩
    · simp only [add_netlink_msgs, hm, Option.some_bind, h1]
    · intro i hi hiB
      rw [h5 i hi (by omega), hmfr i hi (Or.inl hiB)]
    · intro q hq
      simp only [attr_offsets, List.zip_cons_cons, List.mem_cons] at hq
      rcases hq with hq | hq
      · subst hq
        have hr : rta_len e nh' B = rta_len e m B := by
          unfold rta_len
          apply load16_congr <;> apply h5 <;> omega
        have ht : rta_type e nh' B = rta_type e m B := by
          unfold rta_type
          apply load16_congr <;> apply h5 <;> omega
        exact ⟨by rw [hr, hmrl], by rw [ht, hmrt]⟩
      · exact h6 q hq

theorem attrs_space_append (xs ys : List (Nat × List Nat × Nat)) :
    attrs_space (xs ++ ys) = attrs_space xs + attrs_space ys := by
  simp [attrs_space]

theorem attrs_space_mod4 (calls : List (Nat × List Nat × Nat)) : attrs_space calls % 4 = 0 := by
  induction calls with
  | nil => simp [attrs_space]
  | cons c rest ih =>
    have h : attrs_space (c :: rest) = align (4 + c.2.2) + attrs_space rest := by
      simp [attrs_space]
    have := align_mod4 (4 + c.2.2)
    omega

theorem zeroed_length (n : Nat) : (zeroed n).length = n := by
  simp [zeroed]

/-- C2 (amended). Message length invariant: on a freshly initialised message whose header length
is the 4-byte-aligned fixed-body end `B`, with capacity for the attributes, a sequence of calls
to `add_netlink_msg` with payload lengths `n_1..n_N` (a call with `n_i = 0` and no payload adds
exactly 4) leaves `nlmsg_len = B + sum of align(4 + n_i)`, a multiple of 4 and the aligned end
of the last attribute written; each attribute's own length field is the unaligned `4 + n_i`
truncated to 16 bits, hence `4 + n_i` itself whenever `4 + n_i ≤ 65535`. -/
theorem add_netlink_msgs_length (e : Endian) (nh : Buf) (B : Nat)
    (calls : List (Nat × List Nat × Nat))
    (hB : nlmsg_len e nh 0 = B) (h16 : 16 ≤ B) (h4 : B % 4 = 0)
    (hd : ∀ c ∈ calls, c.2.2 ≤ c.2.1.length)
    (hcap : B + attrs_space calls ≤ nh.length) (hsz : nh.length < 4294967296) :
    ∃ nh', add_netlink_msgs e nh calls = some nh' ∧
      nlmsg_len e nh' 0 = B + attrs_space calls ∧
      nlmsg_len e nh' 0 % 4 = 0 ∧
      (∀ init last, calls = init ++ [last] →
        nlmsg_len e nh' 0 = (B + attrs_space init) + align (4 + last.2.2)) ∧
      (∀ q ∈ (attr_offsets B calls).zip calls,
        rta_len e nh' q.1 = (4 + q.2.2.2) % 65536 ∧
        (4 + q.2.2.2 ≤ 65535 → rta_len e nh' q.1 = 4 + q.2.2.2)) ∧
      align (4 + 0) = 4 := by
  obtain ⟨nh', h1, _, h3, _, h6⟩ := add_netlink_msgs_spec e calls nh B hB h16 h4 hd hcap hsz
  refine ⟨nh', h1, h3, ?_, ?_, ?_, by decide⟩
  · have := attrs_space_mod4 calls
    omega
  · intro init last hc
    rw [h3, hc, attrs_space_append]
    simp [attrs_space]
    omega
  · intro q hq
    have := (h6 q hq).1
    exact ⟨this, fun hle => by rw [this, Nat.mod_eq_of_lt (by omega)]⟩

theorem add_netlink_msgs_length_witness :
    (nlmsg_len .little ([32, 0, 0, 0] ++ zeroed 60) 0 = 32 ∧ 16 ≤ 32 ∧ 32 % 4 = 0) ∧
    ∃ nh', add_netlink_msgs .little ([32, 0, 0, 0] ++ zeroed 60)
        [(3, [65, 66, 0], 3), (18, [], 0)] = some nh' ∧
      nlmsg_len .little nh' 0 = 32 + attrs_space [(3, [65, 66, 0], 3), (18, [], 0)] := by
  refine ⟨by decide, ?_⟩
  obtain ⟨nh', h1, h2, _⟩ := add_netlink_msgs_length .little ([32, 0, 0, 0] ++ zeroed 60) 32
    [(3, [65, 66, 0], 3), (18, [], 0)] (by decide) (by decide) (by decide) (by decide)
    (by decide) (by decide)
  exact ⟨nh', h1, h2⟩

/-- C2 (counterexample). One call with a payload of 65532 bytes on a fresh 32-byte message in a
buffer of 65600 bytes: the message length advances by `align(4 + 65532) = 65536`, but the
attribute's own length field holds `0`, not `4 + 65532`. -/
theorem add_netlink_msgs_length_field_truncated :
    (add_netlink_msgs .little (bytes32 .little 32 ++ zeroed 65596)
        [(1, zeroed 65532, 65532)]).map
      (fun m => (nlmsg_len .little m 0, rta_len .little m 32)) = some (32 + 65536, 0)
    ∧ (0 : Nat) ≠ 4 + 65532 := by
  refine ⟨?_, by decide⟩
  have hlen : (bytes32 .little 32 ++ zeroed 65596).length = 65600 := by
    rw [List.length_append, zeroed_length, bytes32_length]
  obtain ⟨nh', h1, _, h3, _, h6⟩ := add_netlink_msgs_spec .little [(1, zeroed 65532, 65532)]
    (bytes32 .little 32 ++ zeroed 65596) 32 (by decide) (by decide) (by decide)
    (by intro c hc; rw [List.mem_singleton] at hc; subst hc; exact (zeroed_length _).ge)
    (by rw [hlen]; decide) (by rw [hlen]; decide)
  have h7 := (h6 (32, (1, zeroed 65532, 65532)) (by simp [attr_offsets])).1
  rw [h1]
  simp only [Option.map_some', h3, h7]
  decide

theorem getD_store_other {m m' : Buf} {o i : Nat} {bs : List Nat} (h : store m o bs = some m')
    (hi : i < o ∨ o + bs.length ≤ i) : m'.getD i 0 = m.getD i 0 := by
  rw [store_getD h, if_neg (by omega)]

theorem load16_store_same {e : Endian} {m m' : Buf} {o v : Nat}
    (h : store m o (bytes16 e v) = some m') : load16 e m' o = v % 65536 := by
  have g := store_getD h
  simp only [bytes16_length] at g
  apply load16_of_bytes
  · rw [g, if_pos (by omega)]; simp
  · rw [g, if_pos (by omega)]; congr 1; omega

theorem load32_store_same {e : Endian} {m m' : Buf} {o v : Nat}
    (h : store m o (bytes32 e v) = some m') : load32 e m' o = v % 4294967296 := by
  have g := store_getD h
  simp only [bytes32_length] at g
  apply load32_of_bytes
  · rw [g, if_pos (by omega)]; simp
  · rw [g, if_pos (by omega)]; congr 1; omega
  · rw [g, if_pos (by omega)]; congr 1; omega
  · rw [g, if_pos (by omega)]; congr 1; omega

theorem load16_store_other {e : Endian} {m m' : Buf} {o p : Nat} {bs : List Nat}
    (h : store m o bs = some m') (hp : p + 2 ≤ o ∨ o + bs.length ≤ p) :
    load16 e m' p = load16 e m p := by
  apply load16_congr <;> apply getD_store_other h <;> omega

theorem load32_store_other {e : Endian} {m m' : Buf} {o p : Nat} {bs : List Nat}
    (h : store m o bs = some m') (hp : p + 4 ≤ o ∨ o + bs.length ≤ p) :
    load32 e m' p = load32 e m p := by
  apply load32_congr <;> apply getD_store_other h <;> omega

theorem getElem_of_getD {m m' : List Nat} {i j : Nat} (h1 : i < m.length) (h2 : j < m'.length)
    (h : m.getD i 0 = m'.getD j 0) : m[i] = m'[j] := by
  rw [List.getD_eq_getElem _ _ h1, List.getD_eq_getElem _ _ h2] at h
  exact h

/-- The container sequence of `create_bridge` on a message of aligned length `B`. -/
theorem nest_attr_spec (e : Endian) (nh : Buf) (ctype ntype : Nat) (data : List Nat) (L B : Nat)
    (hB : nlmsg_len e nh 0 = B) (h16 : 16 ≤ B) (h4 : B % 4 = 0) (hd : L ≤ data.length)
    (hcap : B + 4 + align (4 + L) ≤ nh.length) (hsz : nh.length < 4294967296) :
    ∃ nh', nest_attr e nh ctype ntype data L = some nh' ∧ nh'.length = nh.length ∧
      nlmsg_len e nh' 0 = B + 4 + align (4 + L) ∧
      rta_len e nh' B = (4 + align (4 + L)) % 65536 ∧
      rta_type e nh' B = ctype % 65536 ∧
      rta_len e nh' (B + 4) = (4 + L) % 65536 ∧
      rta_type e nh' (B + 4) = ntype % 65536 ∧
      (nh'.drop (B + 8)).take L = data.take L ∧
      ∀ i, 4 ≤ i → i < B → nh'.getD i 0 = nh.getD i 0 := by
  have hal : align (4 + L) = 4 + L + 3 - (4 + L + 3) % 4 := by unfold align; omega
  have ha : B = NLMSG_ALIGN (nlmsg_len e nh 0) := by
    rw [hB, NLMSG_ALIGN_small (by omega), align_of_mod4 h4]
  obtain ⟨m1, hm1, l1, len1, _, t1, _, f1⟩ := add_netlink_msg_fields e nh ctype [] 0 B ha
    (by omega) (by omega) (by simp)
  have len1b : nlmsg_len e m1 0 = B + 4 := by
    rw [len1]
    have : RTA_ALIGN ((4 + 0) % 4294967296) = 4 := by decide
    rw [this, Nat.mod_eq_of_lt (by omega)]
  have ha2 : B + 4 = NLMSG_ALIGN (nlmsg_len e m1 0) := by
    rw [len1b, NLMSG_ALIGN_small (by omega), align_of_mod4 (by omega)]
  obtain ⟨m2, hm2, l2, len2, r2, t2, p2, f2⟩ := add_netlink_msg_fields e m1 ntype data L (B + 4)
    ha2 (by omega) (by omega) hd
  have len2b : nlmsg_len e m2 0 = B + 4 + align (4 + L) := by
    rw [len2, Nat.mod_eq_of_lt (by omega : 4 + L < 4294967296), RTA_ALIGN_small (by omega),
      Nat.mod_eq_of_lt (by omega)]
  have hmod := align_mod4 (4 + L)
  have ha3 : NLMSG_ALIGN (nlmsg_len e m2 0) = B + 4 + align (4 + L) := by
    rw [len2b, NLMSG_ALIGN_small (by omega), align_of_mod4 (by omega)]
  have hv : ((((B + 4 + align (4 + L) : Nat) : Int) - (B : Nat)) % 65536).toNat
      = (4 + align (4 + L)) % 65536 := by
    omega
  obtain ⟨m3, hm3⟩ : ∃ m3, store m2 B (bytes16 e ((4 + align (4 + L)) % 65536)) = some m3 :=
    ⟨_, store_some (by rw [bytes16_length]; omega)⟩
  have l3 := store_length hm3
  have g3 := store_getD hm3
  simp only [bytes16_length] at g3
  refine ⟨m3, ?_, by omega, ?_, ?_, ?_, ?_, ?_, ?_, ?_⟩
  · simp only [nest_attr, ← ha, hm1, Option.some_bind, hm2, ha3, hv, hm3]
  · unfold nlmsg_len at len2b ⊢
    rw [load32_store_other hm3 (by omega), len2b]
  · unfold rta_len
    rw [load16_store_same hm3]; omega
  · unfold rta_type at t1 ⊢
    rw [load16_store_other hm3 (by rw [bytes16_length]; omega)]
    rw [← t1]
    apply load16_congr <;> apply f2 <;> omega
  · unfold rta_len at r2 ⊢
    rw [load16_store_other hm3 (by rw [bytes16_length]; omega), r2]
  · unfold rta_type at t2 ⊢
    rw [load16_store_other hm3 (by rw [bytes16_length]; omega), t2]
  · rw [← p2]
    have e1 : B + 4 + 4 = B + 8 := by omega
    rw [e1]
    apply List.ext_getElem
    · simp; omega
    · intro i h1 h2
      simp only [List.getElem_take, List.getElem_drop]
      have := g3 (B + 8 + i)
      rw [if_neg (by omega)] at this
      simp only [List.length_take, List.length_drop] at h1
      exact getElem_of_getD (by omega) (by omega) this
  · intro i hi hiB
    rw [g3, if_neg (by omega), f2 i hi (Or.inl (by omega)), f1 i hi (Or.inl hiB)]

theorem getD_take_lt {m : Buf} {n i : Nat} (h : i < n) : (m.take n).getD i 0 = m.getD i 0 := by
  simp only [List.getD_eq_getElem?_getD, List.getElem?_take, if_pos h]

theorem load16_take {e : Endian} {m : Buf} {n o : Nat} (h : o + 2 ≤ n) :
    load16 e (m.take n) o = load16 e m o := by
  apply load16_congr <;> apply getD_take_lt <;> omega

theorem load32_take {e : Endian} {m : Buf} {n o : Nat} (h : o + 4 ≤ n) :
    load32 e (m.take n) o = load32 e m o := by
  apply load32_congr <;> apply getD_take_lt <;> omega

theorem link_scratch_length : link_scratch.length = 1056 := by
  unfold link_scratch
  rw [zeroed_length]
  rfl

theorem put_length {m : Buf} {o : Nat} {bs : List Nat} (h : o + bs.length ≤ m.length) :
    (put m o bs).length = m.length :=
  store_length (store_some h)

theorem load16_put_same {e : Endian} {m : Buf} {o v : Nat} (h : o + 2 ≤ m.length) :
    load16 e (put m o (bytes16 e v)) o = v % 65536 :=
  load16_store_same (store_some (by rw [bytes16_length]; exact h))

theorem load32_put_same {e : Endian} {m : Buf} {o v : Nat} (h : o + 4 ≤ m.length) :
    load32 e (put m o (bytes32 e v)) o = v % 4294967296 :=
  load32_store_same (store_some (by rw [bytes32_length]; exact h))

theorem load16_put_other {e : Endian} {m : Buf} {o p : Nat} {bs : List Nat}
    (h : o + bs.length ≤ m.length) (hp : p + 2 ≤ o ∨ o + bs.length ≤ p) :
    load16 e (put m o bs) p = load16 e m p :=
  load16_store_other (store_some h) hp

theorem load32_put_other {e : Endian} {m : Buf} {o p : Nat} {bs : List Nat}
    (h : o + bs.length ≤ m.length) (hp : p + 4 ≤ o ∨ o + bs.length ≤ p) :
    load32 e (put m o bs) p = load32 e m p :=
  load32_store_other (store_some h) hp

/-- The header and body assignments of `create_bridge` leave `nlmsg_len = 32`. -/
theorem create_bridge_init_spec (e : Endian) :
    (create_bridge_init e).length = 1056 ∧ nlmsg_len e (create_bridge_init e) 0 = 32 := by
  unfold create_bridge_init nlmsg_len
  dsimp only
  have l0 := link_scratch_length
  generalize link_scratch = r0 at l0 ⊢
  have l1 : (put r0 0 (bytes32 e (NLMSG_LENGTH sizeof_ifinfomsg))).length = 1056 := by
    rw [put_length (by rw [bytes32_length]; omega), l0]
  have n1 : load32 e (put r0 0 (bytes32 e (NLMSG_LENGTH sizeof_ifinfomsg))) 0 = 32 := by
    rw [load32_put_same (by omega)]; decide
  generalize put r0 0 (bytes32 e (NLMSG_LENGTH sizeof_ifinfomsg)) = r1 at l1 n1 ⊢
  have l2 : (put r1 6 (bytes16 e (NLM_F_REQUEST ||| NLM_F_CREATE ||| NLM_F_EXCL))).length
      = 1056 := by
    rw [put_length (by rw [bytes16_length]; omega), l1]
  have n2 : load32 e (put r1 6 (bytes16 e (NLM_F_REQUEST ||| NLM_F_CREATE ||| NLM_F_EXCL))) 0
      = 32 := by
    rw [load32_put_other (by rw [bytes16_length]; omega) (by omega), n1]
  generalize put r1 6 (bytes16 e (NLM_F_REQUEST ||| NLM_F_CREATE ||| NLM_F_EXCL)) = r2
    at l2 n2 ⊢
  have l3 : (put r2 4 (bytes16 e RTM_NEWLINK)).length = 1056 := by
    rw [put_length (by rw [bytes16_length]; omega), l2]
  have n3 : load32 e (put r2 4 (bytes16 e RTM_NEWLINK)) 0 = 32 := by
    rw [load32_put_other (by rw [bytes16_length]; omega) (by omega), n2]
  generalize put r2 4 (bytes16 e RTM_NEWLINK) = r3 at l3 n3 ⊢
  have l4 : (put r3 16 [AF_PACKET % 256]).length = 1056 := by
    rw [put_length (by simp; omega), l3]
  have n4 : load32 e (put r3 16 [AF_PACKET % 256]) 0 = 32 := by
    rw [load32_put_other (by simp; omega) (by omega), n3]
  generalize put r3 16 [AF_PACKET % 256] = r4 at l4 n4 ⊢
  constructor
  · rw [put_length (by rw [bytes32_length]; omega), l4]
  · rw [load32_put_other (by rw [bytes32_length]; omega) (by omega), n4]

/-- The message `create_bridge` sends: the container `IFLA_LINKINFO` sits right after the name
attribute, has length field 16 and ends at the final `nlmsg_len`. -/
theorem create_bridge_linkinfo (e : Endian) (name : List Nat)
    (hcap : 32 + align (4 + (strlen name + 1)) + 16 ≤ 1056) :
    ∃ sent, create_bridge e name = some (sent, 0) ∧
      sent.length = nlmsg_len e sent 0 ∧
      rta_type e sent (32 + align (4 + (strlen name + 1))) = IFLA_LINKINFO ∧
      rta_len e sent (32 + align (4 + (strlen name + 1))) = 16 ∧
      32 + align (4 + (strlen name + 1)) + 16 = nlmsg_len e sent 0 := by
  obtain ⟨l5, n5⟩ := create_bridge_init_spec e
  have hal : align (4 + (strlen name + 1))
      = 4 + (strlen name + 1) + 3 - (4 + (strlen name + 1) + 3) % 4 := by unfold align; omega
  have ha : 32 = NLMSG_ALIGN (nlmsg_len e (create_bridge_init e) 0) := by rw [n5]; decide
  obtain ⟨r6, h6, l6, n6, _⟩ := add_netlink_msg_fields e _ IFLA_IFNAME (cstr name ++ [0])
    (strlen name + 1) 32 ha (by omega) (by omega) (by simp [strlen])
  have n6b : nlmsg_len e r6 0 = 32 + align (4 + (strlen name + 1)) := by
    rw [n6, Nat.mod_eq_of_lt (by omega : 4 + (strlen name + 1) < 4294967296),
      RTA_ALIGN_small (by omega), Nat.mod_eq_of_lt (by omega)]
  have hmod := align_mod4 (4 + (strlen name + 1))
  have hk : align (4 + (strlen dev_type + 1)) = 12 := by decide
  obtain ⟨r7, h7, l7, n7, rl7, rt7, _⟩ := nest_attr_spec e r6 IFLA_LINKINFO IFLA_INFO_KIND
    (dev_type ++ [0]) (strlen dev_type + 1) (32 + align (4 + (strlen name + 1))) n6b (by omega)
    (by omega) (by decide) (by rw [hk]; omega) (by omega)
  rw [hk] at n7 rl7
  have hlen : (r7.take (nlmsg_len e r7 0)).length = nlmsg_len e r7 0 := by
    rw [List.length_take, n7]; omega
  have hn : nlmsg_len e (r7.take (nlmsg_len e r7 0)) 0 = nlmsg_len e r7 0 := by
    unfold nlmsg_len
    apply load32_take
    unfold nlmsg_len at n7
    omega
  refine ⟨r7.take (nlmsg_len e r7 0), ?_, ?_, ?_, ?_, ?_⟩
  · simp only [create_bridge, h6, Option.some_bind, h7]
  · rw [hn, hlen]
  · unfold rta_type at rt7 ⊢
    rw [load16_take (by rw [n7]; omega), rt7]; decide
  · unfold rta_len at rl7 ⊢
    rw [load16_take (by rw [n7]; omega), rl7]
  · rw [hn, n7]

/-- C3 (amended). Container patch correctness: in the sequence used by `create_bridge` (record
the container's start, append a zero-payload container, append one nested attribute with payload
length `L`, patch the container's length as aligned message end minus container start), the
container's length field is `4 + align(4 + L)` truncated to 16 bits, hence `4 + align(4 + L)`
itself whenever that is at most 65535, and the container ends at the final `nlmsg_len`; for
`create_bridge` itself (`L = 7`) the `IFLA_LINKINFO` length field is 16 and the container ends
exactly at the message's final `nlmsg_len`. -/
theorem container_patch (e : Endian) :
    (∀ (nh : Buf) (ctype ntype : Nat) (data : List Nat) (L B : Nat),
      nlmsg_len e nh 0 = B → 16 ≤ B → B % 4 = 0 → L ≤ data.length →
      B + 4 + align (4 + L) ≤ nh.length → nh.length < 4294967296 →
      ∃ nh', nest_attr e nh ctype ntype data L = some nh' ∧
        rta_len e nh' B = (4 + align (4 + L)) % 65536 ∧
        (4 + align (4 + L) ≤ 65535 → rta_len e nh' B = 4 + align (4 + L)) ∧
        B + (4 + align (4 + L)) = nlmsg_len e nh' 0) ∧
    (∀ name : List Nat, 32 + align (4 + (strlen name + 1)) + 16 ≤ 1056 →
      ∃ sent, create_bridge e name = some (sent, 0) ∧
        rta_type e sent (32 + align (4 + (strlen name + 1))) = IFLA_LINKINFO ∧
        rta_len e sent (32 + align (4 + (strlen name + 1))) = 16 ∧
        32 + align (4 + (strlen name + 1)) + 16 = nlmsg_len e sent 0 ∧
        sent.length = nlmsg_len e sent 0) := by
  constructor
  · intro nh ctype ntype data L B hB h16 h4 hd hcap hsz
    obtain ⟨nh', h1, _, h3, h4', _⟩ := nest_attr_spec e nh ctype ntype data L B hB h16 h4 hd
      hcap hsz
    exact ⟨nh', h1, h4', fun hle => by rw [h4', Nat.mod_eq_of_lt (by omega)], by rw [h3]; omega⟩
  · intro name hcap
    obtain ⟨sent, h1, h2, h3, h4, h5⟩ := create_bridge_linkinfo e name hcap
    exact ⟨sent, h1, h3, h4, h5, h2⟩

theorem container_patch_witness :
    (nlmsg_len .little ([32, 0, 0, 0] ++ zeroed 60) 0 = 32 ∧ 16 ≤ 32 ∧ 32 % 4 = 0 ∧
      5 ≤ [1, 2, 3, 4, 5].length ∧ 32 + 4 + align (4 + 5) ≤ ([32, 0, 0, 0] ++ zeroed 60).length) ∧
    (∃ nh', nest_attr .little ([32, 0, 0, 0] ++ zeroed 60) 18 1 [1, 2, 3, 4, 5] 5 = some nh' ∧
      rta_len .little nh' 32 = 4 + align (4 + 5)) ∧
    32 + align (4 + (strlen [98, 114, 48] + 1)) + 16 ≤ 1056 ∧
    ∃ sent, create_bridge .little [98, 114, 48] = some (sent, 0) ∧
      rta_len .little sent (32 + align (4 + (strlen [98, 114, 48] + 1))) = 16 := by
  refine ⟨by decide, ?_, by decide, ?_⟩
  · obtain ⟨nh', h1, _, h3, _⟩ := (container_patch .little).1 ([32, 0, 0, 0] ++ zeroed 60) 18 1
      [1, 2, 3, 4, 5] 5 32 (by decide) (by decide) (by decide) (by decide) (by decide)
      (by decide)
    exact ⟨nh', h1, h3 (by decide)⟩
  · obtain ⟨sent, h1, _, h3, _⟩ := (container_patch .little).2 [98, 114, 48] (by decide)
    exact ⟨sent, h1, h3⟩

/-- C3 (counterexample). The container sequence with a nested payload of `L = 65528` bytes on a
fresh 32-byte message in a buffer of 65600 bytes: the container's length field holds `0`, while
`4 + align(4 + L) = 65536`. -/
theorem container_patch_truncated :
    (nest_attr .little (bytes32 .little 32 ++ zeroed 65596) 18 1 (zeroed 65528) 65528).map
      (fun m => rta_len .little m 32) = some 0
    ∧ 4 + align (4 + 65528) = 65536 := by
  refine ⟨?_, by decide⟩
  have hlen : (bytes32 .little 32 ++ zeroed 65596).length = 65600 := by
    rw [List.length_append, zeroed_length, bytes32_length]
  obtain ⟨nh', h1, _, _, h4, _⟩ := nest_attr_spec .little (bytes32 .little 32 ++ zeroed 65596)
    18 1 (zeroed 65528) 65528 32 (by decide) (by decide) (by decide) (zeroed_length _).ge
    (by rw [hlen]; decide) (by rw [hlen]; decide)
  rw [h1]
  simp only [Option.map_some', h4]
  decide

theorem getD_append_mid (pre m post : Buf) (i : Nat) (h : i < m.length) :
    (pre ++ (m ++ post)).getD (pre.length + i) 0 = m.getD i 0 := by
  rw [List.getD_append_right _ _ _ _ (by omega)]
  have : pre.length + i - pre.length = i := by omega
  rw [this, List.getD_append _ _ _ _ h]

theorem getD_append_off (pre post : Buf) (i : Nat) :
    (pre ++ post).getD (pre.length + i) 0 = post.getD i 0 := by
  rw [List.getD_append_right _ _ _ _ (by omega)]
  congr 1
  omega

theorem load32_append_mid (e : Endian) (pre m post : Buf) (i : Nat) (h : i + 4 ≤ m.length) :
    load32 e (pre ++ (m ++ post)) (pre.length + i) = load32 e m i := by
  apply load32_congr
  · exact getD_append_mid pre m post i (by omega)
  · rw [Nat.add_assoc]; exact getD_append_mid pre m post (i + 1) (by omega)
  · rw [Nat.add_assoc]; exact getD_append_mid pre m post (i + 2) (by omega)
  · rw [Nat.add_assoc]; exact getD_append_mid pre m post (i + 3) (by omega)

theorem load16_append_mid (e : Endian) (pre m post : Buf) (i : Nat) (h : i + 2 ≤ m.length) :
    load16 e (pre ++ (m ++ post)) (pre.length + i) = load16 e m i := by
  apply load16_congr
  · exact getD_append_mid pre m post i (by omega)
  · rw [Nat.add_assoc]; exact getD_append_mid pre m post (i + 1) (by omega)

theorem load32_append_off (e : Endian) (pre post : Buf) (i : Nat) :
    load32 e (pre ++ post) (pre.length + i) = load32 e post i := by
  apply load32_congr
  · exact getD_append_off pre post i
  · rw [Nat.add_assoc]; exact getD_append_off pre post (i + 1)
  · rw [Nat.add_assoc]; exact getD_append_off pre post (i + 2)
  · rw [Nat.add_assoc]; exact getD_append_off pre post (i + 3)

theorem load16_append_off (e : Endian) (pre post : Buf) (i : Nat) :
    load16 e (pre ++ post) (pre.length + i) = load16 e post i := by
  apply load16_congr
  · exact getD_append_off pre post i
  · rw [Nat.add_assoc]; exact getD_append_off pre post (i + 1)

theorem wf_msg_length {e : Endian} {m : Buf} (h : wf_msg e m) :
    16 ≤ m.length ∧ m.length < 4294967296 ∧ m.length = align (nlmsg_len e m 0) := by
  obtain ⟨h1, h2, h3⟩ := h
  have hlt := load32_lt e m 0
  unfold nlmsg_len at *
  rw [NLMSG_ALIGN_eq] at h3
  unfold align
  omega

/-- The inner loop stops, with the state unchanged, where `NLMSG_OK` fails. -/
theorem msg_walk_stop {σ : Type} (e : Endian) (body : Buf → Nat → σ → σ) (buf : Buf)
    (fuel nh : Nat) (len : Int) (st : σ) (h : NLMSG_OK e buf nh len = false) :
    msg_walk e body buf fuel nh len st = (false, st) := by
  cases fuel with
  | zero => rfl
  | succ f => simp [msg_walk, h]

/-- The inner loop takes the `goto` at an accepted message of type `NLMSG_DONE`. -/
theorem msg_walk_done {σ : Type} (e : Endian) (body : Buf → Nat → σ → σ) (buf : Buf)
    (fuel nh : Nat) (len : Int) (st : σ) (hf : len ≤ fuel) (h : NLMSG_OK e buf nh len = true)
    (ht : nlmsg_type e buf nh = NLMSG_DONE) :
    msg_walk e body buf fuel nh len st = (true, st) := by
  cases fuel with
  | zero =>
    simp only [NLMSG_OK, Bool.and_eq_true, decide_eq_true_eq, sizeof_nlmsghdr] at h
    push_cast at hf
    omega
  | succ f => simp [msg_walk, h, ht]

/-- The inner loop runs the body on each of a run of well-formed messages that are not
terminators, and goes on right after them. -/
theorem msg_walk_msgs {σ : Type} (e : Endian) (body : Buf → Nat → σ → σ) (ms : List Buf) :
    ∀ (pre post buf : Buf) (fuel : Nat) (len : Int) (st : σ),
      buf = pre ++ (datagram ms ++ post) →
      (∀ m ∈ ms, wf_msg e m ∧ nlmsg_type e m 0 ≠ NLMSG_DONE) →
      fits e ms len = true → len ≤ fuel → len < 4294967296 →
      msg_walk e body buf fuel pre.length len st =
        msg_walk e body buf (fuel - ms.length) (pre.length + (datagram ms).length)
          (len - (datagram ms).length) (bodies body buf pre.length ms st) := by
  induction ms with
  | nil =>
    intro pre post buf fuel len st _ _ _ _ _
    simp [datagram, bodies]
  | cons m ms ih =>
    intro pre post buf fuel len st hbuf hms hlen hfuel hlt
    obtain ⟨hwf, hty⟩ := hms m (List.mem_cons_self _ _)
    obtain ⟨hl16, hl32, hlal⟩ := wf_msg_length hwf
    obtain ⟨hw1, hw2, hw3⟩ := hwf
    have hdg : (datagram (m :: ms)).length = m.length + (datagram ms).length := by
      simp [datagram]
    simp only [fits, Bool.and_eq_true, decide_eq_true_eq] at hlen
    obtain ⟨hlen, hfits⟩ := hlen
    have hbuf2 : buf = pre ++ (m ++ (datagram ms ++ post)) := by
      rw [hbuf]; simp [datagram]
    have hbuf3 : buf = (pre ++ m) ++ (datagram ms ++ post) := by
      rw [hbuf2]; simp
    have hnl : nlmsg_len e buf pre.length = nlmsg_len e m 0 := by
      unfold nlmsg_len
      rw [hbuf2]
      exact load32_append_mid e pre m _ 0 (by omega)
    have hnt : nlmsg_type e buf pre.length = nlmsg_type e m 0 := by
      unfold nlmsg_type
      rw [hbuf2]
      exact load16_append_mid e pre m (datagram ms ++ post) 4 (by omega)
    cases fuel with
    | zero => push_cast at hfuel; omega
    | succ f =>
      have hok : NLMSG_OK e buf pre.length len = true := by
        simp only [NLMSG_OK, hnl, sizeof_nlmsghdr, Bool.and_eq_true, decide_eq_true_eq]
        push_cast
        omega
      have hnext : NLMSG_NEXT e buf pre.length len
          = ((pre ++ m).length, len - (m.length : Int)) := by
        simp only [NLMSG_NEXT, hnl, ← hw3, List.length_append]
      rw [msg_walk, if_pos hok, hnt, if_neg hty, hnext]
      simp only []
      push_cast at hfuel
      rw [ih (pre ++ m) post buf f (len - m.length) (body buf pre.length st) hbuf3
        (fun m' hm' => hms m' (List.mem_cons_of_mem _ hm')) hfits (by omega) (by omega)]
      have e1 : f + 1 - (m :: ms).length = f - ms.length := by simp
      have e2 : (pre ++ m).length + (datagram ms).length
          = pre.length + (datagram (m :: ms)).length := by
        rw [hdg, List.length_append]; omega
      have e3 : len - (m.length : Int) - ((datagram ms).length : Int)
          = len - ((datagram (m :: ms)).length : Int) := by
        rw [hdg]; push_cast; omega
      rw [e1, e2, e3]
      simp only [bodies, List.length_append]

theorem two_pow_lor (k : Nat) : 2 ^ k ||| (2 ^ k - 1) = 2 ^ (k + 1) - 1 := by
  apply Nat.eq_of_testBit_eq
  intro i
  rw [Nat.testBit_lor, Nat.testBit_two_pow_sub_one, Nat.testBit_two_pow_sub_one,
    Nat.testBit_two_pow]
  by_cases h1 : k = i
  · subst h1; simp
  · by_cases h2 : i < k
    · have : i < k + 1 := by omega
      simp [h1, h2, this]
    · have : ¬ i < k + 1 := by omega
      simp [h1, h2, this]

theorem broadcast_loop_eq (k : Nat) : ∀ bc, k ≤ 32 → bc < 4294967296 →
    broadcast_loop k bc = bc ||| (2 ^ k - 1) := by
  induction k with
  | zero => intro bc _ _; simp [broadcast_loop]
  | succ k ih =>
    intro bc hk hbc
    have hp : 2 ^ k < 4294967296 := by
      calc 2 ^ k < 2 ^ 32 := Nat.pow_lt_pow_right (by norm_num) (by omega)
        _ = 4294967296 := by norm_num
    have hlt : bc ||| 2 ^ k < 4294967296 := by
      have : bc ||| 2 ^ k < 2 ^ 32 := Nat.or_lt_two_pow (by simpa using hbc) (by simpa using hp)
      simpa using this
    rw [broadcast_loop, Nat.one_shiftLeft, Nat.mod_eq_of_lt hp, Nat.mod_eq_of_lt hlt,
      ih _ (by omega) hlt, Nat.lor_assoc, two_pow_lor]

/-- C8. Broadcast computation: for every 32-bit `ip` and every prefix length `p` with
`0 ≤ p ≤ 32`, the value `set_ip_address` computes before byte-order conversion is `ip` with its
low `32 - p` bits set, `ip OR (2^(32-p) - 1)`, a 32-bit value; `ip = 10.0.0.1` with `p = 24`
gives `10.0.0.255`, and `p = 32` gives `ip` unchanged. -/
theorem broadcast_computation (ip : Nat) (p : Int) (hip : ip < 4294967296) (h0 : 0 ≤ p)
    (h32 : p ≤ 32) :
    set_ip_address_broadcast ip p = ip ||| (2 ^ (32 - p.toNat) - 1) ∧
    set_ip_address_broadcast ip p < 4294967296 ∧
    set_ip_address_broadcast 0x0A000001 24 = 0x0A0000FF ∧
    set_ip_address_broadcast ip 32 = ip := by
  have h : set_ip_address_broadcast ip p = ip ||| (2 ^ (32 - p.toNat) - 1) := by
    unfold set_ip_address_broadcast
    have : ((32 - p - 1) + 1).toNat = 32 - p.toNat := by omega
    rw [this, broadcast_loop_eq _ _ (by omega) hip]
  refine ⟨h, ?_, by decide, ?_⟩
  · rw [h]
    have h1 : 2 ^ (32 - p.toNat) - 1 < 2 ^ 32 := by
      have : 2 ^ (32 - p.toNat) ≤ 2 ^ 32 := Nat.pow_le_pow_right (by norm_num) (by omega)
      omega
    have : ip ||| (2 ^ (32 - p.toNat) - 1) < 2 ^ 32 := Nat.or_lt_two_pow (by simpa using hip) h1
    simpa using this
  · simp [set_ip_address_broadcast, broadcast_loop]

theorem broadcast_computation_witness :
    (3232235777 < 4294967296 ∧ (0 : Int) ≤ 16 ∧ (16 : Int) ≤ 32) ∧
    set_ip_address_broadcast 3232235777 16 = 3232235777 ||| (2 ^ (32 - (16 : Int).toNat) - 1) :=
  ⟨by decide, (broadcast_computation 3232235777 16 (by decide) (by decide) (by decide)).1⟩


theorem datagram_length_ge (e : Endian) (ms : List Buf) (h : ∀ m ∈ ms, wf_msg e m) :
    16 * ms.length ≤ (datagram ms).length := by
  induction ms with
  | nil => simp [datagram]
  | cons m ms ih =>
    have h1 := (wf_msg_length (h m (List.mem_cons_self _ _))).1
    have h2 := ih (fun m' hm' => h m' (List.mem_cons_of_mem _ hm'))
    simp only [datagram, List.length_append, List.length_cons]
    omega

theorem fits_of_length_le (e : Endian) (ms : List Buf) :
    ∀ len : Int, (∀ m ∈ ms, wf_msg e m) → ((datagram ms).length : Int) ≤ len →
      fits e ms len = true := by
  induction ms with
  | nil => intro len _ _; rfl
  | cons m ms ih =>
    intro len h hl
    have hw := h m (List.mem_cons_self _ _)
    simp only [datagram, List.length_append] at hl
    push_cast at hl
    simp only [fits, Bool.and_eq_true, decide_eq_true_eq]
    refine ⟨?_, ih _ (fun m' hm' => h m' (List.mem_cons_of_mem _ hm')) (by omega)⟩
    have := hw.2.1
    omega

theorem NLMSG_OK_append_off (e : Endian) (pre post : Buf) (len : Int) :
    NLMSG_OK e (pre ++ post) pre.length len = NLMSG_OK e post 0 len := by
  have := load32_append_off e pre post 0
  simp only [Nat.add_zero] at this
  simp only [NLMSG_OK, nlmsg_len, this]

/-- One read of well-formed messages followed by bytes that fail `NLMSG_OK`: the body runs on
each message and the outer loop goes on to the next read. -/
theorem msg_walk_ordinary {σ : Type} (e : Endian) (body : Buf → Nat → σ → σ)
    (d : Int × List Buf × Buf) (h : ordinary_read e d) (st : σ) :
    msg_walk e body (mk_read d).2 (mk_read d).1.toNat 0 (mk_read d).1 st
      = (false, bodies body (mk_read d).2 0 d.2.1 st) := by
  obtain ⟨h1, h2, h3, h4⟩ := h
  simp only [mk_read]
  have := msg_walk_msgs e body d.2.1 [] d.2.2 (datagram d.2.1 ++ d.2.2) d.1.toNat d.1 st
    (by simp) h1 h2 (by omega) (by omega)
  simp only [List.length_nil, Nat.zero_add] at this
  rw [this]
  apply msg_walk_stop
  rw [NLMSG_OK_append_off]
  exact h4

/-- The last read: well-formed messages, then an accepted message of type `NLMSG_DONE`, then
anything. The body runs on the messages before the terminator and the loop is left. -/
theorem msg_walk_final {σ : Type} (e : Endian) (body : Buf → Nat → σ → σ) (len : Int)
    (ms : List Buf) (term : Buf) (st : σ)
    (hms : ∀ m ∈ ms, wf_msg e m ∧ nlmsg_type e m 0 ≠ NLMSG_DONE)
    (hty : nlmsg_type e term 0 = NLMSG_DONE) (h16 : 16 ≤ nlmsg_len e term 0)
    (hfit : (((datagram ms).length + nlmsg_len e term 0 : Nat) : Int) ≤ len)
    (hlen : len < 2147483648) :
    msg_walk e body (datagram ms ++ term) len.toNat 0 len st
      = (true, bodies body (datagram ms ++ term) 0 ms st) := by
  push_cast at hfit
  have := msg_walk_msgs e body ms [] term (datagram ms ++ term) len.toNat len st
    (by simp) hms (fits_of_length_le e ms len (fun m hm => (hms m hm).1) (by omega))
    (by omega) (by omega)
  simp only [List.length_nil, Nat.zero_add] at this
  rw [this]
  have hge := datagram_length_ge e ms (fun m hm => (hms m hm).1)
  have h32 := load32_append_off e (datagram ms) term 0
  have h16' := load16_append_off e (datagram ms) term 4
  simp only [Nat.add_zero] at h32
  apply msg_walk_done
  · omega
  · simp only [NLMSG_OK, nlmsg_len, h32, sizeof_nlmsghdr, Bool.and_eq_true, decide_eq_true_eq]
    unfold nlmsg_len at h16 hfit
    omega
  · unfold nlmsg_type at hty ⊢
    rw [h16', hty]

/-- The outer loop on a stream: reads of ordinary messages, then a read that holds a
terminator. It returns after that read, having run the body on every message before the
terminator. -/
theorem dump_loop_stream {σ : Type} (e : Endian) (body : Buf → Nat → σ → σ)
    (dgs : List (Int × List Buf × Buf)) (len : Int) (ms : List Buf) (term : Buf)
    (rest : List Read)
    (hd : ∀ d ∈ dgs, ordinary_read e d)
    (hms : ∀ m ∈ ms, wf_msg e m ∧ nlmsg_type e m 0 ≠ NLMSG_DONE)
    (hty : nlmsg_type e term 0 = NLMSG_DONE) (h16 : 16 ≤ nlmsg_len e term 0)
    (hfit : (((datagram ms).length + nlmsg_len e term 0 : Nat) : Int) ≤ len)
    (hlen : len < 2147483648) (st : σ) :
    dump_loop e body (dgs.map mk_read ++ (len, datagram ms ++ term) :: rest) st
      = some (bodies body (datagram ms ++ term) 0 ms (after_reads body dgs st), rest) := by
  induction dgs generalizing st with
  | nil =>
    simp only [List.map_nil, List.nil_append, dump_loop, after_reads]
    rw [msg_walk_final e body len ms term st hms hty h16 hfit hlen]
  | cons d ds ih =>
    simp only [List.map_cons, List.cons_append, dump_loop, after_reads]
    rw [msg_walk_ordinary e body d (hd d (List.mem_cons_self _ _)) st]
    exact ih (fun d' hd' => hd d' (List.mem_cons_of_mem _ hd')) _

theorem bodies_count {σ : Type} (body : Buf → Nat → σ → σ) (cnt : σ → Nat)
    (h : ∀ buf nh st, cnt (body buf nh st) = cnt st + 1) (buf : Buf) (ms : List Buf) :
    ∀ nh st, cnt (bodies body buf nh ms st) = cnt st + ms.length := by
  induction ms with
  | nil => intro nh st; simp [bodies]
  | cons m ms ih =>
    intro nh st
    simp only [bodies, List.length_cons]
    rw [ih, h]
    omega

theorem after_reads_count {σ : Type} (body : Buf → Nat → σ → σ) (cnt : σ → Nat)
    (h : ∀ buf nh st, cnt (body buf nh st) = cnt st + 1) (dgs : List (Int × List Buf × Buf)) :
    ∀ st, cnt (after_reads body dgs st) = cnt st + msgs_count dgs := by
  induction dgs with
  | nil => intro st; simp [after_reads, msgs_count]
  | cons d ds ih =>
    intro st
    simp only [after_reads]
    rw [ih, bodies_count body cnt h]
    simp only [msgs_count, List.map_cons, List.sum_cons]
    omega

theorem names_body_count (e : Endian) (buf : Buf) (nh : Nat) (st : Names) :
    (names_body e buf nh st).n_devices = st.n_devices + 1 := rfl

theorem names_body_slots (e : Endian) (buf : Buf) (nh : Nat) (st : Names) :
    (names_body e buf nh st).device_names.length = st.device_names.length + 1 := by
  simp [names_body]

theorem fdb_body_count (e : Endian) (ito : Nat → Option (List Nat)) (fresh : Nat → Nat → Nat)
    (buf : Buf) (nh : Nat) (st : Fdb) :
    (fdb_body e ito fresh buf nh st).n_fibs = st.n_fibs + 1 := rfl

theorem fdb_body_slots (e : Endian) (ito : Nat → Option (List Nat)) (fresh : Nat → Nat → Nat)
    (buf : Buf) (nh : Nat) (st : Fdb) :
    (fdb_body e ito fresh buf nh st).fibs.length = st.fibs.length + 1 := by
  simp [fdb_body]

/-- Dump termination, the count and the reads: on a reply stream made of reads of well-formed
non-terminator messages and then a read in which further such messages precede a message of type
`NLMSG_DONE` (followed by anything), with `k` messages before the terminator in all,
`get_netdev_names` and `get_fdb` return exactly `k` with `k` result entries and leave every later
read unperformed. Nothing is said here about the contents of the entries, which the attribute
walk may take from bytes after the terminator. -/
theorem dump_termination (e : Endian) (ito : Nat → Option (List Nat))
    (fresh : Nat → Nat → Nat) (dgs : List (Int × List Buf × Buf)) (len : Int) (ms : List Buf)
    (term : Buf) (rest : List Read)
    (hd : ∀ d ∈ dgs, ordinary_read e d)
    (hms : ∀ m ∈ ms, wf_msg e m ∧ nlmsg_type e m 0 ≠ NLMSG_DONE)
    (hty : nlmsg_type e term 0 = NLMSG_DONE) (h16 : 16 ≤ nlmsg_len e term 0)
    (hfit : (((datagram ms).length + nlmsg_len e term 0 : Nat) : Int) ≤ len)
    (hlen : len < 2147483648) :
    (∃ names, get_netdev_names e (dgs.map mk_read ++ (len, datagram ms ++ term) :: rest)
        = some (msgs_count dgs + ms.length, names, rest) ∧
      names.length = msgs_count dgs + ms.length) ∧
    (∃ fibs, get_fdb e ito fresh (dgs.map mk_read ++ (len, datagram ms ++ term) :: rest)
        = some (msgs_count dgs + ms.length, fibs, rest) ∧
      fibs.length = msgs_count dgs + ms.length) := by
  constructor
  · refine ⟨(bodies (names_body e) (datagram ms ++ term) 0 ms (after_reads (names_body e) dgs
      { n_devices := 0, device_names := [] })).device_names, ?_, ?_⟩
    · unfold get_netdev_names
      rw [dump_loop_stream e _ dgs len ms term rest hd hms hty h16 hfit hlen]
      simp only [Option.map_some']
      rw [bodies_count _ Names.n_devices (names_body_count e),
        after_reads_count _ Names.n_devices (names_body_count e)]
      simp
    · have h1 := bodies_count (names_body e) (fun s : Names => s.device_names.length)
        (names_body_slots e) (datagram ms ++ term) ms 0
        (after_reads (names_body e) dgs { n_devices := 0, device_names := [] })
      have h2 := after_reads_count (names_body e) (fun s : Names => s.device_names.length)
        (names_body_slots e) dgs { n_devices := 0, device_names := [] }
      simp only [List.length_nil] at h1 h2
      omega
  · refine ⟨(bodies (fdb_body e ito fresh) (datagram ms ++ term) 0 ms
      (after_reads (fdb_body e ito fresh) dgs { n_fibs := 0, fibs := [] })).fibs, ?_, ?_⟩
    · unfold get_fdb
      rw [dump_loop_stream e _ dgs len ms term rest hd hms hty h16 hfit hlen]
      simp only [Option.map_some']
      rw [bodies_count _ Fdb.n_fibs (fdb_body_count e ito fresh),
        after_reads_count _ Fdb.n_fibs (fdb_body_count e ito fresh)]
      simp
    · have h1 := bodies_count (fdb_body e ito fresh) (fun s : Fdb => s.fibs.length)
        (fdb_body_slots e ito fresh) (datagram ms ++ term) ms 0
        (after_reads (fdb_body e ito fresh) dgs { n_fibs := 0, fibs := [] })
      have h2 := after_reads_count (fdb_body e ito fresh) (fun s : Fdb => s.fibs.length)
        (fdb_body_slots e ito fresh) dgs { n_fibs := 0, fibs := [] }
      simp only [List.length_nil] at h1 h2
      omega

theorem dump_termination_witness :
    ((∀ m ∈ [ex_link_msg, ex_link_msg],
        wf_msg .little m ∧ nlmsg_type .little m 0 ≠ NLMSG_DONE) ∧
      nlmsg_type .little ex_done 0 = NLMSG_DONE ∧ 16 ≤ nlmsg_len .little ex_done 0) ∧
    (∃ names, get_netdev_names .little
        ([].map mk_read ++
          (108, datagram [ex_link_msg, ex_link_msg] ++ ex_done) :: [(20, ex_done)])
        = some (msgs_count [] + [ex_link_msg, ex_link_msg].length, names, [(20, ex_done)]) ∧
      names.length = msgs_count [] + [ex_link_msg, ex_link_msg].length) ∧
    msgs_count [] + [ex_link_msg, ex_link_msg].length = 2 :=
  ⟨by decide,
    (dump_termination .little ex_if_indextoname (fun _ _ => 0) [] 108
      [ex_link_msg, ex_link_msg] ex_done [(20, ex_done)] (by simp) (by decide) (by decide)
      (by decide) (by decide) (by decide)).1,
    by decide⟩

theorem NLMSG_OK_false_of_malformed (e : Endian) (bad : Buf) (rem : Int)
    (hrem : rem < 2147483648)
    (hbad : rem < 16 ∨ nlmsg_len e bad 0 < 16 ∨ rem < (nlmsg_len e bad 0 : Int)) :
    NLMSG_OK e bad 0 rem = false := by
  rw [Bool.eq_false_iff]
  intro h
  simp only [NLMSG_OK, sizeof_nlmsghdr, Bool.and_eq_true, decide_eq_true_eq] at h
  omega

/-- Malformed message rejection, the message walk and the count: in a receive buffer of length
`len`, when the walk, having accepted the messages `ms`, reaches a position where fewer than 16
bytes remain, or where the declared `nlmsg_len` is below 16 or above the remaining bytes, the
message walk of that buffer ends there: the loop body has run on `ms` only, the counts of
`get_netdev_names` and `get_fdb` have grown by `ms.length` and not by one more, and the driver
goes on to the next read. The loop body itself is run on the whole buffer, so that the attribute
walk of an accepted message may still read the bytes at that position. -/
theorem malformed_rejected (e : Endian) (ito : Nat → Option (List Nat))
    (fresh : Nat → Nat → Nat) (len : Int) (ms : List Buf) (bad : Buf) (rest : List Read)
    (stN : Names) (stF : Fdb)
    (hlen : len < 2147483648)
    (hms : ∀ m ∈ ms, wf_msg e m ∧ nlmsg_type e m 0 ≠ NLMSG_DONE)
    (hfit : fits e ms len = true)
    (hbad : len - ((datagram ms).length : Int) < 16 ∨ nlmsg_len e bad 0 < 16 ∨
      len - ((datagram ms).length : Int) < (nlmsg_len e bad 0 : Int)) :
    (msg_walk e (names_body e) (datagram ms ++ bad) len.toNat 0 len stN
        = (false, bodies (names_body e) (datagram ms ++ bad) 0 ms stN) ∧
      (bodies (names_body e) (datagram ms ++ bad) 0 ms stN).n_devices
        = stN.n_devices + ms.length ∧
      dump_loop e (names_body e) ((len, datagram ms ++ bad) :: rest) stN
        = dump_loop e (names_body e) rest
            (bodies (names_body e) (datagram ms ++ bad) 0 ms stN)) ∧
    (msg_walk e (fdb_body e ito fresh) (datagram ms ++ bad) len.toNat 0 len stF
        = (false, bodies (fdb_body e ito fresh) (datagram ms ++ bad) 0 ms stF) ∧
      (bodies (fdb_body e ito fresh) (datagram ms ++ bad) 0 ms stF).n_fibs
        = stF.n_fibs + ms.length ∧
      dump_loop e (fdb_body e ito fresh) ((len, datagram ms ++ bad) :: rest) stF
        = dump_loop e (fdb_body e ito fresh) rest
            (bodies (fdb_body e ito fresh) (datagram ms ++ bad) 0 ms stF)) := by
  have hord : ordinary_read e (len, ms, bad) :=
    ⟨hms, hfit, hlen, NLMSG_OK_false_of_malformed e bad _ (by omega) hbad⟩
  have hN := msg_walk_ordinary e (names_body e) (len, ms, bad) hord stN
  have hF := msg_walk_ordinary e (fdb_body e ito fresh) (len, ms, bad) hord stF
  simp only [mk_read] at hN hF
  refine ⟨⟨hN, bodies_count _ Names.n_devices (names_body_count e) _ _ _ _, ?_⟩,
    ⟨hF, bodies_count _ Fdb.n_fibs (fdb_body_count e ito fresh) _ _ _ _, ?_⟩⟩
  · simp only [dump_loop, hN]
  · simp only [dump_loop, hF]

theorem malformed_rejected_witness :
    ((60 : Int) < 2147483648 ∧
      (∀ m ∈ [ex_link_msg], wf_msg .little m ∧ nlmsg_type .little m 0 ≠ NLMSG_DONE) ∧
      (60 : Int) - ((datagram [ex_link_msg]).length : Int)
        < (nlmsg_len .little ([200, 0, 0, 0] ++ ex_link_msg) 0 : Int)) ∧
    msg_walk .little (names_body .little)
        (datagram [ex_link_msg] ++ ([200, 0, 0, 0] ++ ex_link_msg)) (60 : Int).toNat 0 60
        { n_devices := 0, device_names := [] }
      = (false, bodies (names_body .little)
          (datagram [ex_link_msg] ++ ([200, 0, 0, 0] ++ ex_link_msg)) 0 [ex_link_msg]
          { n_devices := 0, device_names := [] }) ∧
    (bodies (names_body .little)
        (datagram [ex_link_msg] ++ ([200, 0, 0, 0] ++ ex_link_msg)) 0 [ex_link_msg]
        { n_devices := 0, device_names := [] }).n_devices = 0 + [ex_link_msg].length :=
  have h := (malformed_rejected .little ex_if_indextoname (fun _ _ => 0) 60 [ex_link_msg]
    ([200, 0, 0, 0] ++ ex_link_msg) [] { n_devices := 0, device_names := [] }
    { n_fibs := 0, fibs := [] } (by decide) (by decide) (by decide)
    (Or.inr (Or.inr (by decide)))).1
  ⟨by decide, h.1, h.2.1⟩

/-- C6 (evaluation at the failing input). The neighbor message `ex_neigh_msg` carries
`NDA_LLADDR = 01 02 03 04 05 06` and interface index 2, which resolves to `"eth0"`. Followed by
a terminator alone in a zero-filled buffer, `get_fdb` returns the record the claim describes.
Followed by a 16-byte terminator and the eight bytes `08 00 02 00 ff ff ff ff` in the same
datagram, or by a 20-byte terminator with those bytes left in `recv_buff` past the returned
length, the record's address is `ff ff ff ff 05 06`: the attribute walk, given the budget
`nlmsg_len` at offset 28, runs 28 bytes past the message. -/
theorem get_fdb_overrun_eval :
    fdb_view 6 (get_fdb .little ex_if_indextoname (fun _ _ => 0)
        [(56, ex_neigh_msg ++ ex_done16)])
      = some (1, [(some [101, 116, 104, 48], [1, 2, 3, 4, 5, 6])], []) ∧
    fdb_view 6 (get_fdb .little ex_if_indextoname (fun _ _ => 0)
        [(64, ex_neigh_msg ++ ex_done16 ++ [8, 0, 2, 0, 255, 255, 255, 255])])
      = some (1, [(some [101, 116, 104, 48], [255, 255, 255, 255, 5, 6])], []) ∧
    fdb_view 6 (get_fdb .little ex_if_indextoname (fun _ _ => 0)
        [(60, ex_neigh_msg ++ ex_done ++ [8, 0, 2, 0, 255, 255, 255, 255])])
      = some (1, [(some [101, 116, 104, 48], [255, 255, 255, 255, 5, 6])], []) ∧
    IFLA_RTA (NLMSG_DATA 0) - 4 = NLMSG_HDRLEN + NLMSG_ALIGN sizeof_ndmsg :=
  ⟨rfl, rfl, rfl, rfl⟩

/-- C7 (evaluation at the failing input). The link message `ex_link_msg` carries
`IFLA_IFNAME = "eth0"`. Followed by a terminator alone, `get_netdev_names` returns 1 and the
slot `"eth0"`. Followed by a 16-byte terminator and a 12-byte tail that reads as an
`IFLA_IFNAME` attribute `"evil"`, it returns 1 and the slot `"evil"`: the attribute walk, given
the budget `nlmsg_len` at offset 32, runs 32 bytes past the message. -/
theorem get_netdev_names_overrun_eval :
    get_netdev_names .little [(60, ex_link_msg ++ ex_done16)]
      = some (1, [some [101, 116, 104, 48]], []) ∧
    get_netdev_names .little
        [(72, ex_link_msg ++ ex_done16 ++ [9, 0, 3, 0, 101, 118, 105, 108, 0, 0, 0, 0])]
      = some (1, [some [101, 118, 105, 108]], []) :=
  ⟨rfl, rfl⟩

/-- C4 (evaluation at the failing input). One read holds the link message `ex_link_msg`
(`IFLA_IFNAME = "eth0"`), a 16-byte `NLMSG_DONE` and, after that terminator, the complete
well-formed message `ex_evil_msg`, whose first bytes `09 00 03 00 "evil"` are its header.
Without the message after the terminator `get_netdev_names` returns 1 and the slot `"eth0"`;
with it, 1 and the slot `"evil"`: the message after the terminator is not ignored, the attribute
walk of the first message reads its header as an `IFLA_IFNAME` attribute. In the same way
`get_fdb`, for `ex_neigh_msg` (`NDA_LLADDR = 01 02 03 04 05 06`), a terminator and the complete
message `ex_lladdr_msg`, returns the address `ff ff ff ff 05 06`. -/
theorem dump_after_terminator_eval :
    (wf_msg .little ex_evil_msg ∧ nlmsg_type .little ex_evil_msg 0 ≠ NLMSG_DONE) ∧
    get_netdev_names .little [(60, ex_link_msg ++ ex_done16)]
      = some (1, [some [101, 116, 104, 48]], []) ∧
    get_netdev_names .little [(196680, ex_link_msg ++ ex_done16 ++ ex_evil_msg)]
      = some (1, [some [101, 118, 105, 108]], []) ∧
    (wf_msg .little ex_lladdr_msg ∧ nlmsg_type .little ex_lladdr_msg 0 ≠ NLMSG_DONE) ∧
    fdb_view 6 (get_fdb .little ex_if_indextoname (fun _ _ => 0)
        [(56, ex_neigh_msg ++ ex_done16)])
      = some (1, [(some [101, 116, 104, 48], [1, 2, 3, 4, 5, 6])], []) ∧
    fdb_view 6 (get_fdb .little ex_if_indextoname (fun _ _ => 0)
        [(131136, ex_neigh_msg ++ ex_done16 ++ ex_lladdr_msg)])
      = some (1, [(some [101, 116, 104, 48], [255, 255, 255, 255, 5, 6])], []) := by
  have l1 : nlmsg_len .little ex_evil_msg 0 = 196617 := by decide
  have n1 : ex_evil_msg.length = 196620 := by
    unfold ex_evil_msg
    rw [List.length_append, zeroed_length]
    decide
  have a1 : NLMSG_ALIGN 196617 = 196620 := by decide
  have l2 : nlmsg_len .little ex_lladdr_msg 0 = 131080 := by decide
  have n2 : ex_lladdr_msg.length = 131080 := by
    unfold ex_lladdr_msg
    rw [List.length_append, zeroed_length]
    decide
  have a2 : NLMSG_ALIGN 131080 = 131080 := by decide
  refine ⟨⟨⟨?_, ?_, ?_⟩, by decide⟩, by decide, by decide, ⟨⟨?_, ?_, ?_⟩, by decide⟩, rfl, rfl⟩
  · rw [l1]; omega
  · rw [l1, n1]; omega
  · rw [l1, n1, a1]
  · rw [l2]; omega
  · rw [l2, n2]
  · rw [l2, n2, a2]

/-- C5 (evaluation at the failing input). The first read returns 60 bytes: the link message
`ex_link_msg` (`nlmsg_len = 44`, `IFLA_IFNAME = "eth0"`) and the 16 bytes `ex_bad_link`, a
header whose declared length 196617 exceeds the 16 bytes left. `NLMSG_OK` rejects that message
and the message walk accepts offset 0 only, yet the attribute walk of the accepted message
accepts offset 44 and `get_netdev_names` returns the slot `"evil"`, taken from the bytes of the
rejected message; with sixteen zero bytes in their place (rejected as well) the slot is `"eth0"`.
In the same way `get_fdb`, for `ex_neigh_msg` followed by the 16 bytes `ex_bad_neigh`, returns
the address `ff ff ff ff 05 06` instead of `01 02 03 04 05 06`. -/
theorem malformed_bytes_parsed_eval :
    nlmsg_len .little (ex_link_msg ++ ex_bad_link) 44 = 196617 ∧
    NLMSG_OK .little (ex_link_msg ++ ex_bad_link) 44 16 = false ∧
    msg_accepted .little (ex_link_msg ++ ex_bad_link) 60 0 60 = [0] ∧
    rta_accepted .little (ex_link_msg ++ ex_bad_link) 44 (IFLA_RTA (NLMSG_DATA 0)) 44
      = [32, 44] ∧
    get_netdev_names .little [(60, ex_link_msg ++ zeroed 16), (20, ex_done)]
      = some (1, [some [101, 116, 104, 48]], []) ∧
    get_netdev_names .little [(60, ex_link_msg ++ ex_bad_link), (20, ex_done)]
      = some (1, [some [101, 118, 105, 108]], []) ∧
    nlmsg_len .little (ex_neigh_msg ++ ex_bad_neigh) 40 = 131080 ∧
    NLMSG_OK .little (ex_neigh_msg ++ ex_bad_neigh) 40 16 = false ∧
    msg_accepted .little (ex_neigh_msg ++ ex_bad_neigh) 56 0 56 = [0] ∧
    rta_accepted .little (ex_neigh_msg ++ ex_bad_neigh) 40 (IFLA_RTA (NLMSG_DATA 0) - 4) 40
      = [28, 40] ∧
    fdb_view 6 (get_fdb .little ex_if_indextoname (fun _ _ => 0)
        [(56, ex_neigh_msg ++ zeroed 16), (20, ex_done)])
      = some (1, [(some [101, 116, 104, 48], [1, 2, 3, 4, 5, 6])], []) ∧
    fdb_view 6 (get_fdb .little ex_if_indextoname (fun _ _ => 0)
        [(56, ex_neigh_msg ++ ex_bad_neigh), (20, ex_done)])
      = some (1, [(some [101, 116, 104, 48], [255, 255, 255, 255, 5, 6])], []) :=
  ⟨by decide, by decide, by decide, by decide, by decide, by decide, by decide, by decide,
    by decide, by decide, rfl, rfl⟩

/-- C9 (evaluation at the failing input). The neighbor message `ex_neigh_long` carries an
`NDA_LLADDR` attribute with the 8-byte payload `01 .. 08`. On storage that holds zeros,
`get_fdb` leaves `01 02 03 04 05 06 07 08` at `addr`: the bytes at indices 6 and 7, past the
6-byte field, have been written. -/
theorem get_fdb_lladdr_unclamped_eval :
    fdb_view 8 (get_fdb .little ex_if_indextoname (fun _ _ => 0) [(60, ex_neigh_long ++ ex_done)])
      = some (1, [(some [101, 116, 104, 48], [1, 2, 3, 4, 5, 6, 7, 8])], []) :=
  rfl

/-- The attribute loop of `get_fdb` leaves `addr` alone when it accepts no `NDA_LLADDR`. -/
theorem fdb_rta_walk_no_lladdr (e : Endian) (buf : Buf) (fuel : Nat) :
    ∀ (rta : Nat) (l : Int) (addr : Nat → Nat),
      NDA_LLADDR ∉ rta_types e buf fuel rta l → fdb_rta_walk e buf fuel rta l addr = addr := by
  induction fuel with
  | zero => intro rta l addr _; rfl
  | succ f ih =>
    intro rta l addr h
    unfold rta_types at h
    unfold fdb_rta_walk
    by_cases hok : RTA_OK e buf rta l = true
    · rw [if_pos hok] at h ⊢
      simp only [List.mem_cons, not_or] at h
      rw [if_neg (fun hc => h.1 hc.symm)]
      exact ih _ _ _ h.2
    · rw [if_neg hok]

theorem datagram_singleton (m : Buf) : datagram [m] = m := by
  simp [datagram]

/-- C10 (amended). FDB default address: for every neighbor message in whose attribute walk (from
message offset 28 with budget `nlmsg_len`) no `NDA_LLADDR` attribute is accepted, the record
`get_fdb` produces has `destination` resolved from `ndm_ifindex` and `addr` left exactly as the
storage the record array was grown into held it; the bytes are zero only if that storage was.
This holds for the record of any message at any position, and for the whole call on one such
message followed by a terminator. -/
theorem fdb_addr_default (e : Endian) (ito : Nat → Option (List Nat))
    (fresh : Nat → Nat → Nat) :
    (∀ (buf : Buf) (nh : Nat) (st : Fdb),
      NDA_LLADDR ∉ rta_types e buf (int_of_u32 (nlmsg_len e buf nh)).toNat (nh + 28)
        (int_of_u32 (nlmsg_len e buf nh)) →
      (fdb_body e ito fresh buf nh st).fibs = st.fibs ++
        [{ destination := ito (load32 e buf (nh + 20)), addr := fresh st.n_fibs }]) ∧
    (∀ (len : Int) (M term : Buf) (rest : List Read),
      wf_msg e M → nlmsg_type e M 0 ≠ NLMSG_DONE →
      nlmsg_type e term 0 = NLMSG_DONE → 16 ≤ nlmsg_len e term 0 →
      ((M.length + nlmsg_len e term 0 : Nat) : Int) ≤ len → len < 2147483648 →
      NDA_LLADDR ∉ rta_types e (M ++ term) (int_of_u32 (nlmsg_len e (M ++ term) 0)).toNat 28
        (int_of_u32 (nlmsg_len e (M ++ term) 0)) →
      ∃ r, get_fdb e ito fresh ((len, M ++ term) :: rest) = some (1, [r], rest) ∧
        r.destination = ito (load32 e (M ++ term) 20) ∧ r.addr = fresh 0) := by
  have hoff : ∀ nh, IFLA_RTA (NLMSG_DATA nh) - 4 = nh + 28 := by
    intro nh
    have h1 : NLMSG_ALIGN sizeof_ifinfomsg = 16 := by decide
    have h2 : NLMSG_LENGTH 0 = 16 := by decide
    simp only [IFLA_RTA, NLMSG_DATA, h1, h2]
    omega
  have hdat : ∀ nh, NLMSG_DATA nh + 4 = nh + 20 := by
    intro nh
    have h2 : NLMSG_LENGTH 0 = 16 := by decide
    simp only [NLMSG_DATA, h2]
  have hbody : ∀ (buf : Buf) (nh : Nat) (st : Fdb),
      NDA_LLADDR ∉ rta_types e buf (int_of_u32 (nlmsg_len e buf nh)).toNat (nh + 28)
        (int_of_u32 (nlmsg_len e buf nh)) →
      (fdb_body e ito fresh buf nh st).fibs = st.fibs ++
        [{ destination := ito (load32 e buf (nh + 20)), addr := fresh st.n_fibs }] := by
    intro buf nh st h
    simp only [fdb_body, hoff, hdat]
    rw [fdb_rta_walk_no_lladdr e buf _ _ _ _ h]
  refine ⟨hbody, ?_⟩
  intro len M term rest hwf hty htt h16 hfit hlen hno
  have hs := dump_loop_stream e (fdb_body e ito fresh) [] len [M] term rest (by simp)
    (by intro m hm; rw [List.mem_singleton] at hm; subst hm; exact ⟨hwf, hty⟩) htt h16
    (by rw [datagram_singleton]; exact hfit) hlen { n_fibs := 0, fibs := [] }
  simp only [List.map_nil, List.nil_append, datagram_singleton, bodies, after_reads] at hs
  refine ⟨{ destination := ito (load32 e (M ++ term) 20), addr := fresh 0 }, ?_, rfl, rfl⟩
  unfold get_fdb
  rw [hs]
  have hb := hbody (M ++ term) 0 { n_fibs := 0, fibs := [] } (by simpa using hno)
  simp only [Nat.zero_add, List.nil_append] at hb
  simp only [Option.map_some', hb]
  rfl

theorem fdb_addr_default_witness :
    (wf_msg .little ex_neigh_bare ∧ nlmsg_type .little ex_neigh_bare 0 ≠ NLMSG_DONE ∧
      nlmsg_type .little ex_done 0 = NLMSG_DONE ∧
      NDA_LLADDR ∉ rta_types .little (ex_neigh_bare ++ ex_done)
        (int_of_u32 (nlmsg_len .little (ex_neigh_bare ++ ex_done) 0)).toNat 28
        (int_of_u32 (nlmsg_len .little (ex_neigh_bare ++ ex_done) 0))) ∧
    ∃ r, get_fdb .little ex_if_indextoname (fun _ i => 160 + i)
        [(48, ex_neigh_bare ++ ex_done)] = some (1, [r], []) ∧
      r.destination = ex_if_indextoname (load32 .little (ex_neigh_bare ++ ex_done) 20) ∧
      r.addr = fun i => 160 + i :=
  ⟨by decide,
    (fdb_addr_default .little ex_if_indextoname (fun _ i => 160 + i)).2 48 ex_neigh_bare
      ex_done [] (by decide) (by decide) (by decide) (by decide) (by decide) (by decide)
      (by decide)⟩

/-- C10 (counterexample). A neighbor message without attributes, followed by a terminator, on
record storage that holds the byte `aa`: the record's `addr` is `aa aa aa aa aa aa`, not zero. -/
theorem fdb_addr_not_zeroed :
    fdb_view 6 (get_fdb .little ex_if_indextoname (fun _ _ => 170)
        [(48, ex_neigh_bare ++ ex_done)])
      = some (1, [(some [101, 116, 104, 48], [170, 170, 170, 170, 170, 170])], []) ∧
    NDA_LLADDR ∉ rta_types .little (ex_neigh_bare ++ ex_done) 28 28 28 :=
  ⟨rfl, by decide⟩

theorem RTA_OK_step {e : Endian} {buf : Buf} {rta : Nat} {l : Int}
    (h : RTA_OK e buf rta l = true) :
    4 ≤ RTA_ALIGN (rta_len e buf rta) ∧ (RTA_NEXT e buf rta l).2 ≤ l - 4 := by
  simp only [RTA_OK, sizeof_rtattr, Bool.and_eq_true, decide_eq_true_eq] at h
  have hlt : rta_len e buf rta < 65536 := load16_lt e buf rta
  have hal : RTA_ALIGN (rta_len e buf rta) = align (rta_len e buf rta) :=
    RTA_ALIGN_small (by omega)
  have h4 : 4 ≤ align (rta_len e buf rta) := by unfold align; omega
  simp only [RTA_NEXT, hal]
  omega

theorem RTA_OK_false_of_le {e : Endian} {buf : Buf} {rta : Nat} {l : Int} (h : l ≤ 0) :
    RTA_OK e buf rta l = false := by
  rw [Bool.eq_false_iff]
  intro hc
  simp only [RTA_OK, sizeof_rtattr, Bool.and_eq_true, decide_eq_true_eq] at hc
  omega

/-- The bound on the iterations of the attribute loop of `get_netdev_names` is never reached:
any two bounds of at least `l` give the same result. -/
theorem names_rta_walk_fuel (e : Endian) (buf : Buf) (f1 : Nat) :
    ∀ (f2 rta : Nat) (l : Int) (slot : Option (List Nat)), l ≤ f1 → l ≤ f2 →
      names_rta_walk e buf f1 rta l slot = names_rta_walk e buf f2 rta l slot := by
  induction f1 with
  | zero =>
    intro f2 rta l slot h1 _
    have hok : RTA_OK e buf rta l = false := RTA_OK_false_of_le (by simpa using h1)
    cases f2 with
    | zero => rfl
    | succ g => simp [names_rta_walk, hok]
  | succ f ih =>
    intro f2 rta l slot h1 h2
    cases f2 with
    | zero =>
      have hok : RTA_OK e buf rta l = false := RTA_OK_false_of_le (by simpa using h2)
      simp [names_rta_walk, hok]
    | succ g =>
      unfold names_rta_walk
      by_cases hok : RTA_OK e buf rta l = true
      · rw [if_pos hok, if_pos hok]
        have := (RTA_OK_step hok).2
        push_cast at h1 h2
        exact ih _ _ _ _ (by omega) (by omega)
      · rw [if_neg hok, if_neg hok]

/-- The bound on the iterations of the attribute loop of `get_fdb` is never reached. -/
theorem fdb_rta_walk_fuel (e : Endian) (buf : Buf) (f1 : Nat) :
    ∀ (f2 rta : Nat) (l : Int) (addr : Nat → Nat), l ≤ f1 → l ≤ f2 →
      fdb_rta_walk e buf f1 rta l addr = fdb_rta_walk e buf f2 rta l addr := by
  induction f1 with
  | zero =>
    intro f2 rta l addr h1 _
    have hok : RTA_OK e buf rta l = false := RTA_OK_false_of_le (by simpa using h1)
    cases f2 with
    | zero => rfl
    | succ g => simp [fdb_rta_walk, hok]
  | succ f ih =>
    intro f2 rta l addr h1 h2
    cases f2 with
    | zero =>
      have hok : RTA_OK e buf rta l = false := RTA_OK_false_of_le (by simpa using h2)
      simp [fdb_rta_walk, hok]
    | succ g =>
      unfold fdb_rta_walk
      by_cases hok : RTA_OK e buf rta l = true
      · rw [if_pos hok, if_pos hok]
        have := (RTA_OK_step hok).2
        push_cast at h1 h2
        exact ih _ _ _ _ (by omega) (by omega)
      · rw [if_neg hok, if_neg hok]

theorem NLMSG_OK_step {e : Endian} {buf : Buf} {nh : Nat} {len : Int}
    (hlen : len < 2147483648) (h : NLMSG_OK e buf nh len = true) :
    (NLMSG_NEXT e buf nh len).2 ≤ len - 16 := by
  simp only [NLMSG_OK, sizeof_nlmsghdr, Bool.and_eq_true, decide_eq_true_eq] at h
  have hal : NLMSG_ALIGN (nlmsg_len e buf nh) = align (nlmsg_len e buf nh) :=
    NLMSG_ALIGN_small (by omega)
  have h4 : 16 ≤ align (nlmsg_len e buf nh) := by unfold align; omega
  simp only [NLMSG_NEXT, hal]
  omega

/-- The bound on the iterations of the message loop is never reached: for a length in the range
of `int`, any two bounds of at least `len` give the same result. -/
theorem msg_walk_fuel {σ : Type} (e : Endian) (body : Buf → Nat → σ → σ) (buf : Buf)
    (f1 : Nat) :
    ∀ (f2 nh : Nat) (len : Int) (st : σ), len < 2147483648 → len ≤ f1 → len ≤ f2 →
      msg_walk e body buf f1 nh len st = msg_walk e body buf f2 nh len st := by
  induction f1 with
  | zero =>
    intro f2 nh len st _ h1 _
    rw [msg_walk_stop e body buf 0 nh len st, msg_walk_stop e body buf f2 nh len st] <;>
    · rw [Bool.eq_false_iff]
      intro hc
      simp only [NLMSG_OK, sizeof_nlmsghdr, Bool.and_eq_true, decide_eq_true_eq] at hc
      push_cast at h1
      omega
  | succ f ih =>
    intro f2 nh len st hlen h1 h2
    by_cases hok : NLMSG_OK e buf nh len = true
    · cases f2 with
      | zero =>
        simp only [NLMSG_OK, sizeof_nlmsghdr, Bool.and_eq_true, decide_eq_true_eq] at hok
        push_cast at h2
        omega
      | succ g =>
        unfold msg_walk
        rw [if_pos hok, if_pos hok]
        by_cases hd : nlmsg_type e buf nh = NLMSG_DONE
        · rw [if_pos hd, if_pos hd]
        · rw [if_neg hd, if_neg hd]
          have := NLMSG_OK_step hlen hok
          push_cast at h1 h2
          exact ih _ _ _ _ (by omega) (by omega) (by omega)
    · have hf : NLMSG_OK e buf nh len = false := by simpa using hok
      rw [msg_walk_stop e body buf _ nh len st hf, msg_walk_stop e body buf _ nh len st hf]

theorem put_length_eq (m : Buf) (o : Nat) (bs : List Nat) :
    (put m o bs).length = min o m.length + bs.length + (m.length - (o + bs.length)) := by
  simp [put]
  omega

/-- The buffer `add_netlink_msg` returns, as four stores in source order. -/
theorem add_netlink_msg_put (e : Endian) (nh : Buf) (type : Nat) (data : List Nat) (n : Nat)
    (hcap : NLMSG_ALIGN (nlmsg_len e nh 0) + 4 + n ≤ nh.length) (hd : n ≤ data.length) :
    add_netlink_msg e nh type data n = some
      (put (put (put (put nh (NLMSG_ALIGN (nlmsg_len e nh 0) + 2) (bytes16 e type))
          (NLMSG_ALIGN (nlmsg_len e nh 0)) (bytes16 e (RTA_LENGTH n % 4294967296))) 0
        (bytes32 e (NLMSG_ALIGN (nlmsg_len e
          (put (put nh (NLMSG_ALIGN (nlmsg_len e nh 0) + 2) (bytes16 e type))
            (NLMSG_ALIGN (nlmsg_len e nh 0)) (bytes16 e (RTA_LENGTH n % 4294967296))) 0)
          + RTA_ALIGN (RTA_LENGTH n % 4294967296))))
        (RTA_DATA (NLMSG_ALIGN (nlmsg_len e nh 0))) (data.take n)) := by
  have hD : RTA_DATA (NLMSG_ALIGN (nlmsg_len e nh 0)) = NLMSG_ALIGN (nlmsg_len e nh 0) + 4 := by
    have : RTA_ALIGN sizeof_rtattr = 4 := by decide
    simp [RTA_DATA, RTA_LENGTH, this]
  have hlt : (data.take n).length = n := by simp; omega
  have h1 : store nh (NLMSG_ALIGN (nlmsg_len e nh 0) + 2) (bytes16 e type) = some _ :=
    store_some (by rw [bytes16_length]; omega)
  have l1 := store_length h1
  have h2 : store (put nh (NLMSG_ALIGN (nlmsg_len e nh 0) + 2) (bytes16 e type))
      (NLMSG_ALIGN (nlmsg_len e nh 0)) (bytes16 e (RTA_LENGTH n % 4294967296)) = some _ :=
    store_some (by rw [bytes16_length]; omega)
  have l2 := store_length h2
  have h3 : store (put (put nh (NLMSG_ALIGN (nlmsg_len e nh 0) + 2) (bytes16 e type))
      (NLMSG_ALIGN (nlmsg_len e nh 0)) (bytes16 e (RTA_LENGTH n % 4294967296))) 0
      (bytes32 e (NLMSG_ALIGN (nlmsg_len e
          (put (put nh (NLMSG_ALIGN (nlmsg_len e nh 0) + 2) (bytes16 e type))
            (NLMSG_ALIGN (nlmsg_len e nh 0)) (bytes16 e (RTA_LENGTH n % 4294967296))) 0)
          + RTA_ALIGN (RTA_LENGTH n % 4294967296))) = some _ :=
    store_some (by rw [bytes32_length]; omega)
  have l3 := store_length h3
  have h4 : store (put (put (put nh (NLMSG_ALIGN (nlmsg_len e nh 0) + 2) (bytes16 e type))
          (NLMSG_ALIGN (nlmsg_len e nh 0)) (bytes16 e (RTA_LENGTH n % 4294967296))) 0
        (bytes32 e (NLMSG_ALIGN (nlmsg_len e
          (put (put nh (NLMSG_ALIGN (nlmsg_len e nh 0) + 2) (bytes16 e type))
            (NLMSG_ALIGN (nlmsg_len e nh 0)) (bytes16 e (RTA_LENGTH n % 4294967296))) 0)
          + RTA_ALIGN (RTA_LENGTH n % 4294967296))))
      (RTA_DATA (NLMSG_ALIGN (nlmsg_len e nh 0))) (data.take n) = some _ :=
    store_some (by rw [hlt, hD]; omega)
  simp only [add_netlink_msg, h1, Option.some_bind, h2, h3, memcpy, if_pos hd, h4]

/-- The buffer `add_netlink_msg` returns on a message of aligned length `B`, in closed form. -/
theorem add_netlink_msg_closed (e : Endian) (nh : Buf) (type : Nat) (data : List Nat) (n B : Nat)
    (hB : nlmsg_len e nh 0 = B) (h4 : 4 ≤ B) (hmod : B % 4 = 0)
    (hcap : B + 4 + n ≤ nh.length) (hd : n ≤ data.length) (hsz : nh.length < 4294967296) :
    add_netlink_msg e nh type data n = some
      (put (put (put (put nh (B + 2) (bytes16 e type)) B (bytes16 e (4 + n))) 0
        (bytes32 e (B + align (4 + n)))) (B + 4) (data.take n)) := by
  have hA : NLMSG_ALIGN B = B := by
    rw [NLMSG_ALIGN_small (by omega), align_of_mod4 hmod]
  have hR : RTA_LENGTH n % 4294967296 = 4 + n := by
    have : RTA_ALIGN sizeof_rtattr = 4 := by decide
    rw [RTA_LENGTH, this, Nat.mod_eq_of_lt (by omega)]
  have hD : RTA_DATA B = B + 4 := by
    have : RTA_ALIGN sizeof_rtattr = 4 := by decide
    simp [RTA_DATA, RTA_LENGTH, this]
  rw [add_netlink_msg_put e nh type data n (by rw [hB, hA]; exact hcap) hd, hB, hA, hR, hD]
  have h1 : (put nh (B + 2) (bytes16 e type)).length = nh.length :=
    put_length (by rw [bytes16_length]; omega)
  have hl : nlmsg_len e (put (put nh (B + 2) (bytes16 e type)) B (bytes16 e (4 + n))) 0 = B := by
    unfold nlmsg_len at hB ⊢
    rw [load32_put_other (by rw [bytes16_length, h1]; omega) (by omega),
      load32_put_other (by rw [bytes16_length]; omega) (by omega), hB]
  rw [hl, hA, RTA_ALIGN_small (by omega)]

/-- The bytes `join_bridge` hands to `send`, field by field. -/
theorem join_bridge_bytes (e : Endian) (f : List Nat → Nat) (b : Option (List Nat)) (i : Int) :
    join_bridge e f b i = some
      (bytes32 e 40 ++ bytes16 e RTM_NEWLINK ++ bytes16 e NLM_F_REQUEST ++ bytes32 e 0 ++
        bytes32 e 0 ++ [AF_PACKET, 0] ++ bytes16 e 0 ++ bytes32 e (i % 4294967296).toNat ++
        bytes32 e 0 ++ bytes32 e 0 ++ bytes16 e 8 ++ bytes16 e IFLA_MASTER ++
        bytes32 e (br_ifiindex f b), 0) := by
  unfold join_bridge
  dsimp only
  rw [add_netlink_msg_closed e _ _ _ 4 32 (by cases e <;> rfl) (by decide) (by decide)
    (by simp only [put_length_eq, link_scratch_length, bytes32_length, bytes16_length,
          List.length_singleton]; decide)
    (by rw [bytes32_length])
    (by simp only [put_length_eq, link_scratch_length, bytes32_length, bytes16_length,
          List.length_singleton]; decide)]
  cases e <;> rfl

theorem addr_scratch_length : addr_scratch.length = 280 := by
  unfold addr_scratch
  rw [zeroed_length]
  rfl

/-- The bytes `dev_up` hands to `send`, field by field, and its return value. -/
theorem dev_up_bytes (e : Endian) (f : List Nat → Nat) (d : List Nat) :
    dev_up e f d =
      (bytes32 e 32 ++ bytes16 e RTM_NEWLINK ++ bytes16 e NLM_F_REQUEST ++ bytes32 e 0 ++
        bytes32 e 0 ++ [AF_PACKET, 0] ++ bytes16 e 0 ++ bytes32 e (f d % 4294967296) ++
        bytes32 e IFF_UP ++ bytes32 e IFF_UP, 0) := by
  cases e <;> rfl

set_option maxRecDepth 8000 in
/-- The bytes `set_ip_address` hands to `send`, field by field, and its return value. -/
theorem set_ip_address_bytes (e : Endian) (f : List Nat → Nat) (stack : Nat → Nat) (ip : Nat)
    (p : Int) (d : List Nat) :
    set_ip_address e f stack ip p d = some
      (bytes32 e 52 ++ bytes16 e RTM_NEWADDR ++
        bytes16 e (NLM_F_REQUEST ||| NLM_F_CREATE ||| NLM_F_EXCL) ++ bytes32 e 0 ++ bytes32 e 0 ++
        [AF_INET, (p % 256).toNat, 0, 0] ++ bytes32 e (f d) ++
        bytes16 e 8 ++ bytes16 e IFA_LOCAL ++ bytes32 e (htonl e ip) ++
        bytes16 e 8 ++ bytes16 e IFA_ADDRESS ++ bytes32 e (htonl e ip) ++
        bytes16 e 12 ++ bytes16 e IFA_BROADCAST ++
        bytes32 e (htonl e (set_ip_address_broadcast ip p)) ++
        [stack 0, stack 1, stack 2, stack 3], 0) := by
  unfold set_ip_address
  dsimp only
  rw [add_netlink_msg_closed e _ _ _ 4 24 (by cases e <;> rfl) (by decide) (by decide)
    (by simp only [put_length_eq, addr_scratch_length, bytes32_length, bytes16_length,
          List.length_singleton]; decide)
    (by rw [bytes32_length])
    (by simp only [put_length_eq, addr_scratch_length, bytes32_length, bytes16_length,
          List.length_singleton]; decide)]
  simp only [Option.some_bind]
  rw [add_netlink_msg_closed e _ _ _ 4 32 (by cases e <;> rfl) (by decide) (by decide)
    (by simp only [put_length_eq, addr_scratch_length, bytes32_length, bytes16_length,
          List.length_singleton, List.length_take]; decide)
    (by rw [bytes32_length])
    (by simp only [put_length_eq, addr_scratch_length, bytes32_length, bytes16_length,
          List.length_singleton, List.length_take]; decide)]
  simp only [Option.some_bind]
  rw [add_netlink_msg_closed e _ _ _ 8 40 (by cases e <;> rfl) (by decide) (by decide)
    (by simp only [put_length_eq, addr_scratch_length, bytes32_length, bytes16_length,
          List.length_singleton, List.length_take]; decide)
    (by simp [bytes32_length])
    (by simp only [put_length_eq, addr_scratch_length, bytes32_length, bytes16_length,
          List.length_singleton, List.length_take]; decide)]
  simp only [Option.some_bind]
  have hlen : ∀ r : Buf, nlmsg_len e r 0 = 52 → (some (r.take (nlmsg_len e r 0), (0 : Int))
      = some (r.take 52, (0 : Int))) := by
    intro r h; rw [h]
  rw [hlen _ (by cases e <;> rfl)]
  cases e <;>
    simp [put, zeroed, addr_scratch, bytes32, bytes16, align, sizeof_nlmsghdr, sizeof_ifaddrmsg,
      NLMSG_LENGTH, NLMSG_HDRLEN, NLMSG_ALIGN, RTM_NEWADDR, NLM_F_REQUEST, NLM_F_CREATE,
      NLM_F_EXCL, AF_INET, IFA_LOCAL, IFA_ADDRESS, IFA_BROADCAST]

/-- C19. Append frame: on a message buffer with room for the attribute, `add_netlink_msg` with a
payload of `n` bytes returns a buffer of the same size that differs from the old one at most in
the four bytes of `nlmsg_len` and in the bytes at offsets `[a, a + 4 + n)`, with
`a = align(old nlmsg_len)`: the rest of the header, the fixed body, the attributes appended
before and the bytes after the new payload, its padding included, are unchanged. -/
theorem add_netlink_msg_frame (e : Endian) (nh : Buf) (type : Nat) (data : List Nat) (n : Nat)
    (hhdr : 16 ≤ nlmsg_len e nh 0) (hw : nlmsg_len e nh 0 ≤ 4294967292)
    (hcap : NLMSG_ALIGN (nlmsg_len e nh 0) + 4 + n ≤ nh.length) (hd : n ≤ data.length) :
    ∃ nh', add_netlink_msg e nh type data n = some nh' ∧ nh'.length = nh.length ∧
      NLMSG_ALIGN (nlmsg_len e nh 0) = align (nlmsg_len e nh 0) ∧
      ∀ i, 4 ≤ i → (i < align (nlmsg_len e nh 0) ∨ align (nlmsg_len e nh 0) + 4 + n ≤ i) →
        nh'.getD i 0 = nh.getD i 0 ∧ nh'[i]? = nh[i]? := by
  have hal : NLMSG_ALIGN (nlmsg_len e nh 0) = align (nlmsg_len e nh 0) :=
    NLMSG_ALIGN_small (by omega)
  have h16 : 16 ≤ align (nlmsg_len e nh 0) := by unfold align; omega
  rw [hal] at hcap
  obtain ⟨nh', h1, h2, h3⟩ := add_netlink_msg_bytes e nh type data n
    (align (nlmsg_len e nh 0)) hal.symm (by omega) hcap hd
  refine ⟨nh', h1, h2, hal, ?_⟩
  intro i hi hr
  have hg : nh'.getD i 0 = nh.getD i 0 := by
    rw [h3, if_neg (by omega), if_neg (by omega), if_neg (by omega), if_neg (by omega)]
  refine ⟨hg, ?_⟩
  by_cases hlt : i < nh.length
  · rw [List.getElem?_eq_getElem hlt, List.getElem?_eq_getElem (by omega)]
    exact congrArg some (getElem_of_getD (by omega) hlt hg)
  · rw [List.getElem?_eq_none (by omega), List.getElem?_eq_none (by omega)]

theorem add_netlink_msg_frame_witness :
    (16 ≤ nlmsg_len .little ([32, 0, 0, 0] ++ zeroed 44) 0 ∧
      NLMSG_ALIGN (nlmsg_len .little ([32, 0, 0, 0] ++ zeroed 44) 0) + 4 + 3
        ≤ ([32, 0, 0, 0] ++ zeroed 44).length) ∧
    ∃ nh', add_netlink_msg .little ([32, 0, 0, 0] ++ zeroed 44) 3 [65, 66, 0] 3 = some nh' ∧
      nh'.length = ([32, 0, 0, 0] ++ zeroed 44).length := by
  refine ⟨by decide, ?_⟩
  obtain ⟨nh', h1, h2, _⟩ := add_netlink_msg_frame .little ([32, 0, 0, 0] ++ zeroed 44) 3
    [65, 66, 0] 3 (by decide) (by decide) (by decide) (by decide)
  exact ⟨nh', h1, h2⟩

theorem int_of_u32_emod (i : Int) (h1 : -2147483648 ≤ i) (h2 : i < 2147483648) :
    int_of_u32 (i % 4294967296).toNat = i := by
  unfold int_of_u32
  split <;> omega

/-- Fields of the message `join_bridge` sends. -/
theorem join_bridge_fields (e : Endian) (f : List Nat → Nat) (b : Option (List Nat)) (i : Int) :
    ∃ sent, join_bridge e f b i = some (sent, 0) ∧ sent.length = 40 ∧
      nlmsg_len e sent 0 = 40 ∧ nlmsg_type e sent 0 = RTM_NEWLINK ∧
      nlmsg_flags e sent 0 = NLM_F_REQUEST ∧ byteAt sent 16 = AF_PACKET ∧
      load32 e sent 20 = (i % 4294967296).toNat ∧
      decode_attrs e sent 32 ((nlmsg_len e sent 0 : Int) - 32)
        = [(IFLA_MASTER, bytes32 e (br_ifiindex f b))] ∧
      rta_len e sent 32 = 8 ∧ load32 e sent 36 = br_ifiindex f b % 4294967296 := by
  refine ⟨_, join_bridge_bytes e f b i, ?_, ?_, ?_, ?_, ?_, ?_, ?_, ?_, ?_⟩
  · cases e <;> rfl
  · cases e <;> rfl
  · cases e <;> rfl
  · cases e <;> rfl
  · cases e <;> rfl
  · cases e <;> simp [load32, byteAt, bytes32, bytes16] <;> omega
  · have h40 : nlmsg_len e (bytes32 e 40 ++ bytes16 e RTM_NEWLINK ++ bytes16 e NLM_F_REQUEST ++
        bytes32 e 0 ++ bytes32 e 0 ++ [AF_PACKET, 0] ++ bytes16 e 0 ++
        bytes32 e (i % 4294967296).toNat ++ bytes32 e 0 ++ bytes32 e 0 ++ bytes16 e 8 ++
        bytes16 e IFLA_MASTER ++ bytes32 e (br_ifiindex f b)) 0 = 40 := by
      cases e <;> rfl
    have h8 : ((40 : Nat) : Int) - 32 = 8 := by decide
    rw [h40, h8]
    cases e <;>
    simp [decode_attrs, rta_accepted, attr_view, RTA_OK, RTA_NEXT, RTA_PAYLOAD, RTA_DATA,
      RTA_LENGTH, RTA_ALIGN_eq, rta_len, rta_type, load16, byteAt, bytes32, bytes16,
      sizeof_rtattr, RTM_NEWLINK, NLM_F_REQUEST, AF_PACKET, IFLA_MASTER]
  · cases e <;> rfl
  · cases e <;> simp [load32, byteAt, bytes32, bytes16] <;> omega

/-- C14. Detach is membership with no bridge: `leave_bridge(i)` sends exactly what
`join_bridge(NULL, i)` sends. For every bridge argument that message is the 40-byte
`RTM_NEWLINK` message with flags exactly `NLM_F_REQUEST`, `ifi_family = AF_PACKET`,
`ifi_index = i`, every other header and body field zero, and the single attribute
`IFLA_MASTER` with length field 8 whose 4-byte payload is the handle: `0` for `NULL`, the value
`if_nametoindex` returns for a name. -/
theorem leave_bridge_is_join_none (e : Endian) (f : List Nat → Nat) (i : Int)
    (h1 : -2147483648 ≤ i) (h2 : i < 2147483648) :
    leave_bridge e f i = join_bridge e f none i ∧
    br_ifiindex f none = 0 ∧
    (∀ name, f name < 4294967296 → br_ifiindex f (some name) = f name) ∧
    ∀ b : Option (List Nat),
      join_bridge e f b i = some
        (bytes32 e 40 ++ bytes16 e RTM_NEWLINK ++ bytes16 e NLM_F_REQUEST ++ bytes32 e 0 ++
          bytes32 e 0 ++ [AF_PACKET, 0] ++ bytes16 e 0 ++ bytes32 e (i % 4294967296).toNat ++
          bytes32 e 0 ++ bytes32 e 0 ++ bytes16 e 8 ++ bytes16 e IFLA_MASTER ++
          bytes32 e (br_ifiindex f b), 0) ∧
      ∃ sent, join_bridge e f b i = some (sent, 0) ∧ sent.length = 40 ∧
        nlmsg_len e sent 0 = 40 ∧ nlmsg_type e sent 0 = RTM_NEWLINK ∧
        nlmsg_flags e sent 0 = NLM_F_REQUEST ∧ byteAt sent 16 = AF_PACKET ∧
        int_of_u32 (load32 e sent 20) = i ∧
        decode_attrs e sent 32 ((nlmsg_len e sent 0 : Int) - 32)
          = [(IFLA_MASTER, bytes32 e (br_ifiindex f b))] ∧
        rta_len e sent 32 = 8 ∧ load32 e sent 36 = br_ifiindex f b % 4294967296 := by
  refine ⟨rfl, rfl, ?_, ?_⟩
  · intro name hn
    exact Nat.mod_eq_of_lt hn
  · intro b
    refine ⟨join_bridge_bytes e f b i, ?_⟩
    obtain ⟨sent, s1, s2, s3, s4, s5, s6, s7, s8, s9, s10⟩ := join_bridge_fields e f b i
    exact ⟨sent, s1, s2, s3, s4, s5, s6, by rw [s7, int_of_u32_emod i h1 h2], s8, s9, s10⟩

theorem leave_bridge_is_join_none_witness :
    ((-2147483648 : Int) ≤ 5 ∧ (5 : Int) < 2147483648) ∧
    leave_bridge .little (fun _ => 9) 5 = join_bridge .little (fun _ => 9) none 5 ∧
    leave_bridge .little (fun _ => 9) 5 = some
      ([40, 0, 0, 0, 16, 0, 1, 0, 0, 0, 0, 0, 0, 0, 0, 0, 17, 0, 0, 0, 5, 0, 0, 0,
        0, 0, 0, 0, 0, 0, 0, 0, 8, 0, 10, 0, 0, 0, 0, 0], 0) :=
  ⟨by decide,
    (leave_bridge_is_join_none .little (fun _ => 9) 5 (by decide) (by decide)).1,
    ((leave_bridge_is_join_none .little (fun _ => 9) 5 (by decide) (by decide)).2.2.2 none).1⟩

/-- C15 (amended). The message `dev_up` sends: exactly 32 bytes (header and `struct ifinfomsg`,
no attributes), type `RTM_NEWLINK`, flags exactly `NLM_F_REQUEST`, `ifi_family = AF_PACKET`,
`ifi_index` the handle `if_nametoindex` returns for the device, `ifi_flags` and `ifi_change`
both exactly `IFF_UP`, and every other header and body field (`nlmsg_seq`, `nlmsg_pid`, the
padding byte, `ifi_type`) zero; the return value is 0. -/
theorem dev_up_message (e : Endian) (f : List Nat → Nat) (devname : List Nat) :
    dev_up e f devname =
      (bytes32 e 32 ++ bytes16 e RTM_NEWLINK ++ bytes16 e NLM_F_REQUEST ++ bytes32 e 0 ++
        bytes32 e 0 ++ [AF_PACKET, 0] ++ bytes16 e 0 ++ bytes32 e (f devname % 4294967296) ++
        bytes32 e IFF_UP ++ bytes32 e IFF_UP, 0) ∧
    (dev_up e f devname).1.length = 32 ∧
    nlmsg_len e (dev_up e f devname).1 0 = 32 ∧
    nlmsg_type e (dev_up e f devname).1 0 = RTM_NEWLINK ∧
    nlmsg_flags e (dev_up e f devname).1 0 = NLM_F_REQUEST ∧
    load32 e (dev_up e f devname).1 8 = 0 ∧ load32 e (dev_up e f devname).1 12 = 0 ∧
    byteAt (dev_up e f devname).1 16 = AF_PACKET ∧ byteAt (dev_up e f devname).1 17 = 0 ∧
    load16 e (dev_up e f devname).1 18 = 0 ∧
    load32 e (dev_up e f devname).1 20 = f devname % 4294967296 ∧
    load32 e (dev_up e f devname).1 24 = IFF_UP ∧ load32 e (dev_up e f devname).1 28 = IFF_UP := by
  rw [dev_up_bytes]
  refine ⟨rfl, ?_, ?_, ?_, ?_, ?_, ?_, ?_, ?_, ?_, ?_, ?_, ?_⟩
  · cases e <;> rfl
  · cases e <;> rfl
  · cases e <;> rfl
  · cases e <;> rfl
  · cases e <;> rfl
  · cases e <;> rfl
  · cases e <;> rfl
  · cases e <;> rfl
  · cases e <;> rfl
  · cases e <;> simp [load32, byteAt, bytes32, bytes16] <;> omega
  · cases e <;> rfl
  · cases e <;> rfl

/-- C15 (counterexample). In the message `dev_up` sends, the body field `ifi_family` (the byte
at offset 16) is `AF_PACKET = 17`, not zero. -/
theorem dev_up_family_not_zero :
    byteAt (dev_up .little (fun _ => 7) [101, 116, 104, 48]).1 16 = 17 ∧
    (dev_up .little (fun _ => 7) [101, 116, 104, 48]).1 =
      [32, 0, 0, 0, 16, 0, 1, 0, 0, 0, 0, 0, 0, 0, 0, 0,
        17, 0, 0, 0, 7, 0, 0, 0, 1, 0, 0, 0, 1, 0, 0, 0] :=
  ⟨rfl, rfl⟩

theorem be32_mod (x : Nat) : be32 (x % 4294967296) = be32 x := by
  simp only [be32]
  refine List.cons_eq_cons.mpr ⟨by omega, List.cons_eq_cons.mpr ⟨by omega,
    List.cons_eq_cons.mpr ⟨by omega, List.cons_eq_cons.mpr ⟨by omega, rfl⟩⟩⟩⟩

theorem bswap_bytes (b0 b1 b2 b3 : Nat) (h0 : b0 < 256) (h1 : b1 < 256) (h2 : b2 < 256)
    (h3 : b3 < 256) :
    bytes32 .little (b0 * 16777216 + b1 * 65536 + b2 * 256 + b3) = [b3, b2, b1, b0] := by
  simp only [bytes32]
  refine List.cons_eq_cons.mpr ⟨by omega, List.cons_eq_cons.mpr ⟨by omega,
    List.cons_eq_cons.mpr ⟨by omega, List.cons_eq_cons.mpr ⟨by omega, rfl⟩⟩⟩⟩

/-- The memory image of `htonl(x)` is the big-endian encoding of `x`, on either host. -/
theorem bytes32_htonl (e : Endian) (x : Nat) : bytes32 e (htonl e x) = be32 x := by
  cases e
  · simp only [htonl]
    rw [bswap_bytes _ _ _ _ (Nat.mod_lt _ (by norm_num)) (Nat.mod_lt _ (by norm_num))
      (Nat.mod_lt _ (by norm_num)) (Nat.mod_lt _ (by norm_num))]
    rfl
  · simp only [htonl, bytes32]
    rw [← be32_mod x]
    rfl

/-- Fields of the message `set_ip_address` sends. -/
theorem set_ip_address_fields (e : Endian) (f : List Nat → Nat) (stack : Nat → Nat) (ip : Nat)
    (p : Int) (d : List Nat) :
    ∃ sent, set_ip_address e f stack ip p d = some (sent, 0) ∧ sent.length = 52 ∧
      nlmsg_len e sent 0 = 52 ∧ nlmsg_type e sent 0 = RTM_NEWADDR ∧
      nlmsg_flags e sent 0 = NLM_F_REQUEST ||| NLM_F_CREATE ||| NLM_F_EXCL ∧
      byteAt sent 16 = AF_INET ∧ byteAt sent 17 = (p % 256).toNat ∧
      rta_accepted e sent 28 24 28 = [24, 32, 40] ∧
      [rta_type e sent 24, rta_type e sent 32, rta_type e sent 40]
        = [IFA_LOCAL, IFA_ADDRESS, IFA_BROADCAST] ∧
      [rta_len e sent 24, rta_len e sent 32, rta_len e sent 40] = [8, 8, 12] ∧
      [RTA_PAYLOAD e sent 24, RTA_PAYLOAD e sent 32, RTA_PAYLOAD e sent 40] = [4, 4, 8] ∧
      (sent.drop 28).take 4 = bytes32 e (htonl e ip) ∧
      (sent.drop 36).take 4 = bytes32 e (htonl e ip) ∧
      (sent.drop 44).take 8 = bytes32 e (htonl e (set_ip_address_broadcast ip p)) ++
        [stack 0, stack 1, stack 2, stack 3] := by
  refine ⟨_, set_ip_address_bytes e f stack ip p d, ?_, ?_, ?_, ?_, ?_, ?_, ?_, ?_, ?_, ?_,
    ?_, ?_, ?_⟩
  · simp [bytes32_length, bytes16_length]
  · cases e <;> simp [nlmsg_len, load32, byteAt, bytes32, bytes16]
  · cases e <;> simp [nlmsg_type, load16, byteAt, bytes32, bytes16, RTM_NEWADDR]
  · cases e <;>
    simp [nlmsg_flags, load16, byteAt, bytes32, bytes16, NLM_F_REQUEST, NLM_F_CREATE,
      NLM_F_EXCL]
  · cases e <;> simp [byteAt, bytes32, bytes16, AF_INET]
  · cases e <;> simp [byteAt, bytes32, bytes16] <;> omega
  · cases e <;>
    simp [rta_accepted, RTA_OK, RTA_NEXT, RTA_ALIGN_eq, rta_len, load16, byteAt, bytes32,
      bytes16, sizeof_rtattr, RTM_NEWADDR, NLM_F_REQUEST, NLM_F_CREATE, NLM_F_EXCL, AF_INET,
      IFA_LOCAL, IFA_ADDRESS, IFA_BROADCAST]
  · cases e <;>
    simp [rta_type, load16, byteAt, bytes32, bytes16, IFA_LOCAL, IFA_ADDRESS, IFA_BROADCAST]
  · cases e <;> simp [rta_len, load16, byteAt, bytes32, bytes16]
  · cases e <;>
    simp [RTA_PAYLOAD, RTA_LENGTH, RTA_ALIGN_eq, sizeof_rtattr, rta_len, load16, byteAt,
      bytes32, bytes16]
  · cases e <;> simp [bytes32, bytes16]
  · cases e <;> simp [bytes32, bytes16]
  · cases e <;> simp [bytes32, bytes16]
/-- C12. Layout of the message `set_ip_address` sends: the attributes start at length 24
(16-byte header and 8-byte `struct ifaddrmsg`), the attribute walk over `[24, nlmsg_len)` accepts
exactly three attributes, `IFA_LOCAL`, `IFA_ADDRESS`, `IFA_BROADCAST` in this order, with length
fields 8, 8 and 12 (payload lengths 4, 4 and 8), the sent `nlmsg_len` is 52, the flags are
`NLM_F_REQUEST | NLM_F_CREATE | NLM_F_EXCL`, the family is `AF_INET` and `ifa_prefixlen` is the
given prefix length (the `unsigned char` field holds every value from 0 to 255). -/
theorem set_ip_address_layout (e : Endian) (f : List Nat → Nat) (stack : Nat → Nat) (ip : Nat)
    (p : Int) (d : List Nat) (hp0 : 0 ≤ p) (hp : p ≤ 255) :
    NLMSG_LENGTH sizeof_ifaddrmsg = 24 ∧
    ∃ sent, set_ip_address e f stack ip p d = some (sent, 0) ∧ sent.length = 52 ∧
      nlmsg_len e sent 0 = 52 ∧
      nlmsg_flags e sent 0 = NLM_F_REQUEST ||| NLM_F_CREATE ||| NLM_F_EXCL ∧
      byteAt sent 16 = AF_INET ∧ ((byteAt sent 17 : Nat) : Int) = p ∧
      rta_accepted e sent ((nlmsg_len e sent 0 : Int) - 24).toNat 24
        ((nlmsg_len e sent 0 : Int) - 24) = [24, 32, 40] ∧
      [rta_type e sent 24, rta_type e sent 32, rta_type e sent 40]
        = [IFA_LOCAL, IFA_ADDRESS, IFA_BROADCAST] ∧
      [rta_len e sent 24, rta_len e sent 32, rta_len e sent 40] = [8, 8, 12] ∧
      [RTA_PAYLOAD e sent 24, RTA_PAYLOAD e sent 32, RTA_PAYLOAD e sent 40] = [4, 4, 8] := by
  refine ⟨by decide, ?_⟩
  obtain ⟨sent, s1, s2, s3, _, s5, s6, s7, s8, s9, s10, s11, _⟩ :=
    set_ip_address_fields e f stack ip p d
  refine ⟨sent, s1, s2, s3, s5, s6, ?_, ?_, s9, s10, s11⟩
  · rw [s7]; omega
  · rw [s3]
    exact s8

theorem set_ip_address_layout_witness :
    ((0 : Int) ≤ 24 ∧ (24 : Int) ≤ 255) ∧
    ∃ sent, set_ip_address .little (fun _ => 3) (fun i => 200 + i) 167772161 24
        [101, 116, 104, 48] = some (sent, 0) ∧
      sent.length = 52 ∧ nlmsg_len .little sent 0 = 52 := by
  refine ⟨by decide, ?_⟩
  obtain ⟨sent, s1, s2, s3, _⟩ := (set_ip_address_layout .little (fun _ => 3)
    (fun i => 200 + i) 167772161 24 [101, 116, 104, 48] (by decide) (by decide)).2
  exact ⟨sent, s1, s2, s3⟩

theorem set_ip_address_broadcast_eq (ip : Nat) (p : Int) (hip : ip < 4294967296)
    (h0 : 0 ≤ p) (h32 : p ≤ 32) :
    set_ip_address_broadcast ip p = ip ||| (2 ^ (32 - p.toNat) - 1) := by
  unfold set_ip_address_broadcast
  have : ((32 - p - 1) + 1).toNat = 32 - p.toNat := by omega
  rw [this, broadcast_loop_eq _ _ (by omega) hip]

/-- C13. Network byte order of addresses: for every 32-bit `ip` and prefix length `p` in
`0..32`, on a host of either byte order, in the message `set_ip_address` sends the payloads of
`IFA_LOCAL` and of `IFA_ADDRESS` are the four bytes of `ip`, most significant first, and the
first four payload bytes of `IFA_BROADCAST` are the four bytes of the computed broadcast value
`ip OR (2^(32-p) - 1)`, most significant first. -/
theorem set_ip_address_network_order (e : Endian) (f : List Nat → Nat) (stack : Nat → Nat)
    (ip : Nat) (p : Int) (d : List Nat) (hip : ip < 4294967296) (hp0 : 0 ≤ p) (hp : p ≤ 32) :
    ∃ sent, set_ip_address e f stack ip p d = some (sent, 0) ∧
      attr_view e sent 24 = (IFA_LOCAL, be32 ip) ∧
      attr_view e sent 32 = (IFA_ADDRESS, be32 ip) ∧
      rta_type e sent 40 = IFA_BROADCAST ∧
      (sent.drop (RTA_DATA 40)).take 4 = be32 (ip ||| (2 ^ (32 - p.toNat) - 1)) := by
  have hD : ∀ a, RTA_DATA a = a + 4 := by
    intro a
    have : RTA_ALIGN sizeof_rtattr = 4 := by decide
    simp [RTA_DATA, RTA_LENGTH, this]
  obtain ⟨sent, s1, _, _, _, _, _, _, _, s9, _, s11, s12, s13, s14⟩ :=
    set_ip_address_fields e f stack ip p d
  simp only [List.cons.injEq, and_true] at s9 s11
  obtain ⟨t1, t2, t3⟩ := s9
  obtain ⟨p1, p2, _⟩ := s11
  refine ⟨sent, s1, ?_, ?_, t3, ?_⟩
  · simp only [attr_view, hD, t1, p1]
    rw [show (4 : Int).toNat = 4 from rfl, s12, bytes32_htonl]
  · simp only [attr_view, hD, t2, p2]
    rw [show (4 : Int).toNat = 4 from rfl, s13, bytes32_htonl]
  · rw [hD]
    have h4 : (sent.drop 44).take 4 = ((sent.drop 44).take 8).take 4 := by
      rw [List.take_take]; rfl
    rw [h4, s14, bytes32_htonl, set_ip_address_broadcast_eq ip p hip hp0 hp]
    rfl

theorem set_ip_address_network_order_witness :
    ((167772161 : Nat) < 4294967296 ∧ (0 : Int) ≤ 24 ∧ (24 : Int) ≤ 32) ∧
    (∃ sent, set_ip_address .little (fun _ => 3) (fun i => 200 + i) 167772161 24
        [101, 116, 104, 48] = some (sent, 0) ∧
      attr_view .little sent 24 = (IFA_LOCAL, be32 167772161) ∧
      (sent.drop (RTA_DATA 40)).take 4 = be32 (167772161 ||| (2 ^ (32 - (24 : Int).toNat) - 1))) ∧
    be32 167772161 = [10, 0, 0, 1] ∧
    be32 (167772161 ||| (2 ^ (32 - (24 : Int).toNat) - 1)) = [10, 0, 0, 255] := by
  refine ⟨by decide, ?_, by decide, by decide⟩
  obtain ⟨sent, s1, s2, _, _, s5⟩ := set_ip_address_network_order .little (fun _ => 3)
    (fun i => 200 + i) 167772161 24 [101, 116, 104, 48] (by decide) (by decide) (by decide)
  exact ⟨sent, s1, s2, s5⟩

theorem create_bridge_ret (e : Endian) (name : List Nat) (o : List Nat × Int)
    (h : create_bridge e name = some o) : o.2 = 0 := by
  unfold create_bridge at h
  cases h1 : add_netlink_msg e (create_bridge_init e) IFLA_IFNAME (cstr name ++ [0])
      (strlen name + 1) with
  | none => rw [h1] at h; simp at h
  | some r =>
    rw [h1] at h
    simp only [Option.some_bind] at h
    cases h2 : nest_attr e r IFLA_LINKINFO IFLA_INFO_KIND (dev_type ++ [0])
        (strlen dev_type + 1) with
    | none => rw [h2] at h; simp at h
    | some r2 =>
      rw [h2] at h
      simp only [Option.some_bind, Option.some.injEq] at h
      rw [← h]

theorem send_and_return_some (s : Socket) (msg : List Nat) (ret : Int) :
    ∃ s', send_and_return s (some (msg, ret)) = some (s', ret) ∧
      s'.pending = s.pending ∧ s'.sent.length = s.sent.length + 1 :=
  ⟨{ s with sent := s.sent ++ [msg] }, rfl, rfl, by simp⟩

/-- C16 (amended). Mutations report success: for every name resolution and every socket
(whatever `send` returns, a failure included), `join_bridge`, `leave_bridge`, `set_ip_address`
and `dev_up` hand one message to `send` and return 0 for every argument, and so does
`create_bridge` for every name of at most 1003 bytes, the names whose message fits its 1056-byte
scratch structure; none of them reads a reply: the replies pending on the socket are left as
they were. -/
theorem mutations_report_success (e : Endian) (f : List Nat → Nat) (stack : Nat → Nat)
    (s : Socket) :
    (∀ name : List Nat, strlen name ≤ 1003 →
      ∃ s', send_and_return s (create_bridge e name) = some (s', 0) ∧
        s'.pending = s.pending ∧ s'.sent.length = s.sent.length + 1) ∧
    (∀ (b : Option (List Nat)) (i : Int),
      ∃ s', send_and_return s (join_bridge e f b i) = some (s', 0) ∧
        s'.pending = s.pending ∧ s'.sent.length = s.sent.length + 1) ∧
    (∀ i : Int,
      ∃ s', send_and_return s (leave_bridge e f i) = some (s', 0) ∧
        s'.pending = s.pending ∧ s'.sent.length = s.sent.length + 1) ∧
    (∀ (ip : Nat) (p : Int) (d : List Nat),
      ∃ s', send_and_return s (set_ip_address e f stack ip p d) = some (s', 0) ∧
        s'.pending = s.pending ∧ s'.sent.length = s.sent.length + 1) ∧
    (∀ d : List Nat,
      ∃ s', send_and_return s (some (dev_up e f d)) = some (s', 0) ∧
        s'.pending = s.pending ∧ s'.sent.length = s.sent.length + 1) := by
  refine ⟨?_, ?_, ?_, ?_, ?_⟩
  · intro name hfit
    have hcap : 32 + align (4 + (strlen name + 1)) + 16 ≤ 1056 := by
      unfold align
      omega
    obtain ⟨sent, h1, _⟩ := create_bridge_linkinfo e name hcap
    rw [h1]
    exact send_and_return_some s sent 0
  · intro b i
    rw [join_bridge_bytes]
    exact send_and_return_some s _ 0
  · intro i
    unfold leave_bridge
    rw [join_bridge_bytes]
    exact send_and_return_some s _ 0
  · intro ip p d
    rw [set_ip_address_bytes]
    exact send_and_return_some s _ 0
  · intro d
    rw [dev_up_bytes]
    exact send_and_return_some s _ 0

theorem mutations_report_success_witness :
    strlen [98, 114, 48] ≤ 1003 ∧
    ∃ s', send_and_return { send_result := fun _ => -1, sent := [], pending := [(20, ex_done)] }
        (create_bridge .little [98, 114, 48]) = some (s', 0) ∧
      s'.pending = [(20, ex_done)] ∧ s'.sent.length = 1 := by
  refine ⟨by decide, ?_⟩
  obtain ⟨s', h1, h2, h3⟩ := (mutations_report_success .little (fun _ => 0) (fun _ => 0)
    { send_result := fun _ => -1, sent := [], pending := [(20, ex_done)] }).1
      [98, 114, 48] (by decide)
  exact ⟨s', h1, h2, h3⟩

set_option maxRecDepth 100000 in
/-- The calls of `create_bridge` for the 1004-byte name `ex_long_name`: the `IFLA_IFNAME`
attribute fits and leaves `nlmsg_len = 1044`; a later store leaves the scratch structure. -/
theorem create_bridge_long_name :
    strlen ex_long_name = 1004 ∧
    (add_netlink_msg .little (create_bridge_init .little) IFLA_IFNAME (cstr ex_long_name ++ [0])
      (strlen ex_long_name + 1)).map (fun r => nlmsg_len .little r 0) = some 1044 ∧
    create_bridge .little ex_long_name = none :=
  ⟨by decide, by decide, by decide⟩

/-- C16 (counterexample). For the 1004-byte name `ex_long_name` the calls of `create_bridge` do
not stay inside its scratch structure `r` of 1056 bytes: the `IFLA_IFNAME` attribute still fits
and leaves `nlmsg_len = 1044`, the `IFLA_LINKINFO` header takes the bytes up to 1048, and the
nested `IFLA_INFO_KIND` attribute of `4 + 7` bytes would end at offset 1059. The function has
no defined outcome: it is not so that it sends a message and returns 0. -/
theorem create_bridge_name_overrun :
    strlen ex_long_name = 1004 ∧ link_scratch.length = 1056 ∧
    (add_netlink_msg .little (create_bridge_init .little) IFLA_IFNAME (cstr ex_long_name ++ [0])
      (strlen ex_long_name + 1)).map (fun r => nlmsg_len .little r 0) = some 1044 ∧
    create_bridge .little ex_long_name = none ∧
    send_and_return { send_result := fun _ => 0, sent := [], pending := [] }
      (create_bridge .little ex_long_name) = none := by
  refine ⟨create_bridge_long_name.1, link_scratch_length, create_bridge_long_name.2.1,
    create_bridge_long_name.2.2, ?_⟩
  rw [create_bridge_long_name.2.2]
  rfl

/-- The attribute loop of `get_netdev_names` as a fold over the attributes it accepts. -/
theorem names_rta_walk_eq_foldl (e : Endian) (buf : Buf) (fuel : Nat) :
    ∀ (rta : Nat) (l : Int) (slot : Option (List Nat)),
      names_rta_walk e buf fuel rta l slot =
        (rta_accepted e buf fuel rta l).foldl
          (fun s a => if rta_type e buf a = IFLA_IFNAME then some (strdup buf (RTA_DATA a))
            else s) slot := by
  induction fuel with
  | zero => intro rta l slot; rfl
  | succ f ih =>
    intro rta l slot
    unfold names_rta_walk rta_accepted
    by_cases hok : RTA_OK e buf rta l = true
    · rw [if_pos hok, if_pos hok, List.foldl_cons]
      exact ih _ _ _
    · rw [if_neg hok, if_neg hok]
      rfl

/-- The attribute loop of `get_fdb` as a fold over the attributes it accepts. -/
theorem fdb_rta_walk_eq_foldl (e : Endian) (buf : Buf) (fuel : Nat) :
    ∀ (rta : Nat) (l : Int) (addr : Nat → Nat),
      fdb_rta_walk e buf fuel rta l addr =
        (rta_accepted e buf fuel rta l).foldl
          (fun s a => if rta_type e buf a = NDA_LLADDR then
              copy_lladdr buf (RTA_DATA a) (RTA_PAYLOAD e buf a).toNat s
            else s) addr := by
  induction fuel with
  | zero => intro rta l addr; rfl
  | succ f ih =>
    intro rta l addr
    unfold fdb_rta_walk rta_accepted
    by_cases hok : RTA_OK e buf rta l = true
    · rw [if_pos hok, if_pos hok, List.foldl_cons]
      exact ih _ _ _
    · rw [if_neg hok, if_neg hok]
      rfl

/-- The message loop as a fold of the body over the accepted messages that are not
terminators. -/
theorem msg_walk_eq_foldl {σ : Type} (e : Endian) (body : Buf → Nat → σ → σ) (buf : Buf)
    (fuel : Nat) :
    ∀ (nh : Nat) (len : Int) (st : σ),
      (msg_walk e body buf fuel nh len st).2 =
        ((msg_accepted e buf fuel nh len).filter
          (fun o => decide (nlmsg_type e buf o ≠ NLMSG_DONE))).foldl
          (fun s o => body buf o s) st := by
  induction fuel with
  | zero => intro nh len st; rfl
  | succ f ih =>
    intro nh len st
    unfold msg_walk msg_accepted
    by_cases hok : NLMSG_OK e buf nh len = true
    · rw [if_pos hok, if_pos hok]
      by_cases hd : nlmsg_type e buf nh = NLMSG_DONE
      · rw [if_pos hd, if_pos hd]
        simp [hd]
      · rw [if_neg hd, if_neg hd, List.filter_cons_of_pos (by simpa using hd), List.foldl_cons]
        exact ih _ _ _
    · rw [if_neg hok, if_neg hok]
      rfl

theorem msg_accepted_length (e : Endian) (buf : Buf) (fuel : Nat) :
    ∀ (nh : Nat) (len : Int), len < 2147483648 →
      (msg_accepted e buf fuel nh len).length ≤ len.toNat / 16 := by
  induction fuel with
  | zero => intro nh len _; simp [msg_accepted]
  | succ f ih =>
    intro nh len hlen
    unfold msg_accepted
    by_cases hok : NLMSG_OK e buf nh len = true
    · rw [if_pos hok]
      have h16 : 16 ≤ len := by
        simp only [NLMSG_OK, sizeof_nlmsghdr, Bool.and_eq_true, decide_eq_true_eq] at hok
        omega
      by_cases hd : nlmsg_type e buf nh = NLMSG_DONE
      · rw [if_pos hd]
        simp only [List.length_singleton]
        omega
      · rw [if_neg hd, List.length_cons]
        have hs := NLMSG_OK_step hlen hok
        have := ih (NLMSG_NEXT e buf nh len).1 (NLMSG_NEXT e buf nh len).2 (by omega)
        omega
    · rw [if_neg hok]
      simp

theorem rta_accepted_length (e : Endian) (buf : Buf) (fuel : Nat) :
    ∀ (rta : Nat) (l : Int), (rta_accepted e buf fuel rta l).length ≤ l.toNat / 4 := by
  induction fuel with
  | zero => intro rta l; simp [rta_accepted]
  | succ f ih =>
    intro rta l
    unfold rta_accepted
    by_cases hok : RTA_OK e buf rta l = true
    · rw [if_pos hok, List.length_cons]
      have h4 : 4 ≤ l := by
        simp only [RTA_OK, sizeof_rtattr, Bool.and_eq_true, decide_eq_true_eq] at hok
        omega
      have hs := (RTA_OK_step hok).2
      have := ih (RTA_NEXT e buf rta l).1 (RTA_NEXT e buf rta l).2
      omega
    · rw [if_neg hok]
      simp

/-- C18. Inner walks terminate: for every buffer content and every received length in the range
of `int` (0 and negative values included), the message walk over one buffer and the attribute
walk over one message terminate: every accepted message lowers the remaining length by at least
16 and every accepted attribute lowers the budget by at least 4, so that the iteration bounds
`len` and `l` of the model are never reached (any larger bound gives the same result), the
message walk accepts at most `len/16` messages and an attribute walk with budget `l` accepts at
most `l/4` attributes. -/
theorem inner_walks_terminate (e : Endian) (buf : Buf) (len : Int) (hlen : len < 2147483648) :
    (∀ nh : Nat, NLMSG_OK e buf nh len = true → (NLMSG_NEXT e buf nh len).2 ≤ len - 16) ∧
    (∀ (rta : Nat) (l : Int), RTA_OK e buf rta l = true → (RTA_NEXT e buf rta l).2 ≤ l - 4) ∧
    (∀ (fuel nh : Nat), (msg_accepted e buf fuel nh len).length ≤ len.toNat / 16) ∧
    (∀ (fuel rta : Nat) (l : Int), (rta_accepted e buf fuel rta l).length ≤ l.toNat / 4) ∧
    (∀ (fuel nh : Nat) (stN : Names) (ito : Nat → Option (List Nat)) (fresh : Nat → Nat → Nat)
        (stF : Fdb), len ≤ fuel →
      msg_walk e (names_body e) buf fuel nh len stN
        = msg_walk e (names_body e) buf len.toNat nh len stN ∧
      msg_walk e (fdb_body e ito fresh) buf fuel nh len stF
        = msg_walk e (fdb_body e ito fresh) buf len.toNat nh len stF) ∧
    (∀ (fuel rta : Nat) (l : Int) (slot : Option (List Nat)) (addr : Nat → Nat), l ≤ fuel →
      names_rta_walk e buf fuel rta l slot = names_rta_walk e buf l.toNat rta l slot ∧
      fdb_rta_walk e buf fuel rta l addr = fdb_rta_walk e buf l.toNat rta l addr) ∧
    (len ≤ 0 → ∀ (nh : Nat) (stN : Names),
      msg_walk e (names_body e) buf len.toNat nh len stN = (false, stN)) := by
  refine ⟨fun nh h => NLMSG_OK_step hlen h, fun rta l h => (RTA_OK_step h).2,
    fun fuel nh => msg_accepted_length e buf fuel nh len hlen,
    fun fuel rta l => rta_accepted_length e buf fuel rta l, ?_, ?_, ?_⟩
  · intro fuel nh stN ito fresh stF hf
    exact ⟨msg_walk_fuel e _ buf fuel len.toNat nh len stN hlen hf (by omega),
      msg_walk_fuel e _ buf fuel len.toNat nh len stF hlen hf (by omega)⟩
  · intro fuel rta l slot addr hf
    exact ⟨names_rta_walk_fuel e buf fuel l.toNat rta l slot hf (by omega),
      fdb_rta_walk_fuel e buf fuel l.toNat rta l addr hf (by omega)⟩
  · intro h0 nh stN
    apply msg_walk_stop
    rw [Bool.eq_false_iff]
    intro hc
    simp only [NLMSG_OK, sizeof_nlmsghdr, Bool.and_eq_true, decide_eq_true_eq] at hc
    omega

theorem inner_walks_terminate_witness :
    ((64 : Int) < 2147483648) ∧
    (msg_accepted .little (ex_link_msg ++ ex_done) 64 0 64).length ≤ (64 : Int).toNat / 16 ∧
    (rta_accepted .little (ex_link_msg ++ ex_done) 44 32 44).length ≤ (44 : Int).toNat / 4 :=
  ⟨by decide,
    (inner_walks_terminate .little (ex_link_msg ++ ex_done) 64 (by decide)).2.2.1 64 0,
    (inner_walks_terminate .little (ex_link_msg ++ ex_done) 64 (by decide)).2.2.2.1 44 32 44⟩

/-- C17 (evaluation at the failing input). One read of 64 bytes, the link message `ex_link_msg`
(`nlmsg_len = 44`) followed by a 20-byte `NLMSG_DONE`. The message walk accepts the message at
offset 0 and the terminator at offset 44. The attribute walk of `get_netdev_names` for the
message, from offset 32 with budget 44, accepts the attributes at offsets 32 and 44: the second
one is the terminator's header, read as an attribute of length 20, and `44 + 20` exceeds the
message's `nlmsg_len`. The same happens in `get_fdb` for `ex_neigh_msg` (`nlmsg_len = 40`): its
walk from offset 28 with budget 40 accepts the offsets 28 and 40. -/
theorem rta_walk_overrun_eval :
    msg_accepted .little (ex_link_msg ++ ex_done) 64 0 64 = [0, 44] ∧
    nlmsg_len .little (ex_link_msg ++ ex_done) 0 = 44 ∧
    rta_accepted .little (ex_link_msg ++ ex_done) 44 (IFLA_RTA (NLMSG_DATA 0)) 44 = [32, 44] ∧
    rta_len .little (ex_link_msg ++ ex_done) 44 = 20 ∧ ¬ (44 + 20 ≤ 44) ∧
    msg_accepted .little (ex_neigh_msg ++ ex_done) 60 0 60 = [0, 40] ∧
    nlmsg_len .little (ex_neigh_msg ++ ex_done) 0 = 40 ∧
    rta_accepted .little (ex_neigh_msg ++ ex_done) 40 (IFLA_RTA (NLMSG_DATA 0) - 4) 40
      = [28, 40] ∧
    rta_len .little (ex_neigh_msg ++ ex_done) 40 = 20 ∧ ¬ (40 + 20 ≤ 40) := by
  decide

theorem rta_accepted_cons {e : Endian} {buf : Buf} {fuel rta : Nat} {l : Int}
    (h : RTA_OK e buf rta l = true) (hf : l ≤ fuel) :
    rta_accepted e buf fuel rta l = rta :: rta_accepted e buf (fuel - 1)
      (rta + RTA_ALIGN (rta_len e buf rta)) (l - (RTA_ALIGN (rta_len e buf rta) : Nat)) := by
  cases fuel with
  | zero =>
    simp only [RTA_OK, sizeof_rtattr, Bool.and_eq_true, decide_eq_true_eq] at h
    push_cast at hf
    omega
  | succ f =>
    rw [rta_accepted, if_pos h]
    rfl

theorem RTA_OK_intro {e : Endian} {buf : Buf} {rta : Nat} {l : Int}
    (h4 : 4 ≤ rta_len e buf rta) (hl : (rta_len e buf rta : Int) ≤ l) :
    RTA_OK e buf rta l = true := by
  simp only [RTA_OK, sizeof_rtattr, Bool.and_eq_true, decide_eq_true_eq]
  omega

theorem rta_accepted_nil {e : Endian} {buf : Buf} {fuel rta : Nat} {l : Int}
    (h : RTA_OK e buf rta l = false) : rta_accepted e buf fuel rta l = [] := by
  cases fuel with
  | zero => rfl
  | succ f => rw [rta_accepted, h]; rfl

theorem take_drop_take {m : Buf} {N o k : Nat} (h : o + k ≤ N) :
    ((m.take N).drop o).take k = (m.drop o).take k := by
  rw [List.drop_take, List.take_take]
  congr 1
  omega

/-- The message `create_bridge` sends, field by field. -/
theorem create_bridge_sent (e : Endian) (name : List Nat)
    (hcap : 32 + align (4 + (strlen name + 1)) + 16 ≤ 1056) :
    ∃ sent, create_bridge e name = some (sent, 0) ∧
      sent.length = 32 + align (4 + (strlen name + 1)) + 16 ∧
      nlmsg_len e sent 0 = 32 + align (4 + (strlen name + 1)) + 16 ∧
      (∀ i, 4 ≤ i → i < 32 → sent.getD i 0 = (create_bridge_init e).getD i 0) ∧
      rta_len e sent 32 = 4 + (strlen name + 1) ∧ rta_type e sent 32 = IFLA_IFNAME ∧
      (sent.drop 36).take (strlen name + 1) = cstr name ++ [0] ∧
      rta_len e sent (32 + align (4 + (strlen name + 1))) = 16 ∧
      rta_type e sent (32 + align (4 + (strlen name + 1))) = IFLA_LINKINFO ∧
      rta_len e sent (32 + align (4 + (strlen name + 1)) + 4) = 11 ∧
      rta_type e sent (32 + align (4 + (strlen name + 1)) + 4) = IFLA_INFO_KIND ∧
      (sent.drop (32 + align (4 + (strlen name + 1)) + 8)).take 7 = dev_type ++ [0] := by
  obtain ⟨l5, n5⟩ := create_bridge_init_spec e
  have hal : align (4 + (strlen name + 1))
      = 4 + (strlen name + 1) + 3 - (4 + (strlen name + 1) + 3) % 4 := by unfold align; omega
  have ha : 32 = NLMSG_ALIGN (nlmsg_len e (create_bridge_init e) 0) := by rw [n5]; decide
  have hdl : (cstr name ++ [0]).length = strlen name + 1 := by simp [strlen]
  obtain ⟨r6, h6, l6, n6, rl6, rt6, p6, f6⟩ := add_netlink_msg_fields e _ IFLA_IFNAME
    (cstr name ++ [0]) (strlen name + 1) 32 ha (by omega) (by omega) (by omega)
  have n6b : nlmsg_len e r6 0 = 32 + align (4 + (strlen name + 1)) := by
    rw [n6, Nat.mod_eq_of_lt (by omega : 4 + (strlen name + 1) < 4294967296),
      RTA_ALIGN_small (by omega), Nat.mod_eq_of_lt (by omega)]
  have hmod := align_mod4 (4 + (strlen name + 1))
  have hk : align (4 + (strlen dev_type + 1)) = 12 := by decide
  have hs7 : strlen dev_type + 1 = 7 := by decide
  obtain ⟨r7, h7, l7, n7, rl7, rt7, rl8, rt8, p8, f7⟩ := nest_attr_spec e r6 IFLA_LINKINFO
    IFLA_INFO_KIND (dev_type ++ [0]) (strlen dev_type + 1)
    (32 + align (4 + (strlen name + 1))) n6b (by omega) (by omega) (by decide)
    (by rw [hk]; omega) (by omega)
  rw [hk] at n7 rl7
  rw [hs7] at rl8 p8
  have hN : nlmsg_len e r7 0 = 32 + align (4 + (strlen name + 1)) + 16 := by rw [n7]
  have g : ∀ i, i < 32 + align (4 + (strlen name + 1)) + 16 →
      (r7.take (nlmsg_len e r7 0)).getD i 0 = r7.getD i 0 := by
    intro i hi
    exact getD_take_lt (by rw [hN]; exact hi)
  have l16 : ∀ o, o + 2 ≤ 32 + align (4 + (strlen name + 1)) + 16 →
      load16 e (r7.take (nlmsg_len e r7 0)) o = load16 e r7 o := by
    intro o ho
    exact load16_take (by rw [hN]; exact ho)
  have l16b : ∀ o, 4 ≤ o → o + 2 ≤ 32 + align (4 + (strlen name + 1)) →
      load16 e r7 o = load16 e r6 o := by
    intro o h4 ho
    apply load16_congr <;> apply f7 <;> omega
  refine ⟨r7.take (nlmsg_len e r7 0), ?_, ?_, ?_, ?_, ?_, ?_, ?_, ?_, ?_, ?_, ?_, ?_⟩
  · simp only [create_bridge, h6, Option.some_bind, h7]
  · rw [List.length_take, hN]; omega
  · unfold nlmsg_len at hN ⊢
    rw [load32_take (by rw [hN]; omega), hN]
  · intro i h4 h32
    rw [g i (by omega), f7 i h4 (by omega), f6 i h4 (Or.inl h32)]
  · unfold rta_len at rl6 ⊢
    rw [l16 32 (by omega), l16b 32 (by omega) (by omega), rl6, Nat.mod_eq_of_lt (by omega)]
  · unfold rta_type at rt6 ⊢
    rw [l16 34 (by omega), l16b 34 (by omega) (by omega), rt6]
    decide
  · rw [take_drop_take (by rw [hN]; omega), ← hdl, ← List.take_length (l := cstr name ++ [0])]
    rw [hdl, ← p6]
    apply List.ext_getElem
    · simp only [List.length_take, List.length_drop]; omega
    · intro i h1 h2
      simp only [List.length_take, List.length_drop] at h1
      simp only [List.getElem_take, List.getElem_drop]
      exact getElem_of_getD (by omega) (by omega) (f7 (36 + i) (by omega) (by omega))
  · unfold rta_len at rl7 ⊢
    rw [l16 _ (by omega), rl7]
  · unfold rta_type at rt7 ⊢
    rw [l16 _ (by omega), rt7]
    decide
  · unfold rta_len at rl8 ⊢
    rw [l16 _ (by omega), rl8]
  · unfold rta_type at rt8 ⊢
    rw [l16 _ (by omega), rt8]
    decide
  · rw [take_drop_take (by rw [hN]; omega), p8]
    rfl

/-- C11. The message `create_bridge` sends for a name that fits the scratch structure: header
type `RTM_NEWLINK`, flags exactly `NLM_F_REQUEST | NLM_F_CREATE | NLM_F_EXCL`, body family
`AF_PACKET` and index 0, total length `32 + align(4 + n + 1) + 16` for a name of `n` bytes;
walking the attribute region `[32, nlmsg_len)` yields exactly two attributes, `IFLA_IFNAME`
whose payload is the name with its terminating NUL, then `IFLA_LINKINFO`; walking the payload of
`IFLA_LINKINFO` yields exactly one attribute, `IFLA_INFO_KIND` with payload `"bridge"` and its
terminating NUL. -/
theorem create_bridge_content (e : Endian) (name : List Nat)
    (hcap : 32 + align (4 + (strlen name + 1)) + 16 ≤ 1056) :
    ∃ sent, create_bridge e name = some (sent, 0) ∧
      nlmsg_type e sent 0 = RTM_NEWLINK ∧
      nlmsg_flags e sent 0 = NLM_F_REQUEST ||| NLM_F_CREATE ||| NLM_F_EXCL ∧
      byteAt sent 16 = AF_PACKET ∧ load32 e sent 20 = 0 ∧
      nlmsg_len e sent 0 = 32 + align (4 + strlen name + 1) + 16 ∧
      sent.length = nlmsg_len e sent 0 ∧
      decode_attrs e sent 32 ((nlmsg_len e sent 0 : Int) - 32) =
        [(IFLA_IFNAME, cstr name ++ [0]),
          (IFLA_LINKINFO,
            (sent.drop (RTA_DATA (32 + align (4 + strlen name + 1)))).take 12)] ∧
      RTA_PAYLOAD e sent (32 + align (4 + strlen name + 1)) = 12 ∧
      decode_attrs e sent (RTA_DATA (32 + align (4 + strlen name + 1)))
          (RTA_PAYLOAD e sent (32 + align (4 + strlen name + 1))) =
        [(IFLA_INFO_KIND, dev_type ++ [0])] := by
  have hassoc : 4 + strlen name + 1 = 4 + (strlen name + 1) := by omega
  rw [hassoc]
  obtain ⟨sent, h1, hl, hn, hf, rl1, rt1, p1, rl2, rt2, rl3, rt3, p3⟩ :=
    create_bridge_sent e name hcap
  obtain ⟨_, n5⟩ := create_bridge_init_spec e
  have hal : align (4 + (strlen name + 1))
      = 4 + (strlen name + 1) + 3 - (4 + (strlen name + 1) + 3) % 4 := by unfold align; omega
  have hD : ∀ a, RTA_DATA a = a + 4 := by
    intro a
    have : RTA_ALIGN sizeof_rtattr = 4 := by decide
    simp [RTA_DATA, RTA_LENGTH, this]
  have hR0 : RTA_LENGTH 0 = 4 := by decide
  have hty : nlmsg_type e sent 0 = RTM_NEWLINK := by
    have : nlmsg_type e (create_bridge_init e) 0 = RTM_NEWLINK := by cases e <;> rfl
    rw [← this]
    unfold nlmsg_type
    apply load16_congr <;> apply hf <;> omega
  have hfl : nlmsg_flags e sent 0 = NLM_F_REQUEST ||| NLM_F_CREATE ||| NLM_F_EXCL := by
    have : nlmsg_flags e (create_bridge_init e) 0
        = NLM_F_REQUEST ||| NLM_F_CREATE ||| NLM_F_EXCL := by cases e <;> rfl
    rw [← this]
    unfold nlmsg_flags
    apply load16_congr <;> apply hf <;> omega
  have hfam : byteAt sent 16 = AF_PACKET := by
    have : byteAt (create_bridge_init e) 16 = AF_PACKET := by cases e <;> rfl
    rw [← this]
    unfold byteAt
    rw [hf 16 (by omega) (by omega)]
  have hidx : load32 e sent 20 = 0 := by
    have : load32 e (create_bridge_init e) 20 = 0 := by cases e <;> rfl
    rw [← this]
    apply load32_congr <;> apply hf <;> omega
  have hA1 : RTA_ALIGN (4 + (strlen name + 1)) = align (4 + (strlen name + 1)) :=
    RTA_ALIGN_small (by omega)
  have hA2 : RTA_ALIGN 16 = 16 := by decide
  have hA3 : RTA_ALIGN 11 = 12 := by decide
  -- the top-level walk
  have ok1 : RTA_OK e sent 32 (((32 + align (4 + (strlen name + 1)) + 16 : Nat) : Int) - 32)
      = true := by
    apply RTA_OK_intro
    · rw [rl1]; omega
    · rw [rl1]; push_cast; omega
  have ok2 : RTA_OK e sent (32 + align (4 + (strlen name + 1)))
      (((32 + align (4 + (strlen name + 1)) + 16 : Nat) : Int) - 32
        - ((align (4 + (strlen name + 1)) : Nat) : Int)) = true := by
    apply RTA_OK_intro
    · rw [rl2]; decide
    · rw [rl2]; push_cast; omega
  have ok3 : RTA_OK e sent (32 + align (4 + (strlen name + 1)) + 16)
      (((32 + align (4 + (strlen name + 1)) + 16 : Nat) : Int) - 32
        - ((align (4 + (strlen name + 1)) : Nat) : Int) - ((16 : Nat) : Int)) = false :=
    RTA_OK_false_of_le (by push_cast; omega)
  have hwalk : rta_accepted e sent
      (((32 + align (4 + (strlen name + 1)) + 16 : Nat) : Int) - 32).toNat 32
      (((32 + align (4 + (strlen name + 1)) + 16 : Nat) : Int) - 32)
      = [32, 32 + align (4 + (strlen name + 1))] := by
    rw [rta_accepted_cons ok1 (by omega), rl1, hA1,
      rta_accepted_cons ok2 (by push_cast; omega), rl2, hA2, rta_accepted_nil ok3]
  -- the nested walk
  have ok4 : RTA_OK e sent (32 + align (4 + (strlen name + 1)) + 4) 12 = true := by
    apply RTA_OK_intro
    · rw [rl3]; decide
    · rw [rl3]; decide
  have ok5 : RTA_OK e sent (32 + align (4 + (strlen name + 1)) + 4 + 12)
      (12 - ((12 : Nat) : Int)) = false :=
    RTA_OK_false_of_le (by decide)
  have hnest : rta_accepted e sent (12 : Int).toNat (32 + align (4 + (strlen name + 1)) + 4) 12
      = [32 + align (4 + (strlen name + 1)) + 4] := by
    rw [rta_accepted_cons ok4 (by decide), rl3, hA3, rta_accepted_nil ok5]
  have hP2 : RTA_PAYLOAD e sent (32 + align (4 + (strlen name + 1))) = 12 := by
    simp only [RTA_PAYLOAD, rl2, hR0]
    decide
  refine ⟨sent, h1, hty, hfl, hfam, hidx, hn, by rw [hl, hn], ?_, hP2, ?_⟩
  · rw [hn]
    simp only [decode_attrs, hwalk, List.map_cons, List.map_nil, attr_view, hD, rt1, rt2,
      RTA_PAYLOAD, rl1, rl2, hR0]
    have e1 : (((4 + (strlen name + 1) : Nat) : Int) - ((4 : Nat) : Int)).toNat
        = strlen name + 1 := by omega
    have e2 : (((16 : Nat) : Int) - ((4 : Nat) : Int)).toNat = 12 := by decide
    rw [e1, e2, p1]
  · rw [hP2, hD]
    simp only [decode_attrs, hnest, List.map_cons, List.map_nil, attr_view, hD, rt3,
      RTA_PAYLOAD, rl3, hR0]
    have e3 : (((11 : Nat) : Int) - ((4 : Nat) : Int)).toNat = 7 := by decide
    have e4 : 32 + align (4 + (strlen name + 1)) + 4 + 4
        = 32 + align (4 + (strlen name + 1)) + 8 := by omega
    rw [e3, e4, p3]

theorem create_bridge_content_witness :
    32 + align (4 + (strlen [98, 114, 48] + 1)) + 16 ≤ 1056 ∧
    ∃ sent, create_bridge .little [98, 114, 48] = some (sent, 0) ∧
      nlmsg_len .little sent 0 = 32 + align (4 + strlen [98, 114, 48] + 1) + 16 ∧
      decode_attrs .little sent (RTA_DATA (32 + align (4 + strlen [98, 114, 48] + 1)))
          (RTA_PAYLOAD .little sent (32 + align (4 + strlen [98, 114, 48] + 1))) =
        [(IFLA_INFO_KIND, dev_type ++ [0])] := by
  refine ⟨by decide, ?_⟩
  obtain ⟨sent, h1, _, _, _, _, h6, _, _, _, h10⟩ :=
    create_bridge_content .little [98, 114, 48] (by decide)
  exact ⟨sent, h1, h6, h10⟩

end Netlink
